import Mathlib

/-!
# ser20: shared-pointer identity tables, cast registry and pointer wrappers

A shallow embedding of the pointer serialization core of ser20:

* `src/src/cereal.cpp` (the per-archive identity tables),
* `src/src/polymorphic_impl.cpp` and `include/ser20/details/polymorphic_impl.hpp`
  (the relationship registry, the casts and the bindings),
* `include/ser20/types/memory.hpp` (the smart-pointer wrappers).

Conventions: an address is a natural number and `0` is the null pointer; a
`std::uint32_t` is a natural number kept below `2 ^ 32`; an exception is a value
of `Except Exception`; the hash maps of the source are association lists.
-/

namespace Ser20

/-! ## Basic types -/

/-- An address; `0` is `nullptr`. -/
abbrev Addr := Nat

/-- The exception type of the library: `ser20::Exception` carries a message. -/
structure Exception where
  what : String
deriving DecidableEq, Repr

/-- Modelled from the spec: the constant `detail::msb_32bit` (its header is not
part of the sources at hand); the spec fixes it as bit 31 of a 32-bit id. -/
def msb_32bit : Nat := 0x80000000

/-- Truncation of a natural number to `std::uint32_t`. -/
def toU32 (n : Nat) : Nat := n % 2 ^ 32

/-- The C++ test `id & detail::msb_32bit` used as a condition. -/
def hasMsb (id : Nat) : Bool := id &&& msb_32bit != 0

/-- The C++ expression `id & ~detail::msb_32bit` on a `std::uint32_t`. -/
def stripMsb (id : Nat) : Nat := id &&& (0xFFFFFFFF ^^^ msb_32bit)

/-! ## Hash maps as association lists -/

/-- The member `find` of a map: the value stored under `k`, if any. -/
def mapFind {κ ν : Type} [DecidableEq κ] : List (κ × ν) → κ → Option ν
  | [], _ => none
  | (k', v) :: rest, k => if k' = k then some v else mapFind rest k

/-- The member `emplace` (and `insert`) of a map with unique keys: the pair is
added only when the key is absent. -/
def mapEmplace {κ ν : Type} [DecidableEq κ] (m : List (κ × ν)) (k : κ) (v : ν) :
    List (κ × ν) :=
  match mapFind m k with
  | some _ => m
  | none => m ++ [(k, v)]

/-- The assignment `m[k] = v` of a map: overwrite the value under `k`, or add
the pair when the key is absent. -/
def mapAssign {κ ν : Type} [DecidableEq κ] : List (κ × ν) → κ → ν → List (κ × ν)
  | [], k, v => [(k, v)]
  | (k', v') :: rest, k, v =>
    if k' = k then (k', v) :: rest else (k', v') :: mapAssign rest k v

/-! ## `src/src/cereal.cpp`: the identity tables -/

/-- The output identity table: the address-to-id map, the id counter and the
vector that keeps the registered pointers alive. -/
structure OutputSharedPointerStorage where
  itsSharedPointerMap : List (Addr × Nat)
  itsCurrentPointerId : Nat
  itsSharedPointerStorage : List Addr
deriving DecidableEq, Repr

/-- Modelled from the spec: the initial state of the output table (the class
declaration is not part of the sources at hand). Ordinal 0 is the null marker
and ordinals increase, so the counter starts at 1 with an empty map. -/
def OutputSharedPointerStorage.init : OutputSharedPointerStorage :=
  { itsSharedPointerMap := [], itsCurrentPointerId := 1, itsSharedPointerStorage := [] }

/-- The function `OutputSharedPointerStorage::registerSharedPointer`; the
argument is the address `sharedPointer.get()`. Returns the id and the new
table. -/
def OutputSharedPointerStorage.registerSharedPointer (s : OutputSharedPointerStorage)
    (addr : Addr) : Nat × OutputSharedPointerStorage :=
  if addr = 0 then (0, s)
  else
    let s1 := { s with itsSharedPointerStorage := s.itsSharedPointerStorage ++ [addr] }
    match mapFind s1.itsSharedPointerMap addr with
    | none =>
      let ptrId := s1.itsCurrentPointerId
      (ptrId ||| msb_32bit,
        { s1 with
          itsCurrentPointerId := toU32 (ptrId + 1)
          itsSharedPointerMap := mapEmplace s1.itsSharedPointerMap addr ptrId })
    | some id => (id, s1)

/-- The table after registering a sequence of addresses, one after the other. -/
def OutputSharedPointerStorage.registerAll (s : OutputSharedPointerStorage) :
    List Addr → OutputSharedPointerStorage
  | [] => s
  | a :: rest => OutputSharedPointerStorage.registerAll (s.registerSharedPointer a).2 rest

/-- The ids returned while registering a sequence of addresses. -/
def OutputSharedPointerStorage.idsOf (s : OutputSharedPointerStorage) :
    List Addr → List Nat
  | [] => []
  | a :: rest =>
    (s.registerSharedPointer a).1 ::
      OutputSharedPointerStorage.idsOf (s.registerSharedPointer a).2 rest

/-- The invariant of the output table: every id stored in the map has been
handed out by the counter, so it is below the counter. -/
def OutputSharedPointerStorage.wellFormed (s : OutputSharedPointerStorage) : Bool :=
  s.itsSharedPointerMap.all (fun e => decide (e.2 < s.itsCurrentPointerId))

/-- The counter stays within the 31-bit ordinals while the addresses `ps` are
registered one after the other: it is at most `2 ^ 31` before, between and
after the registrations. -/
def OutputSharedPointerStorage.withinOrdinals (s : OutputSharedPointerStorage) :
    List Addr → Bool
  | [] => decide (s.itsCurrentPointerId ≤ 2 ^ 31)
  | p :: rest =>
    decide (s.itsCurrentPointerId ≤ 2 ^ 31) &&
      OutputSharedPointerStorage.withinOrdinals (s.registerSharedPointer p).2 rest

/-- The number of saves of address `b`, among the saves of `ps` in this order,
whose id has bit 31 set: the saves of `b` that are followed by the body. -/
def OutputSharedPointerStorage.bodyWrites (s : OutputSharedPointerStorage)
    (ps : List Addr) (b : Addr) : Nat :=
  (ps.zip (s.idsOf ps)).countP (fun e => e.1 == b && hasMsb e.2)

/-- The input identity table: the map from a stripped id to the handle (here
the address held by the `std::shared_ptr<void>`). -/
structure InputSharedPointerStorage where
  itsSharedPointerMap : List (Nat × Addr)
deriving DecidableEq, Repr

/-- Modelled from the spec: the input table of a fresh archive is empty (the
class declaration is not part of the sources at hand). -/
def InputSharedPointerStorage.init : InputSharedPointerStorage :=
  { itsSharedPointerMap := [] }

/-- The function `InputSharedPointerStorage::getSharedPointer`: the handle or
the exception, together with the table after the call. -/
def InputSharedPointerStorage.getSharedPointer (s : InputSharedPointerStorage)
    (id : Nat) : Except Exception Addr × InputSharedPointerStorage :=
  if id = 0 then (.ok 0, s)
  else
    match mapFind s.itsSharedPointerMap id with
    | none =>
      (.error ⟨"Error while trying to deserialize a smart pointer. Could not find id "
        ++ toString id⟩, s)
    | some p => (.ok p, s)

/-- The function `InputSharedPointerStorage::registerSharedPointer`. -/
def InputSharedPointerStorage.registerSharedPointer (s : InputSharedPointerStorage)
    (id : Nat) (ptr : Addr) : InputSharedPointerStorage :=
  let stripped_id := stripMsb id
  { s with itsSharedPointerMap := mapAssign s.itsSharedPointerMap stripped_id ptr }

/-- The input table after a sequence of registrations. -/
def InputSharedPointerStorage.registerAll (s : InputSharedPointerStorage) :
    List (Nat × Addr) → InputSharedPointerStorage
  | [] => s
  | (id, p) :: rest =>
    InputSharedPointerStorage.registerAll (s.registerSharedPointer id p) rest

/-! ## `src/src/polymorphic_impl.cpp`: the relationship registry -/

/-- A `std::type_index`. -/
abbrev TypeKey := Nat

/-- The inner map `DerivedCasterMap`: derived type to chain of casters. The
type `κ` stands for `PolymorphicCaster const*`. Iteration over the map follows
the order of insertion. -/
abbrev DerivedCasterMap (κ : Type) := List (TypeKey × List κ)

/-- The registry `PolymorphicCasters`: the forward map and the reverse
multimap (whose equal keys keep their order of insertion). -/
structure PolymorphicCasters (κ : Type) where
  map : List (TypeKey × DerivedCasterMap κ)
  reverseMap : List (TypeKey × TypeKey)
deriving DecidableEq, Repr

/-- The registry before any registration. -/
def PolymorphicCasters.empty {κ : Type} : PolymorphicCasters κ :=
  { map := [], reverseMap := [] }

/-- The function `PolymorphicCasters::lookup_if_exists` on a forward map. -/
def lookupIfExistsIn {κ : Type} (baseMap : List (TypeKey × DerivedCasterMap κ))
    (baseIndex derivedIndex : TypeKey) : Bool × List κ :=
  match mapFind baseMap baseIndex with
  | none => (false, [])
  | some derivedMap =>
    match mapFind derivedMap derivedIndex with
    | none => (false, [])
    | some path => (true, path)

/-- The function `PolymorphicCasters::lookup_if_exists`. -/
def PolymorphicCasters.lookup_if_exists {κ : Type} (R : PolymorphicCasters κ)
    (baseIndex derivedIndex : TypeKey) : Bool × List κ :=
  lookupIfExistsIn R.map baseIndex derivedIndex

/-- The function `PolymorphicCasters::lookup`; `none` is the null pointer. -/
def PolymorphicCasters.lookup {κ : Type} (R : PolymorphicCasters κ)
    (baseIndex derivedIndex : TypeKey) : Option (List κ) :=
  match mapFind R.map baseIndex with
  | none => none
  | some derivedMap =>
    match mapFind derivedMap derivedIndex with
    | none => none
    | some path => some path

/-- The largest `size_t`. -/
def SIZE_MAX : Nat := 2 ^ 64 - 1

/-- The lambda `checkRelation` of `register_virtual_caster`. -/
def checkRelation {κ : Type} (baseMap : List (TypeKey × DerivedCasterMap κ))
    (parentInfo childInfo : TypeKey) : Nat × List κ :=
  let result := lookupIfExistsIn baseMap parentInfo childInfo
  if result.1 then (result.2.length, result.2) else (SIZE_MAX, [])

/-- The lambda `isDirty` of `register_virtual_caster`. -/
def isDirty (dirtySet : List TypeKey) (c : TypeKey) : Bool :=
  dirtySet.any (fun d => d == c)

/-- An entry of the multimap `unregisteredRelations`: the parent (the key),
the final child and the path. -/
abbrev Relation (κ : Type) := TypeKey × (TypeKey × List κ)

/-- The search for the hint in `unregisteredRelations`: the position of the
first entry under key `parent` whose final child is `finalChild`. -/
def findHint {κ : Type} (rel : List (Relation κ)) (parent finalChild : TypeKey) :
    Option Nat :=
  rel.findIdx? (fun e => e.1 == parent && e.2.1 == finalChild)

/-- The call `unregisteredRelations.emplace_hint(hint, parent, newPath)`
followed by the assignment to the returned element. A multimap always adds an
element: right after the hint when there is one, else in front of the entries
with the same key (the order libstdc++ iterates them in). -/
def emplaceHint {κ : Type} (rel : List (Relation κ)) (hint : Option Nat)
    (e : Relation κ) : List (Relation κ) :=
  match hint with
  | none => e :: rel
  | some i => rel.take (i + 1) ++ e :: rel.drop (i + 1)

/-- The body of the loop over the children of `child` (one `finalChildPair`). -/
def finalChildStep {κ : Type} (baseMap : List (TypeKey × DerivedCasterMap κ))
    (parent child : TypeKey) (parentChildPath : Nat × List κ)
    (rel : List (Relation κ)) (finalChild : TypeKey) : List (Relation κ) :=
  let parentFinalChildPath := checkRelation baseMap parent finalChild
  let childFinalChildPath := checkRelation baseMap child finalChild
  let newLength := (1 + parentChildPath.1) % 2 ^ 64
  if newLength < parentFinalChildPath.1 then
    let path := parentChildPath.2 ++ childFinalChildPath.2
    let hint := findHint rel parent finalChild
    let uncommitted : Option (Relation κ) := hint.bind (fun i => rel.get? i)
    match uncommitted with
    | some old =>
      if old.2.2.length ≤ newLength then rel
      else emplaceHint rel hint (parent, (finalChild, path))
    | none => emplaceHint rel hint (parent, (finalChild, path))
  else rel

/-- The body of the loop over the children of `parent` (one `childPair`). -/
def childStep {κ : Type} (baseMap : List (TypeKey × DerivedCasterMap κ))
    (dirtySet : List TypeKey) (parent : TypeKey) (rel : List (Relation κ))
    (child : TypeKey) : List (Relation κ) :=
  if isDirty dirtySet child && (mapFind baseMap child).isSome then
    let parentChildPath := checkRelation baseMap parent child
    ((mapFind baseMap child).getD []).foldl
      (fun r finalChildPair =>
        finalChildStep baseMap parent child parentChildPath r finalChildPair.1)
      rel
  else rel

/-- The loop "Insert chained relations": each entry overwrites the path stored
for its pair and adds a reverse relation. -/
def commitRelations {κ : Type} (R : PolymorphicCasters κ) :
    List (Relation κ) → PolymorphicCasters κ
  | [] => R
  | (parent, (finalChild, path)) :: rest =>
    let derivedMap := (mapFind R.map parent).getD []
    commitRelations
      { map := mapAssign R.map parent (mapAssign derivedMap finalChild path)
        reverseMap := R.reverseMap ++ [(finalChild, parent)] }
      rest

/-- The local state of the main loop of `register_virtual_caster`. -/
structure CasterLoop (κ : Type) where
  registry : PolymorphicCasters κ
  parentStack : List TypeKey
  dirtySet : List TypeKey
  processedParents : List TypeKey
deriving DecidableEq, Repr

/-- The loop over the parents of `parent` in the reverse map: each one not
yet processed is pushed on the stack and marked processed. -/
def pushParents (parents : List TypeKey) (stack processed : List TypeKey) :
    List TypeKey × List TypeKey :=
  parents.foldl
    (fun sp pParent =>
      if sp.2.contains pParent then sp else (pParent :: sp.1, sp.2 ++ [pParent]))
    (stack, processed)

/-- One iteration of `while (!parentStack.empty())` with `parent` popped. -/
def loopBody {κ : Type} (st : CasterLoop κ) (parent : TypeKey)
    (stack : List TypeKey) : CasterLoop κ :=
  -- `baseMap[parent]` adds an empty entry when the key is absent
  let baseMap := mapEmplace st.registry.map parent []
  let children := (mapFind baseMap parent).getD []
  let unregisteredRelations : List (Relation κ) :=
    children.foldl (fun r childPair => childStep baseMap st.dirtySet parent r childPair.1) []
  let R1 := commitRelations { st.registry with map := baseMap } unregisteredRelations
  let dirtySet := st.dirtySet ++ [parent]
  let parents := (R1.reverseMap.filter (fun e => e.1 == parent)).map (fun e => e.2)
  let sp := pushParents parents stack st.processedParents
  { registry := R1, parentStack := sp.1, dirtySet := dirtySet, processedParents := sp.2 }

/-- The main loop, bounded by `fuel` iterations; `none` when the stack is not
empty after `fuel` iterations. -/
def casterLoop {κ : Type} : Nat → CasterLoop κ → Option (PolymorphicCasters κ)
  | fuel, st =>
    match st.parentStack with
    | [] => some st.registry
    | parent :: stack =>
      match fuel with
      | 0 => none
      | fuel + 1 => casterLoop fuel (loopBody st parent stack)

/-- The direct insertion at the head of `register_virtual_caster`: the entry
for the pair is created empty if absent, then `caster` is pushed at the back of
its vector; a reverse relation is added. -/
def insertDirect {κ : Type} (R : PolymorphicCasters κ) (baseKey derivedKey : TypeKey)
    (caster : κ) : PolymorphicCasters κ :=
  let baseMap := mapEmplace R.map baseKey []
  let derivedMap := mapEmplace ((mapFind baseMap baseKey).getD []) derivedKey []
  let derivedVec := (mapFind derivedMap derivedKey).getD []
  { map := mapAssign baseMap baseKey (mapAssign derivedMap derivedKey (derivedVec ++ [caster]))
    reverseMap := R.reverseMap ++ [(derivedKey, baseKey)] }

/-- The function `register_virtual_caster` with an explicit bound on the number
of iterations of its main loop. -/
def register_virtual_caster_fuel {κ : Type} (fuel : Nat) (R : PolymorphicCasters κ)
    (baseKey derivedKey : TypeKey) (caster : κ) : Option (PolymorphicCasters κ) :=
  let R1 := insertDirect R baseKey derivedKey caster
  casterLoop fuel
    { registry := R1, parentStack := [baseKey], dirtySet := [derivedKey],
      processedParents := [] }

/-- The function `register_virtual_caster`. The main loop is given as many
iterations as the reverse map has entries before the call, plus two: every key
it pushes besides `baseKey` is the base of a reverse relation, and each is
pushed once. The result is `none` if the loop has not finished by then. -/
def register_virtual_caster {κ : Type} (R : PolymorphicCasters κ)
    (baseKey derivedKey : TypeKey) (caster : κ) : Option (PolymorphicCasters κ) :=
  register_virtual_caster_fuel (R.reverseMap.length + 2) R baseKey derivedKey caster

/-! ## `polymorphic_impl.hpp`: casts along a stored path -/

/-- The interface `PolymorphicCaster`: the raw downcast and upcast of one
registered pair. -/
structure PolymorphicCaster where
  downcast : Addr → Addr
  upcast : Addr → Addr

/-- The shared-pointer overload of `PolymorphicVirtualCaster::upcast`, a
`dynamic_pointer_cast` after a `static_pointer_cast`: the stored address is cast
as the raw overload casts it and the ownership is shared. A handle is the
address it stores. -/
def PolymorphicCaster.upcastShared (c : PolymorphicCaster) (ptr : Addr) : Addr :=
  c.upcast ptr

/-- The text of `UNREGISTERED_POLYMORPHIC_CAST_EXCEPTION(LoadSave)`; the
parameters are the word `LoadSave` and the demangled names of the two types. -/
def unregisteredPolymorphicCastMessage (loadSave baseName derivedName : String) : String :=
  "Trying to " ++ loadSave ++ " a registered polymorphic type with an " ++
  "unregistered polymorphic cast.\n" ++
  "Could not find a path to a base class (" ++ baseName ++
  ") for type: " ++ derivedName ++ "\n" ++
  "Make sure you either serialize the base class at some point via " ++
  "ser20::base_class or ser20::virtual_base_class.\n" ++
  "Alternatively, manually register the association with " ++
  "SER20_REGISTER_POLYMORPHIC_RELATION."

/-- The function `PolymorphicCasters::downcast<Derived>`. The registry is a
process-wide object, so it is passed in and handed back; `deref` reads the
caster a stored pointer points to and `name` gives the demangled type names. -/
def PolymorphicCasters.downcast {κ : Type} (deref : κ → PolymorphicCaster)
    (name : TypeKey → String) (R : PolymorphicCasters κ) (derived : TypeKey)
    (dptr : Addr) (baseInfo : TypeKey) : Except Exception Addr × PolymorphicCasters κ :=
  match R.lookup baseInfo derived with
  | none =>
    (.error ⟨unregisteredPolymorphicCastMessage "save" (name baseInfo) (name derived)⟩, R)
  | some mapping => (.ok (mapping.foldl (fun p dmap => (deref dmap).downcast p) dptr), R)

/-- The raw-pointer overload of `PolymorphicCasters::upcast<Derived>`. -/
def PolymorphicCasters.upcast {κ : Type} (deref : κ → PolymorphicCaster)
    (name : TypeKey → String) (R : PolymorphicCasters κ) (derived : TypeKey)
    (dptr : Addr) (baseInfo : TypeKey) : Except Exception Addr × PolymorphicCasters κ :=
  match R.lookup baseInfo derived with
  | none =>
    (.error ⟨unregisteredPolymorphicCastMessage "load" (name baseInfo) (name derived)⟩, R)
  | some mapping =>
    (.ok (mapping.reverse.foldl (fun p m => (deref m).upcast p) dptr), R)

/-- The shared-pointer overload of `PolymorphicCasters::upcast<Derived>`. -/
def PolymorphicCasters.upcastShared {κ : Type} (deref : κ → PolymorphicCaster)
    (name : TypeKey → String) (R : PolymorphicCasters κ) (derived : TypeKey)
    (dptr : Addr) (baseInfo : TypeKey) : Except Exception Addr × PolymorphicCasters κ :=
  match R.lookup baseInfo derived with
  | none =>
    (.error ⟨unregisteredPolymorphicCastMessage "load" (name baseInfo) (name derived)⟩, R)
  | some mapping =>
    (.ok (mapping.reverse.foldl (fun p m => (deref m).upcastShared p) dptr), R)

/-! ## Archives

The wrappers of `memory.hpp` are templates over the archive. The archive used
here is the binary one (`archives/binary.hpp`): a value of arithmetic type is
written as its bytes, least significant first, and read back from as many bytes.
The stream is the sequence of bytes handed to `saveBinary`. -/

/-- The bytes of a `std::uint32_t`. -/
def encodeU32 (n : Nat) : List Nat :=
  [n % 256, n / 256 % 256, n / 65536 % 256, n / 16777216 % 256]

/-- The `std::uint32_t` made of four bytes. -/
def decodeU32 (b0 b1 b2 b3 : Nat) : Nat :=
  b0 % 256 + 256 * (b1 % 256) + 65536 * (b2 % 256) + 16777216 * (b3 % 256)

/-- Modelled from the spec: the per-archive table behind
`registerPolymorphicType` (declared in a header that is not part of the sources
at hand): type name to ordinal, and the next ordinal, which starts at 1. -/
structure OutputPolymorphicTypes where
  itsPolymorphicTypeMap : List (String × Nat)
  itsCurrentPolymorphicTypeId : Nat
deriving DecidableEq, Repr

/-- An output archive: the bytes written so far, the identity table and the
table of polymorphic type names. -/
structure OutputArchive where
  stream : List Nat
  storage : OutputSharedPointerStorage
  types : OutputPolymorphicTypes
deriving DecidableEq, Repr

/-- A fresh output archive on an empty stream. -/
def OutputArchive.init : OutputArchive :=
  { stream := [], storage := OutputSharedPointerStorage.init,
    types := { itsPolymorphicTypeMap := [], itsCurrentPolymorphicTypeId := 1 } }

/-- The function `BinaryOutputArchive::saveBinary`, as seen on the stream once
the archive has flushed its buffer: the bytes are appended. -/
def OutputArchive.saveBinary (ar : OutputArchive) (data : List Nat) : OutputArchive :=
  { ar with stream := ar.stream ++ data }

/-- Saving a `std::uint32_t`: `ar(id)`. -/
def OutputArchive.saveU32 (ar : OutputArchive) (n : Nat) : OutputArchive :=
  ar.saveBinary (encodeU32 n)

/-- A cell of the free store of the loading program: the object living in
the storage, if one has been constructed there, and the flag `valid` that the
deleter of the owning handle consults. -/
structure Cell (β : Type) where
  object : Option β
  valid : Bool
deriving DecidableEq, Repr

/-- An input archive together with the free store that the loaded objects are
allocated from: the bytes still to be read, the identity table, the names of
the polymorphic types met so far and the cells allocated so far (cell `i`
has address `i + 1`). -/
structure InputArchive (β : Type) where
  stream : List Nat
  storage : InputSharedPointerStorage
  itsPolymorphicTypeMap : List (Nat × String)
  heap : List (Cell β)
deriving DecidableEq, Repr

/-- A fresh input archive on a stream, with nothing allocated yet. -/
def InputArchive.init {β : Type} (stream : List Nat) : InputArchive β :=
  { stream := stream, storage := InputSharedPointerStorage.init,
    itsPolymorphicTypeMap := [], heap := [] }

/-- The function `BinaryInputArchive::loadBinary`: `size` bytes, or the
exception of `load` when the stream holds fewer. -/
def InputArchive.loadBinary {β : Type} (ar : InputArchive β) (size : Nat) :
    Except Exception (List Nat × InputArchive β) :=
  if ar.stream.length < size then
    .error ⟨"Failed to read " ++ toString size ++ " bytes from input stream! Read "
      ++ toString ar.stream.length⟩
  else .ok (ar.stream.take size, { ar with stream := ar.stream.drop size })

/-- Loading a `std::uint32_t`: `ar(id)`. -/
def InputArchive.loadU32 {β : Type} (ar : InputArchive β) :
    Except Exception (Nat × InputArchive β) :=
  match ar.loadBinary 4 with
  | .error e => .error e
  | .ok (bytes, ar1) =>
    .ok (decodeU32 (bytes.getD 0 0) (bytes.getD 1 0) (bytes.getD 2 0) (bytes.getD 3 0), ar1)

/-- The cell at an address. -/
def heapGet {β : Type} (heap : List (Cell β)) (p : Addr) : Option (Cell β) :=
  if p = 0 then none else heap.get? (p - 1)

/-- Overwriting the cell at an address. -/
def heapSet {β : Type} (heap : List (Cell β)) (p : Addr) (c : Cell β) : List (Cell β) :=
  if p = 0 then heap else heap.set (p - 1) c

/-- The allocation of a cell: its address and the archive afterwards. -/
def InputArchive.allocate {β : Type} (ar : InputArchive β) (c : Cell β) :
    Addr × InputArchive β :=
  (ar.heap.length + 1, { ar with heap := ar.heap ++ [c] })

/-- The call `ar.registerSharedPointer(id, ptr)` of an input archive. -/
def InputArchive.registerSharedPointer {β : Type} (ar : InputArchive β) (id : Nat)
    (ptr : Addr) : InputArchive β :=
  { ar with storage := ar.storage.registerSharedPointer id ptr }

/-- The call `ar.getSharedPointer(id)` of an input archive. -/
def InputArchive.getSharedPointer {β : Type} (ar : InputArchive β) (id : Nat) :
    Except Exception (Addr × InputArchive β) :=
  match ar.storage.getSharedPointer id with
  | (.error e, _) => .error e
  | (.ok p, st) => .ok (p, { ar with storage := st })

/-! ## `memory.hpp`: the shared-pointer wrappers -/

/-- Saving `PtrWrapper<std::shared_ptr<T> const&>` (`memory.hpp`, 254-266).
The pointer is given by its address; `saveData ptr` is `ar(*ptr)`. -/
def save_shared_ptr (saveData : Addr → OutputArchive → OutputArchive)
    (ar : OutputArchive) (ptr : Addr) : OutputArchive :=
  let r := ar.storage.registerSharedPointer ptr
  let ar1 := ({ ar with storage := r.2 }).saveU32 r.1
  if hasMsb r.1 then saveData ptr ar1 else ar1

/-- Loading `PtrWrapper<std::shared_ptr<T>&>` for a type without
`load_and_construct` (`memory.hpp`, 321-339). The object is made by `new T()`
(its value is `dflt`), registered, then loaded by `loadData ptr`, which is
`ar(*ptr)`. -/
def load_shared_ptr {β : Type} (dflt : β)
    (loadData : Addr → InputArchive β → Except Exception (InputArchive β))
    (ar : InputArchive β) : Except Exception (Addr × InputArchive β) :=
  match ar.loadU32 with
  | .error e => .error e
  | .ok (id, ar1) =>
    if hasMsb id then
      let a := ar1.allocate { object := some dflt, valid := true }
      let ar2 := a.2.registerSharedPointer id a.1
      match loadData a.1 ar2 with
      | .error e => .error e
      | .ok ar3 => .ok (a.1, ar3)
    else ar1.getSharedPointer id

/-- Loading `PtrWrapper<std::shared_ptr<T>&>` for a type with
`load_and_construct` (`memory.hpp`, 271-316). Raw storage is allocated with the
flag `valid` unset, the handle is registered, the user procedure
`loadAndConstruct ptr` runs (`loadAndConstructSharedPtr`), then the flag is
set. -/
def load_shared_ptr_construct {β : Type}
    (loadAndConstruct : Addr → InputArchive β → Except Exception (InputArchive β))
    (ar : InputArchive β) : Except Exception (Addr × InputArchive β) :=
  match ar.loadU32 with
  | .error e => .error e
  | .ok (id, ar1) =>
    if hasMsb id then
      let a := ar1.allocate { object := none, valid := false }
      let ar2 := a.2.registerSharedPointer id a.1
      match loadAndConstruct a.1 ar2 with
      | .error e => .error e
      | .ok ar3 =>
        let c := (heapGet ar3.heap a.1).getD { object := none, valid := false }
        .ok (a.1, { ar3 with heap := heapSet ar3.heap a.1 { c with valid := true } })
    else ar1.getSharedPointer id

/-! ## Concrete registries and casters used at concrete inputs -/

/-- The registry that holds the relations `1 -> 2`, `2 -> 3` and the composed
path for `(1, 3)`: the state after registering `(1, 2, 10)` and `(2, 3, 20)`. -/
def chainRegistry : PolymorphicCasters Nat :=
  { map := [(1, [(2, [10]), (3, [10, 20])]), (2, [(3, [20])])],
    reverseMap := [(2, 1), (3, 2), (3, 1)] }

/-- Three casters that move an address by 8, 16 and 24 bytes; the third one is
the direct caster between the types 1 and 3. -/
def chainCasters (c : Nat) : PolymorphicCaster :=
  if c = 10 then { downcast := fun p => p + 8, upcast := fun p => p - 8 }
  else if c = 20 then { downcast := fun p => p + 16, upcast := fun p => p - 16 }
  else { downcast := fun p => p + 24, upcast := fun p => p - 24 }

/-- The map that swaps the addresses `2 k` and `2 k + 1`. -/
def swapPair (p : Nat) : Nat := if p % 2 = 0 then p + 1 else p - 1

/-- Casters whose downcast and upcast both swap neighbouring addresses, so each
is the inverse of the other. -/
def swapCasters (_ : Nat) : PolymorphicCaster :=
  { downcast := swapPair, upcast := swapPair }

/-! ## Saving and loading sequences of shared pointers -/

/-- Overwriting the object at an address (the object is loaded in place); the
flag of the cell is kept. Nothing happens when no cell has this address. -/
def heapStore {β : Type} (heap : List (Cell β)) (p : Addr) (b : β) : List (Cell β) :=
  match heapGet heap p with
  | none => heap
  | some c => heapSet heap p { c with object := some b }

/-- The object at an address, if a cell has this address and holds one. -/
def heapObject {β : Type} (heap : List (Cell β)) (p : Addr) : Option β :=
  (heapGet heap p).bind (fun c => c.object)

/-- The call `ar(*ptr)` on an output archive for a type whose body holds no
pointer: the bytes `saveBody` of the body are written. The free store of the
saving program is `body`, the body of the object at each address. -/
def saveLeaf {β : Type} (saveBody : β → List Nat) (body : Addr → β) (ptr : Addr)
    (ar : OutputArchive) : OutputArchive :=
  ar.saveBinary (saveBody (body ptr))

/-- The call `ar(*ptr)` on an input archive for a type whose body holds no
pointer: `loadBody` reads the body from the stream and the object at `ptr`
takes it. -/
def loadLeaf {β : Type} (loadBody : List Nat → Except Exception (β × List Nat))
    (ptr : Addr) (ar : InputArchive β) : Except Exception (InputArchive β) :=
  match loadBody ar.stream with
  | .error e => .error e
  | .ok (b, rest) => .ok { ar with stream := rest, heap := heapStore ar.heap ptr b }

/-- Saving a list of shared pointers through the wrapper, one after the
other, into one archive. -/
def save_shared_ptrs (saveData : Addr → OutputArchive → OutputArchive)
    (ar : OutputArchive) (ps : List Addr) : OutputArchive :=
  ps.foldl (save_shared_ptr saveData) ar

/-- Loading `n` shared pointers, one after the other, from one archive, each
with `load`. -/
def load_shared_ptrs {β : Type}
    (load : InputArchive β → Except Exception (Addr × InputArchive β)) :
    Nat → InputArchive β → Except Exception (List Addr × InputArchive β)
  | 0, ar => .ok ([], ar)
  | n + 1, ar =>
    match load ar with
    | .error e => .error e
    | .ok (q, ar1) =>
      match load_shared_ptrs load n ar1 with
      | .error e => .error e
      | .ok (qs, ar2) => .ok (q :: qs, ar2)

/-- The bytes that saving the pointers `ps` adds to the stream when the
identity table is `st`. -/
def wireOf {β : Type} (saveBody : β → List Nat) (body : Addr → β)
    (st : OutputSharedPointerStorage) : List Addr → List Nat
  | [] => []
  | p :: rest =>
    encodeU32 (st.registerSharedPointer p).1 ++
      (if hasMsb (st.registerSharedPointer p).1 then saveBody (body p) else []) ++
      wireOf saveBody body (st.registerSharedPointer p).2 rest

/-- The relation between the table of an output archive and an input archive
that has loaded what the output archive has saved so far: each saved address
has an id that the input table maps to a handle holding the body of the
address, and distinct addresses have distinct ids. With both archives fresh at
the start, the handle stored under an id is the id itself. -/
structure Mirrors {β : Type} (body : Addr → β) (st : OutputSharedPointerStorage)
    (ia : InputArchive β) : Prop where
  wf : st.wellFormed = true
  next : ia.heap.length + 1 = st.itsCurrentPointerId
  entry : ∀ a id, mapFind st.itsSharedPointerMap a = some id →
    a ≠ 0 ∧ id ≠ 0 ∧ mapFind ia.storage.itsSharedPointerMap id = some id ∧
      heapObject ia.heap id = some (body a)
  inj : ∀ a b id, mapFind st.itsSharedPointerMap a = some id →
    mapFind st.itsSharedPointerMap b = some id → a = b

/-- The keys of the output table are distinct addresses taken from the list
`D`, and the counter is one more than their number: the table has handed out
the ordinals 1, 2, ... to its keys and never wrapped. -/
structure KeysWithin (D : List Nat) (st : OutputSharedPointerStorage) : Prop where
  nodup : (st.itsSharedPointerMap.map Prod.fst).Nodup
  sub : st.itsSharedPointerMap.map Prod.fst ⊆ D
  count : st.itsCurrentPointerId = st.itsSharedPointerMap.length + 1

/-- A body of one byte, saved as that byte. -/
def saveByte (b : Fin 256) : List Nat := [b.val]

/-- Loading a body of one byte. -/
def loadByte : List Nat → Except Exception (Fin 256 × List Nat)
  | [] => .error ⟨"Failed to read 1 bytes from input stream! Read 0"⟩
  | x :: rest => .ok (Fin.ofNat x, rest)

/-- The pointers to the objects at the addresses `1, 2, ..., 2 ^ 31 - 1`,
followed by two pointers to the object at the address `2 ^ 31`. -/
def overflowPointers : List Addr := List.range' 1 (2 ^ 31 - 1) ++ [2 ^ 31, 2 ^ 31]

/-! ## A type that points to itself

The wrappers are templates over the pointee. To run them on object graphs with
cycles they are instantiated at the type

    struct Node { std::uint32_t value; std::shared_ptr<Node> next; };

whose `serialize` is `ar(value, next)`, and at the same type given a
`load_and_construct` that reads the value, calls `construct(value)` and then
loads `construct->next`. -/

/-- A node: a value and a shared pointer to a node (the address it holds). -/
structure Node where
  value : Nat
  next : Addr
deriving DecidableEq, Repr

/-- Changing the object at an address in place. Nothing happens when no cell
has this address or when no object lives in the cell. -/
def heapUpdate {β : Type} (heap : List (Cell β)) (p : Addr) (f : β → β) : List (Cell β) :=
  match heapGet heap p with
  | none => heap
  | some c => heapSet heap p { c with object := c.object.map f }

/-- Placement construction of an object in the storage at an address
(`construct<T>::operator()`). Nothing happens when no cell has this address. -/
def heapConstruct {β : Type} (heap : List (Cell β)) (p : Addr) (b : β) : List (Cell β) :=
  match heapGet heap p with
  | none => heap
  | some c => heapSet heap p { c with object := some b }

/-- The call `ar(*ptr)` for a `Node` on an input archive: the value is read
into the object, then the member `next` is loaded through the wrapper, whose
body loader is this function again. The nesting of first occurrences is at
most `fuel` deep; deeper nesting is reported as an exception. -/
def loadNode : Nat → Addr → InputArchive Node → Except Exception (InputArchive Node)
  | 0, _, _ => .error ⟨"object graph nested too deep"⟩
  | fuel + 1, ptr, ar =>
    match ar.loadU32 with
    | .error e => .error e
    | .ok (v, ar1) =>
      let ar2 := { ar1 with heap := heapUpdate ar1.heap ptr (fun n => { n with value := v }) }
      match load_shared_ptr { value := 0, next := 0 } (loadNode fuel) ar2 with
      | .error e => .error e
      | .ok (q, ar3) =>
        .ok { ar3 with heap := heapUpdate ar3.heap ptr (fun n => { n with next := q }) }

/-- The user procedure `load_and_construct` of a `Node`: the value is read,
the node is constructed in the storage at `ptr` with a null `next`, then
`construct->next` is loaded through the wrapper for types with
`load_and_construct`. The nesting of first occurrences is at most `fuel`
deep. -/
def loadAndConstructNode :
    Nat → Addr → InputArchive Node → Except Exception (InputArchive Node)
  | 0, _, _ => .error ⟨"object graph nested too deep"⟩
  | fuel + 1, ptr, ar =>
    match ar.loadU32 with
    | .error e => .error e
    | .ok (v, ar1) =>
      let ar2 := { ar1 with heap := heapConstruct ar1.heap ptr { value := v, next := 0 } }
      match load_shared_ptr_construct (loadAndConstructNode fuel) ar2 with
      | .error e => .error e
      | .ok (q, ar3) =>
        .ok { ar3 with heap := heapUpdate ar3.heap ptr (fun n => { n with next := q }) }

/-! ## `polymorphic_impl.hpp`: the bindings of a polymorphic type

A binding is a closure stored in a process-wide map. The closures read the
relationship registry when they run, so the registry is an argument of the
closure. The string codec of the archive (`types/string.hpp`) is not part of the
sources at hand and is a parameter: `saveString` and `loadString`. -/

/-- Modelled from the spec: the member `registerPolymorphicType` of an output
archive (declared in a header that is not part of the sources at hand). A name
met for the first time gets the next ordinal, returned with bit 31 set (name
follows); a name met before gets its ordinal back with bit 31 clear. -/
def OutputArchive.registerPolymorphicType (ar : OutputArchive) (name : String) :
    Nat × OutputArchive :=
  match mapFind ar.types.itsPolymorphicTypeMap name with
  | none =>
    let polyId := ar.types.itsCurrentPolymorphicTypeId
    (polyId ||| msb_32bit,
      { ar with types :=
        { itsPolymorphicTypeMap := mapEmplace ar.types.itsPolymorphicTypeMap name polyId
          itsCurrentPolymorphicTypeId := toU32 (polyId + 1) } })
  | some id => (id, ar)

/-- The function `OutputBindingCreator::writeMetadata`; `name` is
`binding_name<T>::name()`. -/
def writeMetadata (saveString : String → List Nat) (name : String) (ar : OutputArchive) :
    OutputArchive :=
  let r := ar.registerPolymorphicType name
  let ar1 := r.2.saveU32 r.1
  if hasMsb r.1 then ar1.saveBinary (saveString name) else ar1

/-- The function `OutputBindingCreator::savePolymorphicSharedPtr` (both
overloads): the raw pointer is wrapped in a non-owning shared pointer that
holds the same address, and the wrapper is saved. The state kept and restored
around the call for types with `shared_from_this` is not part of the stream. -/
def savePolymorphicSharedPtr (saveData : Addr → OutputArchive → OutputArchive)
    (ar : OutputArchive) (dptr : Addr) : OutputArchive :=
  save_shared_ptr saveData ar dptr

/-- A serializer of `OutputBindingMap`: the registry, the archive, the pointer
and the type of the owning smart pointer. -/
abbrev OutputSerializer (κ : Type) :=
  PolymorphicCasters κ → OutputArchive → Addr → TypeKey → Except Exception OutputArchive

/-- A shared-pointer serializer of `InputBindingMap`: the registry, the archive
and the type of the pointer to fill; it returns the handle. -/
abbrev InputSerializer (κ β : Type) :=
  PolymorphicCasters κ → InputArchive β → TypeKey →
    Except Exception (Addr × InputArchive β)

/-- The shared-pointer serializer that `OutputBindingCreator<Archive, T>`
stores (`polymorphic_impl.hpp`, 495-506): metadata, downcast to `T`, save. -/
def outputSharedPtrBinding {κ : Type} (deref : κ → PolymorphicCaster)
    (typeName : TypeKey → String) (saveString : String → List Nat) (T : TypeKey)
    (bindingName : String) (saveData : Addr → OutputArchive → OutputArchive) :
    OutputSerializer κ :=
  fun R ar dptr baseInfo =>
    let ar1 := writeMetadata saveString bindingName ar
    match (R.downcast deref typeName T dptr baseInfo).1 with
    | .error e => .error e
    | .ok ptr => .ok (savePolymorphicSharedPtr saveData ar1 ptr)

/-- The constructor of `OutputBindingCreator<Archive, T>`: nothing happens when
the map has an entry for `T`, else the serializer is inserted under `T`. -/
def OutputBindingCreator {κ : Type} (deref : κ → PolymorphicCaster)
    (typeName : TypeKey → String) (saveString : String → List Nat) (T : TypeKey)
    (bindingName : String) (saveData : Addr → OutputArchive → OutputArchive)
    (map : List (TypeKey × OutputSerializer κ)) : List (TypeKey × OutputSerializer κ) :=
  match mapFind map T with
  | some _ => map
  | none =>
    mapEmplace map T
      (outputSharedPtrBinding deref typeName saveString T bindingName saveData)

/-- The shared-pointer serializer that `InputBindingCreator<Archive, T>` stores
(`polymorphic_impl.hpp`, 368-377): a `std::shared_ptr<T>` is loaded through the
wrapper (`load` is the overload chosen for `T`), then upcast to the type of the
pointer to fill. -/
def inputSharedPtrBinding {κ β : Type} (deref : κ → PolymorphicCaster)
    (typeName : TypeKey → String) (T : TypeKey)
    (load : InputArchive β → Except Exception (Addr × InputArchive β)) :
    InputSerializer κ β :=
  fun R ar baseInfo =>
    match load ar with
    | .error e => .error e
    | .ok (ptr, ar1) =>
      match (R.upcastShared deref typeName T ptr baseInfo).1 with
      | .error e => .error e
      | .ok dptr => .ok (dptr, ar1)

/-- The constructor of `InputBindingCreator<Archive, T>`: nothing happens when
the map has an entry under `binding_name<T>::name()`, else the serializer is
inserted under that name. -/
def InputBindingCreator {κ β : Type} (deref : κ → PolymorphicCaster)
    (typeName : TypeKey → String) (T : TypeKey) (bindingName : String)
    (load : InputArchive β → Except Exception (Addr × InputArchive β))
    (map : List (String × InputSerializer κ β)) : List (String × InputSerializer κ β) :=
  match mapFind map bindingName with
  | some _ => map
  | none => mapEmplace map bindingName (inputSharedPtrBinding deref typeName T load)

/-- Modelled from the spec: the head of the polymorphic load (its header,
`types/polymorphic.hpp`, is not part of the sources at hand). The polymorphic
id is read; when its bit 31 is set the type name follows and is recorded under
the ordinal, else the name recorded under the id is used. The result is the
name under which the input binding is looked up. -/
def readMetadata {β : Type} (loadString : List Nat → Except Exception (String × List Nat))
    (ar : InputArchive β) : Except Exception (String × InputArchive β) :=
  match ar.loadU32 with
  | .error e => .error e
  | .ok (nameid, ar1) =>
    if hasMsb nameid then
      match loadString ar1.stream with
      | .error e => .error e
      | .ok (name, rest) =>
        .ok (name,
          { ar1 with
            stream := rest
            itsPolymorphicTypeMap :=
              mapEmplace ar1.itsPolymorphicTypeMap (stripMsb nameid) name })
    else
      match mapFind ar1.itsPolymorphicTypeMap nameid with
      | none =>
        .error ⟨"Error while trying to deserialize a polymorphic pointer. " ++
          "Could not find type id " ++ toString nameid⟩
      | some name => .ok (name, ar1)

/-- The user procedure `load_and_construct` of a type whose body holds no
pointer: the body is read and the object is constructed from it in the storage
at `ptr`. -/
def loadAndConstructLeaf {β : Type}
    (loadBody : List Nat → Except Exception (β × List Nat)) (ptr : Addr)
    (ar : InputArchive β) : Except Exception (InputArchive β) :=
  match loadBody ar.stream with
  | .error e => .error e
  | .ok (b, rest) => .ok { ar with stream := rest, heap := heapConstruct ar.heap ptr b }

/-- A length-prefixed string codec: the number of characters, then one stream
item per character. -/
def saveText (s : String) : List Nat := s.data.length :: s.data.map Char.toNat

/-- Reading a string written by `saveText`. -/
def loadText : List Nat → Except Exception (String × List Nat)
  | [] => .error ⟨"Failed to read the size of a string"⟩
  | n :: rest =>
    if rest.length < n then .error ⟨"Failed to read the characters of a string"⟩
    else .ok (String.mk ((rest.take n).map Char.ofNat), rest.drop n)

/-- Casters between types whose objects share their address (single
inheritance): both casts keep the address. -/
def identityCasters (_ : Nat) : PolymorphicCaster :=
  { downcast := fun p => p, upcast := fun p => p }

/-- The registry after registering the relation between `Animal` (type key 1)
and `Dog` (type key 2) with the caster 10. -/
def animalRegistry : PolymorphicCasters Nat :=
  { map := [(1, [(2, [10])])], reverseMap := [(2, 1)] }

/-! ## Calls on the process-wide registry -/

/-- A call of `PolymorphicCasters::lookup` on the process-wide registry
(`StaticObject<PolymorphicCasters>::getInstance()`): the result and the registry
after the call. The function binds the forward map to a reference to const and
calls `find` on it and on the inner map, nothing else. -/
def PolymorphicCasters.lookupInstance {κ : Type} (R : PolymorphicCasters κ)
    (baseIndex derivedIndex : TypeKey) : Option (List κ) × PolymorphicCasters κ :=
  (R.lookup baseIndex derivedIndex, R)

/-- A call of `PolymorphicCasters::lookup_if_exists` on the process-wide
registry: the result and the registry after the call. -/
def PolymorphicCasters.lookupIfExistsInstance {κ : Type} (R : PolymorphicCasters κ)
    (baseIndex derivedIndex : TypeKey) : (Bool × List κ) × PolymorphicCasters κ :=
  (R.lookup_if_exists baseIndex derivedIndex, R)

/-! ## The ordinals of one output table -/

/-- The ordinals of the output table are consecutive: the entries of the map,
in the order in which their addresses were first registered, hold the ordinals
`1, 2, ...`; the keys are distinct; the counter is one more than the number of
entries. -/
structure Consecutive (st : OutputSharedPointerStorage) : Prop where
  ids : st.itsSharedPointerMap.map Prod.snd = List.range' 1 st.itsSharedPointerMap.length
  nodup : (st.itsSharedPointerMap.map Prod.fst).Nodup
  count : st.itsCurrentPointerId = st.itsSharedPointerMap.length + 1

/-- The ordinals (bits 0-30) of the ids with bit 31 set among the ids returned
while the addresses `ps` are registered: the ordinals handed to the addresses
seen for the first time, in the order of the calls. -/
def OutputSharedPointerStorage.newOrdinals (s : OutputSharedPointerStorage)
    (ps : List Addr) : List Nat :=
  ((s.idsOf ps).filter hasMsb).map stripMsb

/-! ## `memory.hpp`: the unique-pointer wrappers -/

/-- Saving a `std::uint8_t`: `ar(x)` writes one byte. -/
def OutputArchive.saveU8 (ar : OutputArchive) (n : Nat) : OutputArchive :=
  ar.saveBinary [n % 256]

/-- Loading a `std::uint8_t`: `ar(x)` reads one byte. -/
def InputArchive.loadU8 {β : Type} (ar : InputArchive β) :
    Except Exception (Nat × InputArchive β) :=
  match ar.loadBinary 1 with
  | .error e => .error e
  | .ok (bytes, ar1) => .ok (bytes.getD 0 0 % 256, ar1)

/-- Saving `PtrWrapper<std::unique_ptr<T, D> const&>` (`memory.hpp`, 343-358).
The pointer is given by its address; `saveData ptr` is `ar(*ptr)`. -/
def save_unique_ptr (saveData : Addr → OutputArchive → OutputArchive)
    (ar : OutputArchive) (ptr : Addr) : OutputArchive :=
  if ptr = 0 then ar.saveU8 0
  else saveData ptr (ar.saveU8 1)

/-- Loading `PtrWrapper<std::unique_ptr<T, D>&>` for a type without
`load_and_construct` (`memory.hpp`, 401-418): the flag byte is read; when it is
not zero an object is made by `new T()` (its value is `dflt`) and loaded by
`loadData ptr`, which is `ar(*ptr)`; else the pointer is reset to null. -/
def load_unique_ptr {β : Type} (dflt : β)
    (loadData : Addr → InputArchive β → Except Exception (InputArchive β))
    (ar : InputArchive β) : Except Exception (Addr × InputArchive β) :=
  match ar.loadU8 with
  | .error e => .error e
  | .ok (isValid, ar1) =>
    if isValid ≠ 0 then
      let a := ar1.allocate { object := some dflt, valid := true }
      match loadData a.1 a.2 with
      | .error e => .error e
      | .ok ar2 => .ok (a.1, ar2)
    else .ok (0, ar1)

/-- Loading `PtrWrapper<std::unique_ptr<T, D>&>` for a type with
`load_and_construct` (`memory.hpp`, 363-395): the flag byte is read; when it is
not zero raw storage is allocated, the user procedure `loadAndConstruct ptr`
runs on it, and the storage is then handed to the pointer as an object; else
the pointer is reset to null. -/
def load_unique_ptr_construct {β : Type}
    (loadAndConstruct : Addr → InputArchive β → Except Exception (InputArchive β))
    (ar : InputArchive β) : Except Exception (Addr × InputArchive β) :=
  match ar.loadU8 with
  | .error e => .error e
  | .ok (isValid, ar1) =>
    if isValid ≠ 0 then
      let a := ar1.allocate { object := none, valid := false }
      match loadAndConstruct a.1 a.2 with
      | .error e => .error e
      | .ok ar2 =>
        let c := (heapGet ar2.heap a.1).getD { object := none, valid := false }
        .ok (a.1, { ar2 with heap := heapSet ar2.heap a.1 { c with valid := true } })
    else .ok (0, ar1)

/-! ## `types/variant.hpp` and `types/boost_variant.hpp`

A variant is its active index and the value of the active alternative; the
values of all alternatives live in one type `γ`. The loaders are templates over
the alternatives: `size` is their number, `dflt N` the value-initialized
alternative `N` and `loadAlt N` the call `ar(value)` for alternative `N`. The
result of a load keeps the variant and the archive also when an exception is
raised. -/

/-- The value of the `std::int32_t` with a given bit pattern (two's
complement). -/
def toI32 (n : Nat) : Int :=
  if n % 2 ^ 32 < 2 ^ 31 then ((n % 2 ^ 32 : Nat) : Int) else ((n % 2 ^ 32 : Nat) : Int) - 2 ^ 32

/-- The conversion of a `std::int32_t` to `size_t`. -/
def toSizeT (i : Int) : Nat := (i % 2 ^ 64).toNat

/-- Loading a `std::int32_t`: `ar(index)`. -/
def InputArchive.loadI32 {β : Type} (ar : InputArchive β) :
    Except Exception (Int × InputArchive β) :=
  match ar.loadU32 with
  | .error e => .error e
  | .ok (n, ar1) => .ok (toI32 n, ar1)

/-- A variant: the index of the active alternative and its value. -/
structure Variant (γ : Type) where
  index : Nat
  value : γ
deriving DecidableEq, Repr

/-- The outcome of loading a variant: normal return or exception, the variant
and the archive afterwards. -/
abbrev VariantLoad (γ β : Type) := Except Exception Unit × Variant γ × InputArchive β

/-- The function `variant_detail::load_variant_at_index<N>`: when `target` is
`N` the alternative `N` is emplaced and loaded in place. -/
def load_variant_at_index {γ β : Type} (dflt : Nat → γ)
    (loadAlt : Nat → InputArchive β → Except Exception γ × InputArchive β)
    (N : Nat) (target : Nat) (variant : Variant γ) (ar : InputArchive β) :
    VariantLoad γ β :=
  if target = N then
    match loadAlt N ar with
    | (.error e, ar1) => (.error e, { index := N, value := dflt N }, ar1)
    | (.ok v, ar1) => (.ok (), { index := N, value := v }, ar1)
  else (.ok (), variant, ar)

/-- The function `variant_detail::load_variant`: the fold over the index
sequence `Is`, one call of `load_variant_at_index` per index, in order. -/
def load_variant {γ β : Type} (dflt : Nat → γ)
    (loadAlt : Nat → InputArchive β → Except Exception γ × InputArchive β)
    (target : Nat) : List Nat → Variant γ → InputArchive β → VariantLoad γ β
  | [], variant, ar => (.ok (), variant, ar)
  | N :: Is, variant, ar =>
    match load_variant_at_index dflt loadAlt N target variant ar with
    | (.error e, v, ar1) => (.error e, v, ar1)
    | (.ok _, v, ar1) => load_variant dflt loadAlt target Is v ar1

/-- Loading a `std::variant` with `size` alternatives (`types/variant.hpp`,
70-84). -/
def load_std_variant {γ β : Type} (dflt : Nat → γ)
    (loadAlt : Nat → InputArchive β → Except Exception γ × InputArchive β)
    (size : Nat) (ar : InputArchive β) (variant : Variant γ) : VariantLoad γ β :=
  match ar.loadI32 with
  | .error e => (.error e, variant, ar)
  | .ok (index, ar1) =>
    if index ≥ toI32 size then
      (.error ⟨"Invalid 'index' selector when deserializing std::variant"⟩, variant, ar1)
    else load_variant dflt loadAlt (toSizeT index) (List.range size) variant ar1

/-- Loading a `boost::variant` with `size` alternatives, all default
constructible (`types/boost_variant.hpp`, 120-137, with `load_variant_wrapper`,
89-104): the selected entry of `loadFuncArray` loads a value and assigns it to
the variant. The result is `none` when the behaviour is undefined: the array is
indexed with a negative number. -/
def load_boost_variant {γ β : Type}
    (loadAlt : Nat → InputArchive β → Except Exception γ × InputArchive β)
    (size : Nat) (ar : InputArchive β) (variant : Variant γ) : Option (VariantLoad γ β) :=
  match ar.loadI32 with
  | .error e => some (.error e, variant, ar)
  | .ok (which, ar1) =>
    if which ≥ toI32 size then
      some (.error ⟨"Invalid 'which' selector when deserializing boost::variant"⟩,
        variant, ar1)
    else if which < 0 then none
    else
      match loadAlt which.toNat ar1 with
      | (.error e, ar2) => some (.error e, variant, ar2)
      | (.ok v, ar2) => some (.ok (), { index := which.toNat, value := v }, ar2)

/-- The call `ar(value)` for an alternative that is one byte. -/
def loadByteAlt {β : Type} (_ : Nat) (ar : InputArchive β) :
    Except Exception Nat × InputArchive β :=
  match ar.stream with
  | [] => (.error ⟨"Failed to read 1 bytes from input stream! Read 0"⟩, ar)
  | x :: rest => (.ok (x % 256), { ar with stream := rest })

/-! ## The deleter of the `load_and_construct` overload

To follow the storage when the user procedure raises, the overload is run here
with the archive and the free store kept in both outcomes. The flag `valid` of a
cell is the `std::shared_ptr<bool>` that the deleter captures. -/

/-- A user procedure `load_and_construct` run on the storage at an address
(`loadAndConstructSharedPtr`): normal return or exception, and the archive with
the free store afterwards in both cases. -/
abbrev UserConstruct (β : Type) :=
  Addr → InputArchive β → Except Exception Unit × InputArchive β

/-- Loading `PtrWrapper<std::shared_ptr<T>&>` for a type with
`load_and_construct` (`memory.hpp`, 271-316): the handle or the exception, and
the archive afterwards. Raw storage is allocated with the flag unset, the
handle is registered, the user procedure runs; the flag is set once the
procedure has returned. When the procedure raises, the statement that sets the
flag is not reached. -/
def load_shared_ptr_construct_outcome {β : Type} (proc : UserConstruct β)
    (ar : InputArchive β) : Except Exception Addr × InputArchive β :=
  match ar.loadU32 with
  | .error e => (.error e, ar)
  | .ok (id, ar1) =>
    if hasMsb id then
      let a := ar1.allocate { object := none, valid := false }
      let ar2 := a.2.registerSharedPointer id a.1
      match proc a.1 ar2 with
      | (.error e, ar3) => (.error e, ar3)
      | (.ok _, ar3) =>
        let c := (heapGet ar3.heap a.1).getD { object := none, valid := false }
        (.ok a.1, { ar3 with heap := heapSet ar3.heap a.1 { c with valid := true } })
    else
      match ar1.storage.getSharedPointer id with
      | (.error e, st) => (.error e, { ar1 with storage := st })
      | (.ok p, st) => (.ok p, { ar1 with storage := st })

/-- What a deleter does with the storage it is called on: whether the
destructor `t->~T()` runs, and how many times the storage is released. -/
structure Disposal where
  destructorRuns : Bool
  releases : Nat
deriving DecidableEq, Repr

/-- The deleter installed at allocation (`memory.hpp`, 294-299), called on the
cell of the storage: `if (*valid) t->~T();` then
`delete reinterpret_cast<AlignedStorage*>(t);`. -/
def sharedPtrDeleter {β : Type} (c : Cell β) : Disposal :=
  { destructorRuns := c.valid, releases := 1 }

/-- A user procedure seen without the state after an exception. -/
def UserConstruct.forget {β : Type} (proc : UserConstruct β) :
    Addr → InputArchive β → Except Exception (InputArchive β) :=
  fun p ar =>
    match proc p ar with
    | (.error e, _) => .error e
    | (.ok _, ar1) => .ok ar1

/-- A `load_and_construct` with an empty body: it returns without calling
`construct`. -/
def returnWithoutConstruct {β : Type} : UserConstruct β :=
  fun _ ar => (.ok (), ar)

/-- A `load_and_construct` that reads one byte, calls `construct` with it and
then raises. -/
def constructThenThrow : UserConstruct Nat :=
  fun p ar =>
    match ar.stream with
    | [] => (.error ⟨"Failed to read 1 bytes from input stream! Read 0"⟩, ar)
    | x :: rest =>
      (.error ⟨"raised after construct"⟩,
        { ar with stream := rest, heap := heapConstruct ar.heap p x })

/-- A `load_and_construct` that reads one byte and calls `construct` with it. -/
def constructFromByte : UserConstruct Nat :=
  fun p ar =>
    match ar.stream with
    | [] => (.error ⟨"Failed to read 1 bytes from input stream! Read 0"⟩, ar)
    | x :: rest => (.ok (), { ar with stream := rest, heap := heapConstruct ar.heap p x })

/-! ## `archives/binary.hpp`: the buffered binary archives

Both archives keep a buffer of `bufferSize` bytes between the caller and the
stream. A function that can raise returns its outcome together with the archive
afterwards, so the state left behind by an exception can be followed. -/

/-- The constant `bufferSize` of both archives. -/
def bufferSize : Nat := 0x1000

/-- The call `std::memcpy(buffer + offset, data, size)` on a buffer given as
the list of its bytes. -/
def memcpy (buffer : List Nat) (offset : Nat) (data : List Nat) : List Nat :=
  buffer.take offset ++ data ++ buffer.drop (offset + data.length)

/-- An output stream: the bytes it has taken so far and the number of bytes it
will still take (`sputn` writes fewer bytes than asked once there is no room
left, as a stream on a full device does). -/
structure OStream where
  written : List Nat
  room : Nat
deriving DecidableEq, Repr

/-- The call `rdbuf()->sputn(data, size)`: the number of bytes written and the
stream afterwards. -/
def OStream.sputn (s : OStream) (data : List Nat) : Nat × OStream :=
  (min data.length s.room,
    { written := s.written ++ data.take s.room, room := s.room - data.length })

/-- The class `BinaryOutputArchive`. -/
structure BinaryOutputArchive where
  isProcessing : Bool
  itsStream : OStream
  bufferEnd : Nat
  itsBuffer : List Nat
deriving DecidableEq, Repr

/-- The constructor of `BinaryOutputArchive`. -/
def BinaryOutputArchive.init (stream : OStream) : BinaryOutputArchive :=
  { isProcessing := false, itsStream := stream, bufferEnd := 0,
    itsBuffer := List.replicate bufferSize 0 }

/-- The outcome of a member function of the output archive that can raise. -/
abbrev SaveOutcome := Except Exception Unit × BinaryOutputArchive

/-- The function `BinaryOutputArchive::write`. -/
def BinaryOutputArchive.write (ar : BinaryOutputArchive) (data : List Nat) : SaveOutcome :=
  let r := ar.itsStream.sputn data
  if r.1 ≠ data.length then
    (.error ⟨"Failed to write " ++ toString data.length ++
      " bytes to output stream! Wrote " ++ toString r.1⟩, { ar with itsStream := r.2 })
  else (.ok (), { ar with itsStream := r.2 })

/-- The function `BinaryOutputArchive::flush`. -/
def BinaryOutputArchive.flush (ar : BinaryOutputArchive) : SaveOutcome :=
  match ar.write (ar.itsBuffer.take ar.bufferEnd) with
  | (.error e, ar1) => (.error e, ar1)
  | (.ok _, ar1) => (.ok (), { ar1 with bufferEnd := 0 })

/-- The function `BinaryOutputArchive::saveBinary`; `data` holds the `size`
bytes at the address `data`. -/
def BinaryOutputArchive.saveBinary (ar : BinaryOutputArchive) (data : List Nat) :
    SaveOutcome :=
  if 4 * data.length > bufferSize then
    match ar.flush with
    | (.error e, ar1) => (.error e, ar1)
    | (.ok _, ar1) => ar1.write data
  else
    match (if ar.bufferEnd + data.length > bufferSize then ar.flush else (.ok (), ar)) with
    | (.error e, ar1) => (.error e, ar1)
    | (.ok _, ar1) =>
      (.ok (),
        { ar1 with
          itsBuffer := memcpy ar1.itsBuffer ar1.bufferEnd data
          bufferEnd := ar1.bufferEnd + data.length })

/-- The function `BinaryOutputArchive::process` for one argument; `save` is the
call `static_cast<OutputArchive*>(this)->process(arg)`, which runs the save
function of the argument. When `save` raises, the statements after the call are
not reached. -/
def BinaryOutputArchive.process (save : BinaryOutputArchive → SaveOutcome)
    (ar : BinaryOutputArchive) : SaveOutcome :=
  let wasProcessing := ar.isProcessing
  let ar1 := if !ar.isProcessing then { ar with isProcessing := true } else ar
  match save ar1 with
  | (.error e, ar2) => (.error e, ar2)
  | (.ok _, ar2) =>
    if !wasProcessing then
      match ar2.flush with
      | (.error e, ar3) => (.error e, ar3)
      | (.ok _, ar3) => (.ok (), { ar3 with isProcessing := false })
    else (.ok (), ar2)

/-- The destructor of `BinaryOutputArchive`: whether it calls `flush` (and so
the stream), and the outcome. -/
def BinaryOutputArchive.destructor (ar : BinaryOutputArchive) : Bool × SaveOutcome :=
  if ar.bufferEnd ≠ 0 then (true, ar.flush) else (false, (.ok (), ar))

/-- What the save function of a value does with the archive: nothing, a call
of `saveBinary`, raising an exception, a nested call `ar(arg)`, or one of these
after the other. -/
inductive SaveOp where
  | skip : SaveOp
  | saveBinary (data : List Nat) : SaveOp
  | raise (e : Exception) : SaveOp
  | process (arg : SaveOp) : SaveOp
  | seq (first second : SaveOp) : SaveOp
deriving Repr

/-- Running a save function on the archive. -/
def SaveOp.run : SaveOp → BinaryOutputArchive → SaveOutcome
  | .skip, ar => (.ok (), ar)
  | .saveBinary data, ar => ar.saveBinary data
  | .raise e, ar => (.error e, ar)
  | .process arg, ar => ar.process (SaveOp.run arg)
  | .seq first second, ar =>
    match SaveOp.run first ar with
    | (.error e, ar1) => (.error e, ar1)
    | (.ok _, ar1) => SaveOp.run second ar1

/-- The bytes that a save function passes to `saveBinary` when nothing
raises, in order. -/
def SaveOp.bytes : SaveOp → List Nat
  | .skip => []
  | .saveBinary data => data
  | .raise _ => []
  | .process arg => SaveOp.bytes arg
  | .seq first second => SaveOp.bytes first ++ SaveOp.bytes second

/-- The save function that passes the chunks to `saveBinary` one after the
other. -/
def SaveOp.ofChunks : List (List Nat) → SaveOp
  | [] => .skip
  | c :: rest => .seq (.saveBinary c) (SaveOp.ofChunks rest)

/-- A sequence of top-level calls `ar(arg)`, each with the save function of its
argument; the sequence ends at the first call that raises. -/
def BinaryOutputArchive.processAll :
    List SaveOp → BinaryOutputArchive → SaveOutcome
  | [], ar => (.ok (), ar)
  | arg :: rest, ar =>
    match ar.process (SaveOp.run arg) with
    | (.error e, ar1) => (.error e, ar1)
    | (.ok _, ar1) => BinaryOutputArchive.processAll rest ar1

/-- The class `BinaryInputArchive`; the stream is the list of the bytes still
to be read from it. -/
structure BinaryInputArchive where
  itsStream : List Nat
  bufferStart : Nat
  bufferEnd : Nat
  itsBuffer : List Nat
deriving DecidableEq, Repr

/-- The constructor of `BinaryInputArchive`. -/
def BinaryInputArchive.init (stream : List Nat) : BinaryInputArchive :=
  { itsStream := stream, bufferStart := 0, bufferEnd := 0,
    itsBuffer := List.replicate bufferSize 0 }

/-- The outcome of a member function of the input archive that can raise: the
bytes stored at `data`, or the exception, and the archive afterwards. -/
abbrev LoadOutcome := Except Exception (List Nat) × BinaryInputArchive

/-- The function `BinaryInputArchive::flush`: the bytes copied to `data` (their
number is the value returned) and the archive afterwards. -/
def BinaryInputArchive.flush (ar : BinaryInputArchive) (size : Nat) :
    List Nat × BinaryInputArchive :=
  let size_to_read := min (ar.bufferEnd - ar.bufferStart) size
  ((ar.itsBuffer.drop ar.bufferStart).take size_to_read,
    { ar with bufferStart := ar.bufferStart + size_to_read })

/-- The function `BinaryInputArchive::load` reading into `data` (the bytes
read are returned; `sgetn` reads as many bytes as the stream still has, up to
`size`). -/
def BinaryInputArchive.load (ar : BinaryInputArchive) (size min_required : Nat) :
    LoadOutcome :=
  let readSize := min size ar.itsStream.length
  let ar1 := { ar with itsStream := ar.itsStream.drop size }
  if readSize < min_required then
    (.error ⟨"Failed to read " ++ toString min_required ++
      " bytes from input stream! Read " ++ toString readSize⟩, ar1)
  else (.ok (ar.itsStream.take size), ar1)

/-- The function `BinaryInputArchive::loadFromStream`. In the buffered branch
`load` reads into the buffer, also when it then raises. -/
def BinaryInputArchive.loadFromStream (ar : BinaryInputArchive) (size : Nat) :
    LoadOutcome :=
  if 4 * size > bufferSize then ar.load size size
  else
    match ({ ar with bufferStart := 0 }).load bufferSize size with
    | (.error e, ar1) =>
      (.error e, { ar1 with itsBuffer := memcpy ar1.itsBuffer 0 (ar.itsStream.take bufferSize) })
    | (.ok got, ar1) =>
      let r := ({ ar1 with itsBuffer := memcpy ar1.itsBuffer 0 got,
                           bufferEnd := got.length }).flush size
      (.ok r.1, r.2)

/-- The function `BinaryInputArchive::loadBinary`: the `size` bytes stored at
`data`. -/
def BinaryInputArchive.loadBinary (ar : BinaryInputArchive) (size : Nat) : LoadOutcome :=
  let r := ar.flush size
  let bytesRead := min (ar.bufferEnd - ar.bufferStart) size
  if bytesRead = size then (.ok r.1, r.2)
  else
    match r.2.loadFromStream (size - bytesRead) with
    | (.error e, ar1) => (.error e, ar1)
    | (.ok more, ar1) => (.ok (r.1 ++ more), ar1)

/-- Loading chunks of the given sizes, one call of `loadBinary` each; the
sequence ends at the first call that raises. -/
def BinaryInputArchive.loadChunks :
    List Nat → BinaryInputArchive → Except Exception (List (List Nat)) × BinaryInputArchive
  | [], ar => (.ok [], ar)
  | size :: rest, ar =>
    match ar.loadBinary size with
    | (.error e, ar1) => (.error e, ar1)
    | (.ok c, ar1) =>
      match BinaryInputArchive.loadChunks rest ar1 with
      | (.error e, ar2) => (.error e, ar2)
      | (.ok cs, ar2) => (.ok (c :: cs), ar2)

/-- The invariant of the output archive: the buffer has `bufferSize` bytes and
`bufferEnd` lies within it. -/
def BinaryOutputArchive.wellFormed (ar : BinaryOutputArchive) : Prop :=
  ar.itsBuffer.length = bufferSize ∧ ar.bufferEnd ≤ bufferSize

/-- The bytes the archive has taken so far: those written to the stream,
followed by those waiting in the buffer. -/
def BinaryOutputArchive.contents (ar : BinaryOutputArchive) : List Nat :=
  ar.itsStream.written ++ ar.itsBuffer.take ar.bufferEnd

/-- Whether a save function holds a statement that raises. -/
def SaveOp.raises : SaveOp → Bool
  | .skip => false
  | .saveBinary _ => false
  | .raise _ => true
  | .process arg => SaveOp.raises arg
  | .seq first second => SaveOp.raises first || SaveOp.raises second

/-- The invariant of the input archive: the buffer has `bufferSize` bytes and
`bufferStart`, `bufferEnd` delimit a part of it. -/
def BinaryInputArchive.wellFormed (ar : BinaryInputArchive) : Prop :=
  ar.itsBuffer.length = bufferSize ∧ ar.bufferStart ≤ ar.bufferEnd ∧
    ar.bufferEnd ≤ bufferSize

/-- The bytes the archive will still deliver: those waiting in the buffer,
followed by those still in the stream. -/
def BinaryInputArchive.contents (ar : BinaryInputArchive) : List Nat :=
  (ar.itsBuffer.drop ar.bufferStart).take (ar.bufferEnd - ar.bufferStart) ++ ar.itsStream

/-! ## Sequences of registrations and chains of casters -/

/-- A sequence of calls of `register_virtual_caster`, one after the other, each
given by its base key, its derived key and its caster; `none` when a call does
not finish. -/
def registerRelations {κ : Type} (R : PolymorphicCasters κ) :
    List (TypeKey × TypeKey × κ) → Option (PolymorphicCasters κ)
  | [] => some R
  | (baseKey, derivedKey, caster) :: rest =>
    match register_virtual_caster R baseKey derivedKey caster with
    | none => none
    | some R1 => registerRelations R1 rest

/-- Whether a path is a non-empty chain of casters from `A` to `B`: the first
caster has base `A`, each caster has the base that the one before has as
derived type, and the last caster has derived type `B`. -/
def validChain {κ : Type} (base derived : κ → TypeKey) (A B : TypeKey) : List κ → Bool
  | [] => false
  | c :: rest =>
    base c == A &&
      (match rest with
       | [] => derived c == B
       | _ :: _ => validChain base derived (derived c) B rest)

/-- The base of the caster that is registered for the pair `(b, d)` of type
keys below ten under the number `10 b + d`. -/
def pairBase (c : Nat) : TypeKey := c / 10

/-- The derived type of the caster `10 b + d`. -/
def pairDerived (c : Nat) : TypeKey := c % 10

/-- The function `OutputBindingCreator::writeMetadata` over any archive member
`registerPolymorphicType`, given as the function `register`. -/
def writeMetadataWith (register : OutputArchive → String → Nat × OutputArchive)
    (saveString : String → List Nat) (name : String) (ar : OutputArchive) : OutputArchive :=
  let r := register ar name
  let ar1 := r.2.saveU32 r.1
  if hasMsb r.1 then ar1.saveBinary (saveString name) else ar1

/-! ## `access.hpp`: the class `construct<T>`

A `construct<T>` points to raw storage. It is modelled by what lives in the
storage and by its flag; the constructor of `T` called with the arguments of
`operator()` either builds a value or throws. -/

/-- The class `construct<T>`: the object living in the storage at `itsPtr`, if
one has been constructed there, and the flag `itsValid`. -/
structure Construct (β : Type) where
  object : Option β
  itsValid : Bool
deriving DecidableEq, Repr

/-- The private constructors of `construct<T>`: the flag starts unset. -/
def Construct.init {β : Type} : Construct β := { object := none, itsValid := false }

/-- The member `construct<T>::operator()` (`access.hpp`, 379-388). `ctor` is
the outcome of the placement construction `access::construct(itsPtr, args...)`
and `restore` is `itsEnableSharedRestoreFunction`, applied to the new object.
The outcome and the `construct` object afterwards. -/
def Construct.call {β : Type} (c : Construct β) (ctor : Except Exception β)
    (restore : β → β) : Except Exception Unit × Construct β :=
  if c.itsValid then
    (.error ⟨"Attempting to construct an already initialized object"⟩, c)
  else
    match ctor with
    | .error e => (.error e, c)
    | .ok b => (.ok (), { object := some (restore b), itsValid := true })

/-- The member `construct<T>::operator->` (`access.hpp`, 183-188): the object
behind the pointer returned, or the exception. -/
def Construct.arrow {β : Type} (c : Construct β) : Except Exception (Option β) × Construct β :=
  if !c.itsValid then
    (.error ⟨"Object must be initialized prior to accessing members"⟩, c)
  else (.ok c.object, c)

/-- The member `construct<T>::ptr` (`access.hpp`, 198): `return operator->();`. -/
def Construct.ptr {β : Type} (c : Construct β) : Except Exception (Option β) × Construct β :=
  c.arrow

/-! ## `types/bitset.hpp`

A `std::bitset<N>` is the list of its `N` bits, bit 0 first. The enumeration
`bitset_detail::type` is saved as its underlying `uint8_t`: `ulong` is 0,
`ullong` is 1, `string` is 2 and `bits` is 3. -/

/-- The loop of the save overload for archives with binary data
(`bitset.hpp`, 53-69) on the bits still to be visited, with the current
`chunk` and `mask`, followed by the statement that serializes the remainder
(71-73). -/
def saveBits : List Bool → Nat → Nat → OutputArchive → OutputArchive
  | [], chunk, mask, ar => if mask ≠ 0x80 then ar.saveU8 chunk else ar
  | b :: rest, chunk, mask, ar =>
    let chunk1 := if b then (chunk ||| mask) % 256 else chunk
    let mask1 := (mask >>> 1) % 256
    if mask1 = 0 then saveBits rest 0 0x80 (ar.saveU8 chunk1)
    else saveBits rest chunk1 mask1 ar

/-- Saving a `std::bitset<N>` to an archive with binary data (`bitset.hpp`,
46-74): the tag `bits`, then the chunks. -/
def save_bitset (ar : OutputArchive) (bits : List Bool) : OutputArchive :=
  saveBits bits 0 0x80 (ar.saveU8 3)

/-- The loop of the case `bits` of the load (`bitset.hpp`, 131-141) with `n`
bits still to be visited: the bits read, first to last. -/
def loadBits {β : Type} :
    Nat → Nat → Nat → InputArchive β → Except Exception (List Bool × InputArchive β)
  | 0, _, _, ar => .ok ([], ar)
  | n + 1, chunk, mask, ar =>
    let fetch : Except Exception (Nat × Nat × InputArchive β) :=
      if mask = 0 then
        match ar.loadU8 with
        | .error e => .error e
        | .ok (c, ar1) => .ok (c, 0x80, ar1)
      else .ok (chunk, mask, ar)
    match fetch with
    | .error e => .error e
    | .ok (chunk1, mask1, ar1) =>
      match loadBits n chunk1 ((mask1 >>> 1) % 256) ar1 with
      | .error e => .error e
      | .ok (rest, ar2) => .ok ((chunk1 &&& mask1 != 0) :: rest, ar2)

/-- Loading a `std::bitset<N>` (`bitset.hpp`, 98-148). The three
representations that go through the integer and string codecs of the archive
(tags 0, 1 and 2) are the parameter `loadOther`, called with the tag. -/
def load_bitset {β : Type} (N : Nat)
    (loadOther : Nat → InputArchive β → Except Exception (List Bool × InputArchive β))
    (ar : InputArchive β) : Except Exception (List Bool × InputArchive β) :=
  match ar.loadU8 with
  | .error e => .error e
  | .ok (t, ar1) =>
    if t = 0 ∨ t = 1 ∨ t = 2 then loadOther t ar1
    else if t = 3 then loadBits N 0 0 ar1
    else .error ⟨"Invalid bitset data representation"⟩

/-- The chunk that holds up to eight bits: the bit at position `k` of the group
is stored at the mask `0x80 >> k`. -/
def packChunk : Nat → List Bool → Nat
  | _, [] => 0
  | k, b :: rest => (if b then 0x80 >>> k else 0) + packChunk (k + 1) rest

/-- The packed form of a bitset, following the words of the claim: one chunk
for every eight bits, the bit `i` at the mask `0x80 >> (i mod 8)` of the chunk
`i div 8`, the last chunk filled up with zero bits. -/
def packBits : List Bool → List Nat
  | b0 :: b1 :: b2 :: b3 :: b4 :: b5 :: b6 :: b7 :: rest =>
    packChunk 0 [b0, b1, b2, b3, b4, b5, b6, b7] :: packBits rest
  | [] => []
  | b0 :: rest => [packChunk 0 (b0 :: rest)]

/-- The eight bits of a chunk, the one at the mask `0x80` first. -/
def unpackChunk (c : Nat) : List Bool :=
  [c &&& 0x80 != 0, c &&& 0x40 != 0, c &&& 0x20 != 0, c &&& 0x10 != 0,
   c &&& 0x08 != 0, c &&& 0x04 != 0, c &&& 0x02 != 0, c &&& 0x01 != 0]

/-! ## The relation stored by the registry and the run of the main loop -/

/-- The two-level search that `lookup` and `lookup_if_exists` perform in a
forward map. -/
def lookupIn {κ : Type} (m : List (TypeKey × DerivedCasterMap κ)) (x y : TypeKey) :
    Option (List κ) :=
  (mapFind m x).bind (fun dm => mapFind dm y)

/-- The relation stored by the registry: `lookup x y` is not null. -/
def PolymorphicCasters.related {κ : Type} (R : PolymorphicCasters κ) (x y : TypeKey) : Prop :=
  R.lookup x y ≠ none

/-- The parents that the main loop pops from the stack, in order, within
`fuel` iterations. -/
def casterLoopParents {κ : Type} : Nat → CasterLoop κ → List TypeKey
  | fuel, st =>
    match st.parentStack with
    | [] => []
    | parent :: stack =>
      match fuel with
      | 0 => []
      | fuel + 1 => parent :: casterLoopParents fuel (loopBody st parent stack)

/-- The distinct type keys of a registry: the keys of the forward map, of its
inner maps and of the reverse relations. -/
def PolymorphicCasters.typeKeys {κ : Type} (R : PolymorphicCasters κ) : List TypeKey :=
  (R.reverseMap.map Prod.snd ++ R.reverseMap.map Prod.fst ++ R.map.map Prod.fst ++
    (R.map.map (fun e => e.2.map Prod.fst)).flatten).dedup

/-- The state of the main loop at its start, after the direct insertion. -/
def casterLoopStart {κ : Type} (R : PolymorphicCasters κ) (baseKey derivedKey : TypeKey)
    (caster : κ) : CasterLoop κ :=
  { registry := insertDirect R baseKey derivedKey caster, parentStack := [baseKey],
    dirtySet := [derivedKey], processedParents := [] }

/-- Every stored path has fewer than `SIZE_MAX - 1` links. A `std::vector` of
pointers holds at most `max_size()` elements, which is far below this bound, so
every registry of a running program passes this test. -/
def pathsFit {κ : Type} (R : PolymorphicCasters κ) : Bool :=
  R.map.all (fun e => e.2.all (fun f => decide (f.2.length < SIZE_MAX - 1)))

/-- The registries that the main loop goes through within `fuel` iterations
all pass `pathsFit`. -/
def casterLoopFits {κ : Type} : Nat → CasterLoop κ → Bool
  | fuel, st =>
    pathsFit st.registry &&
      (match st.parentStack with
       | [] => true
       | parent :: stack =>
         match fuel with
         | 0 => true
         | fuel + 1 => casterLoopFits fuel (loopBody st parent stack))

/-- The registries that a sequence of calls of `register_virtual_caster` goes
through all pass `pathsFit`. -/
def registrationsFit {κ : Type} (R : PolymorphicCasters κ) :
    List (TypeKey × TypeKey × κ) → Bool
  | [] => pathsFit R
  | (baseKey, derivedKey, caster) :: rest =>
    casterLoopFits (R.reverseMap.length + 2) (casterLoopStart R baseKey derivedKey caster) &&
      (match register_virtual_caster R baseKey derivedKey caster with
       | none => false
       | some R1 => registrationsFit R1 rest)

/-- The pair `(b, d)` is one of the relations registered directly. -/
def Direct {κ : Type} (regs : List (TypeKey × TypeKey × κ)) (b d : TypeKey) : Prop :=
  ∃ c, (b, d, c) ∈ regs

/-! ## Threads, the mutex of a registry, and its readers -/

/-- A statement of a thread, as one process-wide registry with contents `σ`
and the other threads see it. -/
inductive Stmt (σ : Type) where
  /-- The declaration `auto lock = StaticObject<T>::lock()`. -/
  | lock : Stmt σ
  /-- The end of the scope of the lock guard. -/
  | unlock : Stmt σ
  /-- A mutation of the registry. -/
  | write : (σ → σ) → Stmt σ
  /-- A read of the registry. -/
  | read : Stmt σ

/-- A process-wide registry with its mutex and the threads that use it: the
contents, the thread that holds the mutex, the statements that each thread has
left to run, what the reads saw (with the reading thread), and the threads that
mutated the registry while they did not hold the mutex. -/
structure World (σ : Type) where
  registry : σ
  holder : Option Nat
  threads : Nat → List (Stmt σ)
  observed : List (Nat × σ)
  unguarded : List Nat

/-- The threads numbered from zero that run the given statements. -/
def threadsOf {σ : Type} (programs : List (List (Stmt σ))) : Nat → List (Stmt σ) :=
  fun t => programs.getD t []

/-- The registry before any thread has run. -/
def World.init {σ : Type} (s : σ) (programs : List (List (Stmt σ))) : World σ :=
  { registry := s, holder := none, threads := threadsOf programs, observed := [],
    unguarded := [] }

/-- Modelled from the spec: thread `t` runs its next statement (the header of
`StaticObject` is not in the sources at hand; its `lock()` is taken to acquire
the mutex of the registry, "a mutex scoped per registry"). A thread waits at
`lock` while another thread holds the mutex; `none` when `t` cannot run. -/
def World.step {σ : Type} (w : World σ) (t : Nat) : Option (World σ) :=
  match w.threads t with
  | [] => none
  | Stmt.lock :: rest =>
    match w.holder with
    | none => some { w with holder := some t, threads := Function.update w.threads t rest }
    | some _ => none
  | Stmt.unlock :: rest =>
    some { w with holder := none, threads := Function.update w.threads t rest }
  | Stmt.write f :: rest =>
    some { w with
      registry := f w.registry
      threads := Function.update w.threads t rest
      unguarded := if w.holder = some t then w.unguarded else w.unguarded ++ [t] }
  | Stmt.read :: rest =>
    some { w with
      observed := w.observed ++ [(t, w.registry)]
      threads := Function.update w.threads t rest }

/-- The threads run one statement at a time in the order of the schedule. -/
def World.run {σ : Type} : List Nat → World σ → Option (World σ)
  | [], w => some w
  | t :: schedule, w =>
    match w.step t with
    | none => none
    | some w1 => World.run schedule w1

end Ser20

/-! # Theorems -/

namespace Ser20

/-! ## Bits of a 32-bit id -/

theorem stripMsb_eq_mod (n : Nat) : stripMsb n = n % 2 ^ 31 := by
  have h : (0xFFFFFFFF ^^^ msb_32bit) = 2 ^ 31 - 1 := by decide
  unfold stripMsb
  rw [h, Nat.and_pow_two_sub_one_eq_mod]

theorem hasMsb_eq_testBit (n : Nat) : hasMsb n = n.testBit 31 := by
  have h : msb_32bit = 2 ^ 31 := by decide
  unfold hasMsb
  rw [h, Nat.and_two_pow]
  cases n.testBit 31 <;> simp

theorem hasMsb_of_lt {n : Nat} (h : n < 2 ^ 31) : hasMsb n = false := by
  rw [hasMsb_eq_testBit]
  exact Nat.testBit_lt_two_pow h

theorem or_msb_eq_add {n : Nat} (h : n < 2 ^ 31) : n ||| msb_32bit = n + 2 ^ 31 := by
  have hm : msb_32bit = 2 ^ 31 * 1 := by decide
  rw [hm, Nat.or_comm, ← Nat.mul_add_lt_is_or h 1]
  omega

theorem hasMsb_or_msb {n : Nat} (h : n < 2 ^ 31) : hasMsb (n ||| msb_32bit) = true := by
  rw [or_msb_eq_add h, hasMsb_eq_testBit, Nat.add_comm, Nat.testBit_two_pow_add_eq,
    Nat.testBit_lt_two_pow h]
  rfl

theorem stripMsb_or_msb {n : Nat} (h : n < 2 ^ 31) : stripMsb (n ||| msb_32bit) = n := by
  rw [or_msb_eq_add h, stripMsb_eq_mod]
  omega

theorem stripMsb_of_lt {n : Nat} (h : n < 2 ^ 31) : stripMsb n = n := by
  rw [stripMsb_eq_mod]
  omega

/-! ## Association lists -/

section Maps
variable {κ ν : Type} [DecidableEq κ]

theorem mapFind_append (m₁ m₂ : List (κ × ν)) (k : κ) :
    mapFind (m₁ ++ m₂) k = (mapFind m₁ k).orElse (fun _ => mapFind m₂ k) := by
  induction m₁ with
  | nil => simp [mapFind]
  | cons e rest ih =>
    obtain ⟨k', v⟩ := e
    by_cases h : k' = k <;> simp [mapFind, h, ih]

theorem mapFind_mapEmplace_self {m : List (κ × ν)} {k : κ} (v : ν)
    (h : mapFind m k = none) : mapFind (mapEmplace m k v) k = some v := by
  simp [mapEmplace, h, mapFind_append, mapFind]

theorem mapFind_mapEmplace_ne (m : List (κ × ν)) {k k' : κ} (v : ν) (h : k ≠ k') :
    mapFind (mapEmplace m k v) k' = mapFind m k' := by
  unfold mapEmplace
  cases hk : mapFind m k with
  | some _ => rfl
  | none =>
    simp only [mapFind_append, mapFind, h, if_false]
    cases mapFind m k' <;> rfl

theorem mapFind_mapAssign_self (m : List (κ × ν)) (k : κ) (v : ν) :
    mapFind (mapAssign m k v) k = some v := by
  induction m with
  | nil => simp [mapAssign, mapFind]
  | cons e rest ih =>
    obtain ⟨k', v'⟩ := e
    by_cases h : k' = k <;> simp [mapAssign, mapFind, h, ih]

theorem mapFind_mapAssign_ne (m : List (κ × ν)) {k k' : κ} (v : ν) (h : k ≠ k') :
    mapFind (mapAssign m k v) k' = mapFind m k' := by
  induction m with
  | nil => simp [mapAssign, mapFind, h]
  | cons e rest ih =>
    obtain ⟨k₁, v₁⟩ := e
    by_cases h₁ : k₁ = k
    · subst h₁
      simp [mapAssign, mapFind, h]
    · by_cases h₂ : k₁ = k'
      · subst h₂
        simp [mapAssign, mapFind, h₁]
      · simp [mapAssign, mapFind, h₁, h₂, ih]

theorem mem_of_mapFind {m : List (κ × ν)} {k : κ} {v : ν} (h : mapFind m k = some v) :
    (k, v) ∈ m := by
  induction m with
  | nil => simp [mapFind] at h
  | cons e rest ih =>
    obtain ⟨k', v'⟩ := e
    by_cases hk : k' = k
    · simp [mapFind, hk] at h
      simp [hk, h]
    · simp [mapFind, hk] at h
      exact List.mem_cons_of_mem _ (ih h)

theorem mapFind_isSome_of_mem {m : List (κ × ν)} {k : κ} {v : ν} (h : (k, v) ∈ m) :
    ∃ w, mapFind m k = some w := by
  induction m with
  | nil => simp at h
  | cons e rest ih =>
    obtain ⟨k', v'⟩ := e
    by_cases hk : k' = k
    · exact ⟨v', by simp [mapFind, hk]⟩
    · simp only [List.mem_cons, Prod.mk.injEq] at h
      rcases h with ⟨h1, _⟩ | h
      · exact absurd h1.symm hk
      · simpa [mapFind, hk] using ih h

end Maps

/-! ## The output identity table -/

namespace OutputSharedPointerStorage

theorem register_null (s : OutputSharedPointerStorage) :
    s.registerSharedPointer 0 = (0, s) := by
  simp [registerSharedPointer]

theorem register_old {s : OutputSharedPointerStorage} {a : Addr} {id : Nat} (ha : a ≠ 0)
    (h : mapFind s.itsSharedPointerMap a = some id) :
    s.registerSharedPointer a =
      (id, { s with itsSharedPointerStorage := s.itsSharedPointerStorage ++ [a] }) := by
  simp [registerSharedPointer, ha, h]

theorem register_new {s : OutputSharedPointerStorage} {a : Addr} (ha : a ≠ 0)
    (h : mapFind s.itsSharedPointerMap a = none) :
    s.registerSharedPointer a =
      (s.itsCurrentPointerId ||| msb_32bit,
        { itsSharedPointerMap := s.itsSharedPointerMap ++ [(a, s.itsCurrentPointerId)]
          itsCurrentPointerId := toU32 (s.itsCurrentPointerId + 1)
          itsSharedPointerStorage := s.itsSharedPointerStorage ++ [a] }) := by
  simp [registerSharedPointer, ha, h, mapEmplace]

theorem lt_of_wellFormed {s : OutputSharedPointerStorage} (hwf : s.wellFormed = true)
    {a : Addr} {id : Nat} (h : mapFind s.itsSharedPointerMap a = some id) :
    id < s.itsCurrentPointerId := by
  have hm := mem_of_mapFind h
  simp only [wellFormed, List.all_eq_true, decide_eq_true_eq] at hwf
  exact hwf _ hm

theorem wellFormed_init : OutputSharedPointerStorage.init.wellFormed = true := by
  decide

theorem wellFormed_register_lt {s : OutputSharedPointerStorage} (hwf : s.wellFormed = true)
    (hc : s.itsCurrentPointerId + 1 < 2 ^ 32) (a : Addr) :
    (s.registerSharedPointer a).2.wellFormed = true := by
  by_cases ha : a = 0
  · subst ha
    rw [register_null]
    exact hwf
  · cases h : mapFind s.itsSharedPointerMap a with
    | some id =>
      rw [register_old ha h]
      exact hwf
    | none =>
      rw [register_new ha h]
      have h1 : toU32 (s.itsCurrentPointerId + 1) = s.itsCurrentPointerId + 1 := by
        unfold toU32
        omega
      simp only [wellFormed, List.all_eq_true, decide_eq_true_eq] at hwf ⊢
      intro e he
      rw [h1]
      rcases List.mem_append.1 he with he | he
      · exact Nat.lt_succ_of_lt (hwf e he)
      · simp only [List.mem_singleton] at he
        subst he
        exact Nat.lt_succ_self _

theorem wellFormed_register {s : OutputSharedPointerStorage} (hwf : s.wellFormed = true)
    (hc : s.itsCurrentPointerId < 2 ^ 31) (a : Addr) :
    (s.registerSharedPointer a).2.wellFormed = true :=
  wellFormed_register_lt hwf (by omega) a

theorem counter_register_le (s : OutputSharedPointerStorage) (a : Addr) :
    (s.registerSharedPointer a).2.itsCurrentPointerId ≤ s.itsCurrentPointerId + 1 := by
  by_cases ha : a = 0
  · subst ha
    rw [register_null]
    exact Nat.le_succ _
  · cases h : mapFind s.itsSharedPointerMap a with
    | some id =>
      rw [register_old ha h]
      exact Nat.le_succ _
    | none =>
      rw [register_new ha h]
      exact Nat.mod_le _ _

theorem wellFormed_registerAll (addrs : List Addr) :
    ∀ s : OutputSharedPointerStorage, s.wellFormed = true →
      s.itsCurrentPointerId + addrs.length < 2 ^ 32 →
      (s.registerAll addrs).wellFormed = true := by
  induction addrs with
  | nil =>
    intro s hwf _
    exact hwf
  | cons a rest ih =>
    intro s hwf hc
    simp only [List.length_cons] at hc
    have h1 := counter_register_le s a
    exact ih _ (wellFormed_register_lt hwf (by omega) a) (by omega)

theorem bodyWrites_eq {s : OutputSharedPointerStorage} (ps : List Addr) {b : Addr}
    (hb : b ≠ 0) (hwf : s.wellFormed = true) (hc : s.withinOrdinals ps = true) :
    s.bodyWrites ps b =
      if (mapFind s.itsSharedPointerMap b).isSome then 0 else if b ∈ ps then 1 else 0 := by
  induction ps generalizing s with
  | nil => simp [bodyWrites, idsOf]
  | cons p rest ih =>
    simp only [withinOrdinals, Bool.and_eq_true, decide_eq_true_eq] at hc
    obtain ⟨hc0, hrest⟩ := hc
    have hc1 : (s.registerSharedPointer p).2.itsCurrentPointerId ≤ 2 ^ 31 := by
      cases rest with
      | nil => simpa [withinOrdinals] using hrest
      | cons x xs =>
        simp only [withinOrdinals, Bool.and_eq_true, decide_eq_true_eq] at hrest
        exact hrest.1
    have hstep : s.bodyWrites (p :: rest) b =
        (s.registerSharedPointer p).2.bodyWrites rest b +
          if (p == b && hasMsb (s.registerSharedPointer p).1) = true then 1 else 0 := by
      simp [bodyWrites, idsOf, List.countP_cons]
    rw [hstep]
    by_cases hp : p = 0
    · subst hp
      rw [register_null] at hrest ⊢
      rw [ih hwf hrest]
      have h0 : ((0 : Addr) == b) = false := by
        simpa using fun h => hb h.symm
      have hmem : b ∈ (0 : Addr) :: rest ↔ b ∈ rest := by
        simp [hb]
      simp [h0, hmem]
    · cases h : mapFind s.itsSharedPointerMap p with
      | some id =>
        rw [register_old hp h] at hrest ⊢
        have hid : hasMsb id = false :=
          hasMsb_of_lt (by
            have := lt_of_wellFormed hwf h
            omega)
        have ih1 := ih (s := { s with itsSharedPointerStorage := s.itsSharedPointerStorage ++ [p] })
          hwf hrest
        rw [ih1]
        simp only [hid, Bool.and_false, Bool.false_eq_true, if_false, Nat.add_zero]
        by_cases hpb : p = b
        · subst hpb
          simp [h]
        · have hmem : b ∈ p :: rest ↔ b ∈ rest := by
            simp [Ne.symm hpb]
          simp [hmem]
      | none =>
        have hlt : s.itsCurrentPointerId < 2 ^ 31 := by
          rw [register_new hp h] at hc1
          simp only [toU32] at hc1
          omega
        have hwf1 := wellFormed_register hwf hlt p
        rw [register_new hp h] at hwf1 hrest ⊢
        have ih1 := ih hwf1 hrest
        rw [ih1]
        simp only [hasMsb_or_msb hlt, Bool.and_true, mapFind_append]
        by_cases hpb : p = b
        · subst hpb
          simp [h, mapFind]
        · have hmem : b ∈ p :: rest ↔ b ∈ rest := by
            simp [Ne.symm hpb]
          have hf : mapFind [(p, s.itsCurrentPointerId)] b = none := by
            simp [mapFind, hpb]
          cases hbm : mapFind s.itsSharedPointerMap b <;> simp [hf, hpb, hmem]

end OutputSharedPointerStorage

/-- Claim C3: on a well-formed output table whose counter is below `2 ^ 31`
and for a non-null address `a`: when `a` is not in the table, the call returns
the counter with bit 31 set, stores the counter as the id of `a`, leaves the
other entries alone and increments the counter; when `a` is in the table, the
call returns the stored id, whose bit 31 is clear, and changes neither the map
nor the counter. The table stays well formed. Hence, in any further sequence
of saves during which the counter stays within `2 ^ 31`, a non-null address that
is not yet in the table gets an id with bit 31 set (body follows) exactly once
and an address already in the table never. Well formed means that the stored
ids are below the counter; every table reached from the table of a fresh
archive by fewer than `2 ^ 32 - 1` registrations is well formed. The save
wrapper writes the returned id and then the body exactly when bit 31 of the id
is set. -/
theorem registerSharedPointer_output_spec (s : OutputSharedPointerStorage) (a : Addr)
    (ha : a ≠ 0) (hwf : s.wellFormed = true) (hc : s.itsCurrentPointerId < 2 ^ 31) :
    (mapFind s.itsSharedPointerMap a = none →
      (s.registerSharedPointer a).1 = s.itsCurrentPointerId ||| msb_32bit ∧
      hasMsb (s.registerSharedPointer a).1 = true ∧
      stripMsb (s.registerSharedPointer a).1 = s.itsCurrentPointerId ∧
      mapFind (s.registerSharedPointer a).2.itsSharedPointerMap a
        = some s.itsCurrentPointerId ∧
      (∀ b, b ≠ a → mapFind (s.registerSharedPointer a).2.itsSharedPointerMap b
        = mapFind s.itsSharedPointerMap b) ∧
      (s.registerSharedPointer a).2.itsCurrentPointerId = s.itsCurrentPointerId + 1) ∧
    (∀ id, mapFind s.itsSharedPointerMap a = some id →
      (s.registerSharedPointer a).1 = id ∧ hasMsb id = false ∧
      (s.registerSharedPointer a).2.itsSharedPointerMap = s.itsSharedPointerMap ∧
      (s.registerSharedPointer a).2.itsCurrentPointerId = s.itsCurrentPointerId) ∧
    (s.registerSharedPointer a).2.wellFormed = true ∧
    (∀ ps : List Addr, s.withinOrdinals ps = true → ∀ b, b ≠ 0 →
      (mapFind s.itsSharedPointerMap b = none → b ∈ ps → s.bodyWrites ps b = 1) ∧
      ((mapFind s.itsSharedPointerMap b).isSome = true → s.bodyWrites ps b = 0)) ∧
    (∀ addrs : List Addr, addrs.length < 2 ^ 32 - 1 →
      (OutputSharedPointerStorage.init.registerAll addrs).wellFormed = true) ∧
    (∀ (β : Type) (saveBody : β → List Nat) (body : Addr → β) (ar : OutputArchive),
      ar.storage = s →
      (save_shared_ptr (saveLeaf saveBody body) ar a).stream
        = ar.stream ++ (encodeU32 (s.registerSharedPointer a).1 ++
            if hasMsb (s.registerSharedPointer a).1 then saveBody (body a) else [])) := by
  refine ⟨?_, ?_, OutputSharedPointerStorage.wellFormed_register hwf hc a, ?_,
    fun addrs h => OutputSharedPointerStorage.wellFormed_registerAll addrs _
      OutputSharedPointerStorage.wellFormed_init (by
        simp only [OutputSharedPointerStorage.init]
        omega), ?_⟩
  rotate_right
  · intro β saveBody body ar hst
    subst hst
    unfold save_shared_ptr
    by_cases hm : hasMsb (ar.storage.registerSharedPointer a).1 = true
    · simp [hm, saveLeaf, OutputArchive.saveU32, OutputArchive.saveBinary]
    · simp [hm, saveLeaf, OutputArchive.saveU32, OutputArchive.saveBinary]
  · intro h
    rw [OutputSharedPointerStorage.register_new ha h]
    refine ⟨rfl, hasMsb_or_msb hc, stripMsb_or_msb hc, ?_, ?_, ?_⟩
    · simp [mapFind_append, h, mapFind]
    · intro b hb
      have hf : mapFind [(a, s.itsCurrentPointerId)] b = none := by
        simp [mapFind, Ne.symm hb]
      simp only [mapFind_append, hf]
      cases mapFind s.itsSharedPointerMap b <;> rfl
    · show toU32 (s.itsCurrentPointerId + 1) = s.itsCurrentPointerId + 1
      unfold toU32
      omega
  · intro id h
    rw [OutputSharedPointerStorage.register_old ha h]
    refine ⟨rfl, ?_, rfl, rfl⟩
    exact hasMsb_of_lt (by
      have := OutputSharedPointerStorage.lt_of_wellFormed hwf h
      omega)
  · intro ps hps b hb
    rw [OutputSharedPointerStorage.bodyWrites_eq ps hb hwf hps]
    constructor
    · intro h hmem
      simp [h, hmem]
    · intro h
      simp [h]

/-- Witness of C3 on the table of a fresh archive and the address 5. -/
theorem registerSharedPointer_output_spec_witness :
    (OutputSharedPointerStorage.init.registerSharedPointer 5).1 = 1 ||| msb_32bit ∧
    (OutputSharedPointerStorage.init.registerSharedPointer 5).2.itsCurrentPointerId = 2 ∧
    OutputSharedPointerStorage.init.bodyWrites [5, 7, 5, 0, 7] 5 = 1 :=
  have h := registerSharedPointer_output_spec OutputSharedPointerStorage.init 5
    (by decide) (by decide) (by decide)
  ⟨(h.1 rfl).1, (h.1 rfl).2.2.2.2.2,
    ((h.2.2.2.1 [5, 7, 5, 0, 7] (by decide) 5 (by decide)).1 rfl (by decide))⟩

/-! ## The input identity table -/

namespace InputSharedPointerStorage

theorem mapFind_registerAll_eq_none (s : InputSharedPointerStorage)
    (regs : List (Nat × Addr)) (id : Nat) :
    mapFind (s.registerAll regs).itsSharedPointerMap id = none ↔
      mapFind s.itsSharedPointerMap id = none ∧ ∀ r ∈ regs, stripMsb r.1 ≠ id := by
  induction regs generalizing s with
  | nil => simp [registerAll]
  | cons r rest ih =>
    obtain ⟨i, p⟩ := r
    simp only [registerAll, ih, registerSharedPointer, List.mem_cons, forall_eq_or_imp]
    by_cases h : stripMsb i = id
    · subst h
      simp [mapFind_mapAssign_self]
    · simp [mapFind_mapAssign_ne _ _ h, h]

theorem getSharedPointer_snd (s : InputSharedPointerStorage) (id : Nat) :
    (s.getSharedPointer id).2 = s := by
  unfold getSharedPointer
  split
  · rfl
  · split <;> rfl

theorem getSharedPointer_error_iff (s : InputSharedPointerStorage) (id : Nat) :
    (∃ e, (s.getSharedPointer id).1 = .error e) ↔
      id ≠ 0 ∧ mapFind s.itsSharedPointerMap id = none := by
  unfold getSharedPointer
  by_cases h0 : id = 0
  · simp [h0]
  · cases h : mapFind s.itsSharedPointerMap id <;> simp [h0]

theorem getSharedPointer_of_find {s : InputSharedPointerStorage} {id : Nat} {p : Addr}
    (h0 : id ≠ 0) (h : mapFind s.itsSharedPointerMap id = some p) :
    s.getSharedPointer id = (.ok p, s) := by
  simp [getSharedPointer, h0, h]

end InputSharedPointerStorage

/-- Claim C4: in the table reached from any table `s` by any sequence of
registrations, `getSharedPointer id` raises an exception if and only if `id` is
non-zero and no handle is stored under `id`, that is `s` holds none and no
registration of the sequence was made under an id that strips to `id`; in that
case no handle at all is returned; and the call, failing or not, leaves the
table as it was. -/
theorem getSharedPointer_raises_iff (s : InputSharedPointerStorage)
    (regs : List (Nat × Addr)) (id : Nat) :
    ((∃ e, ((s.registerAll regs).getSharedPointer id).1 = .error e) ↔
      (id ≠ 0 ∧ mapFind s.itsSharedPointerMap id = none ∧
        ∀ r ∈ regs, stripMsb r.1 ≠ id)) ∧
    ((id ≠ 0 ∧ mapFind s.itsSharedPointerMap id = none ∧ ∀ r ∈ regs, stripMsb r.1 ≠ id) →
      ∀ p, ((s.registerAll regs).getSharedPointer id).1 ≠ .ok p) ∧
    ((s.registerAll regs).getSharedPointer id).2 = s.registerAll regs := by
  have key := InputSharedPointerStorage.getSharedPointer_error_iff (s.registerAll regs) id
  rw [InputSharedPointerStorage.mapFind_registerAll_eq_none] at key
  refine ⟨key, ?_, InputSharedPointerStorage.getSharedPointer_snd _ _⟩
  intro h p hp
  obtain ⟨e, he⟩ := key.2 h
  rw [he] at hp
  cases hp

/-! ## Reading an id from the stream -/

theorem decodeU32_encodeU32 (n : Nat) :
    decodeU32 (n % 256) (n / 256 % 256) (n / 65536 % 256) (n / 16777216 % 256)
      = n % 2 ^ 32 := by
  unfold decodeU32
  omega

theorem loadU32_encodeU32 {β : Type} (ar : InputArchive β) (n : Nat) (rest : List Nat)
    (h : ar.stream = encodeU32 n ++ rest) :
    ar.loadU32 = .ok (n % 2 ^ 32, { ar with stream := rest }) := by
  unfold InputArchive.loadU32 InputArchive.loadBinary
  rw [h]
  simp only [encodeU32, List.cons_append, List.nil_append, List.length_cons]
  rw [if_neg (by omega)]
  simp only [List.take_succ_cons, List.take_zero, List.drop_succ_cons, List.drop_zero,
    List.getD_cons_zero, List.getD_cons_succ]
  rw [decodeU32_encodeU32]

/-- Claim C5: for every input table `s`, id and handle `p`, after
`registerSharedPointer id p` the call `getSharedPointer` on the id with bit 31
cleared returns exactly `p` whenever that stripped id is non-zero, and
`getSharedPointer k` is as before for every other `k`. Moreover both load
overloads, on an archive holding that table whose stream starts with the bytes
of the stripped id (bit 31 clear), return `p` and consume the four id bytes
only: the rest of the stream, the table and the free store are untouched and
the body loader is not run. -/
theorem registerSharedPointer_input_spec {β : Type} (dflt : β)
    (loadData loadAndConstruct : Addr → InputArchive β → Except Exception (InputArchive β))
    (ar : InputArchive β) (id : Nat) (p : Addr) (rest : List Nat) :
    (stripMsb id ≠ 0 →
      ((ar.storage.registerSharedPointer id p).getSharedPointer (stripMsb id)).1 = .ok p) ∧
    (∀ k, k ≠ stripMsb id →
      ((ar.storage.registerSharedPointer id p).getSharedPointer k).1
        = (ar.storage.getSharedPointer k).1) ∧
    (stripMsb id ≠ 0 →
      load_shared_ptr dflt loadData
          { ar with stream := encodeU32 (stripMsb id) ++ rest
                    storage := ar.storage.registerSharedPointer id p }
        = .ok (p, { ar with stream := rest
                            storage := ar.storage.registerSharedPointer id p }) ∧
      load_shared_ptr_construct loadAndConstruct
          { ar with stream := encodeU32 (stripMsb id) ++ rest
                    storage := ar.storage.registerSharedPointer id p }
        = .ok (p, { ar with stream := rest
                            storage := ar.storage.registerSharedPointer id p })) := by
  have hfind : mapFind (ar.storage.registerSharedPointer id p).itsSharedPointerMap
      (stripMsb id) = some p := by
    simp [InputSharedPointerStorage.registerSharedPointer, mapFind_mapAssign_self]
  have hlt : stripMsb id < 2 ^ 31 := by
    rw [stripMsb_eq_mod]
    exact Nat.mod_lt _ (by decide)
  refine ⟨?_, ?_, ?_⟩
  · intro h0
    rw [InputSharedPointerStorage.getSharedPointer_of_find h0 hfind]
  · intro k hk
    unfold InputSharedPointerStorage.getSharedPointer
    by_cases h0 : k = 0
    · simp [h0]
    · simp only [h0, if_false, InputSharedPointerStorage.registerSharedPointer,
        mapFind_mapAssign_ne _ _ (Ne.symm hk)]
      cases mapFind ar.storage.itsSharedPointerMap k <;> rfl
  · intro h0
    have hmod : stripMsb id % 2 ^ 32 = stripMsb id := Nat.mod_eq_of_lt (by omega)
    have hget := InputSharedPointerStorage.getSharedPointer_of_find h0 hfind
    constructor
    · unfold load_shared_ptr
      rw [loadU32_encodeU32 _ (stripMsb id) rest rfl]
      simp only [hmod, hasMsb_of_lt hlt, Bool.false_eq_true, if_false,
        InputArchive.getSharedPointer, hget]
    · unfold load_shared_ptr_construct
      rw [loadU32_encodeU32 _ (stripMsb id) rest rfl]
      simp only [hmod, hasMsb_of_lt hlt, Bool.false_eq_true, if_false,
        InputArchive.getSharedPointer, hget]

/-! ## The relationship registry -/

theorem register_chain_state {κ : Type} (A B C : TypeKey) (cAB cBC : κ)
    (hAB : A ≠ B) (hAC : A ≠ C) (hBC : B ≠ C) :
    register_virtual_caster (PolymorphicCasters.empty) A B cAB
        = some { map := [(A, [(B, [cAB])])], reverseMap := [(B, A)] } ∧
    register_virtual_caster { map := [(A, [(B, [cAB])])], reverseMap := [(B, A)] } B C cBC
        = some { map := [(A, [(B, [cAB]), (C, [cAB, cBC])]), (B, [(C, [cBC])])],
                 reverseMap := [(B, A), (C, B), (C, A)] } := by
  have hBA := Ne.symm hAB
  have hCA := Ne.symm hAC
  have hCB := Ne.symm hBC
  constructor
  · simp [register_virtual_caster, register_virtual_caster_fuel, insertDirect, casterLoop,
      loopBody, PolymorphicCasters.empty, mapEmplace, mapFind, mapAssign, childStep, isDirty,
      commitRelations, pushParents, hAB, hBA]
  · simp [register_virtual_caster, register_virtual_caster_fuel, insertDirect, casterLoop,
      loopBody, mapEmplace, mapFind, mapAssign, childStep, isDirty, finalChildStep,
      checkRelation, lookupIfExistsIn, findHint, emplaceHint, SIZE_MAX,
      commitRelations, pushParents, hAB, hBA, hAC, hCA, hBC, hCB]

/-- Claim C7: for all distinct type keys `A`, `B`, `C` and casters `cAB`, `cBC`,
starting from the empty registry, registering `(A, B, cAB)` and then
`(B, C, cBC)` both return, and afterwards `lookup A C` is the 2-link path
`[cAB, cBC]`, in that order, although `(A, C)` was never registered directly
(before the second registration `lookup A C` finds nothing). -/
theorem register_chain_lookup {κ : Type} (A B C : TypeKey) (cAB cBC : κ)
    (hAB : A ≠ B) (hAC : A ≠ C) (hBC : B ≠ C) :
    ∃ R1 R2 : PolymorphicCasters κ,
      register_virtual_caster (PolymorphicCasters.empty) A B cAB = some R1 ∧
      register_virtual_caster R1 B C cBC = some R2 ∧
      R1.lookup A C = none ∧
      R2.lookup A C = some [cAB, cBC] := by
  obtain ⟨h1, h2⟩ := register_chain_state A B C cAB cBC hAB hAC hBC
  refine ⟨_, _, h1, h2, ?_, ?_⟩
  · simp [PolymorphicCasters.lookup, mapFind, hBC]
  · simp [PolymorphicCasters.lookup, mapFind, hBC]

/-- Witness of C7 with the type keys 1, 2, 3 and the casters 10 and 20. -/
theorem register_chain_lookup_witness :
    ∃ R1 R2 : PolymorphicCasters Nat,
      register_virtual_caster (PolymorphicCasters.empty) 1 2 10 = some R1 ∧
      register_virtual_caster R1 2 3 20 = some R2 ∧
      R1.lookup 1 3 = none ∧
      R2.lookup 1 3 = some [10, 20] :=
  register_chain_lookup 1 2 3 10 20 (by decide) (by decide) (by decide)

/-- Claim C8, the code at the failing input: in the registry that holds the
composed path `[10, 20]` for `(1, 3)`, registering `(1, 3, 30)` directly pushes
the caster at the back of the stored vector, so `lookup 1 3` is then the 3-link
path `[10, 20, 30]` and not `[30]`, and a downcast from type 1 to type 3 applies
all three links (the address 1000 becomes 1048 instead of 1024). -/
theorem register_direct_after_chain_appends :
    ((register_virtual_caster (PolymorphicCasters.empty) 1 2 10).bind
      (fun R1 => register_virtual_caster R1 2 3 20)) = some chainRegistry ∧
    ∃ R3 : PolymorphicCasters Nat,
      register_virtual_caster chainRegistry 1 3 30 = some R3 ∧
      R3.lookup 1 3 = some [10, 20, 30] ∧
      R3.lookup 1 3 ≠ some [30] ∧
      (R3.downcast chainCasters (fun _ => "") 3 1000 1).1 = .ok 1048 :=
  ⟨by decide, _, rfl, by decide, by decide, rfl⟩

/-! ## Casts along a stored path -/

theorem foldl_downcast_upcast {κ : Type} (deref : κ → PolymorphicCaster) (path : List κ)
    (h : ∀ c ∈ path, ∀ p, (deref c).downcast ((deref c).upcast p) = p) (d : Addr) :
    path.foldl (fun p dmap => (deref dmap).downcast p)
      (path.reverse.foldl (fun p m => (deref m).upcast p) d) = d := by
  induction path generalizing d with
  | nil => rfl
  | cons c rest ih =>
    simp only [List.reverse_cons, List.foldl_append, List.foldl_cons, List.foldl_nil]
    rw [h c (List.mem_cons_self _ _)]
    exact ih (fun c' hc' => h c' (List.mem_cons_of_mem _ hc')) d

theorem foldl_upcast_downcast {κ : Type} (deref : κ → PolymorphicCaster) (path : List κ)
    (h : ∀ c ∈ path, ∀ q, (deref c).upcast ((deref c).downcast q) = q) (b : Addr) :
    path.reverse.foldl (fun p m => (deref m).upcast p)
      (path.foldl (fun p dmap => (deref dmap).downcast p) b) = b := by
  induction path generalizing b with
  | nil => rfl
  | cons c rest ih =>
    simp only [List.reverse_cons, List.foldl_append, List.foldl_cons, List.foldl_nil]
    rw [ih (fun c' hc' => h c' (List.mem_cons_of_mem _ hc'))]
    exact h c (List.mem_cons_self _ _) b

/-- Claim C9: for every pair `(base, derived)` with a stored cast path whose
links each satisfy `downcast (upcast p) = p` and `upcast (downcast q) = q`,
the upcast of a derived address `d` returns some `u` whose downcast returns `d`,
and the downcast of a base address `b` returns some `t` whose upcast returns
`b`; the shared-pointer upcast agrees with the raw one. -/
theorem downcast_upcast_roundtrip {κ : Type} (deref : κ → PolymorphicCaster)
    (name : TypeKey → String) (R : PolymorphicCasters κ) (base derived : TypeKey)
    (path : List κ) (hpath : R.lookup base derived = some path)
    (hlinks : ∀ c ∈ path,
      (∀ p, (deref c).downcast ((deref c).upcast p) = p) ∧
      (∀ q, (deref c).upcast ((deref c).downcast q) = q)) :
    (∀ d : Addr, ∃ u,
      (R.upcast deref name derived d base).1 = .ok u ∧
      (R.upcastShared deref name derived d base).1 = .ok u ∧
      (R.downcast deref name derived u base).1 = .ok d) ∧
    (∀ b : Addr, ∃ t,
      (R.downcast deref name derived b base).1 = .ok t ∧
      (R.upcast deref name derived t base).1 = .ok b ∧
      (R.upcastShared deref name derived t base).1 = .ok b) := by
  constructor
  · intro d
    refine ⟨path.reverse.foldl (fun p m => (deref m).upcast p) d, ?_, ?_, ?_⟩
    · simp [PolymorphicCasters.upcast, hpath]
    · simp [PolymorphicCasters.upcastShared, hpath, PolymorphicCaster.upcastShared]
    · simp only [PolymorphicCasters.downcast, hpath]
      rw [foldl_downcast_upcast deref path (fun c hc => (hlinks c hc).1)]
  · intro b
    refine ⟨path.foldl (fun p dmap => (deref dmap).downcast p) b, ?_, ?_, ?_⟩
    · simp [PolymorphicCasters.downcast, hpath]
    · simp only [PolymorphicCasters.upcast, hpath]
      rw [foldl_upcast_downcast deref path (fun c hc => (hlinks c hc).2)]
    · simp only [PolymorphicCasters.upcastShared, hpath, PolymorphicCaster.upcastShared]
      rw [foldl_upcast_downcast deref path (fun c hc => (hlinks c hc).2)]

theorem swapPair_swapPair (p : Nat) : swapPair (swapPair p) = p := by
  unfold swapPair
  split_ifs <;> omega

/-- Witness of C9: the registry with the composed path `[10, 20]` for `(1, 3)`
and casters that swap neighbouring addresses. -/
theorem downcast_upcast_roundtrip_witness :
    (∀ d : Addr, ∃ u,
      (chainRegistry.upcast swapCasters (fun _ => "") 3 d 1).1 = .ok u ∧
      (chainRegistry.upcastShared swapCasters (fun _ => "") 3 d 1).1 = .ok u ∧
      (chainRegistry.downcast swapCasters (fun _ => "") 3 u 1).1 = .ok d) ∧
    (∀ b : Addr, ∃ t,
      (chainRegistry.downcast swapCasters (fun _ => "") 3 b 1).1 = .ok t ∧
      (chainRegistry.upcast swapCasters (fun _ => "") 3 t 1).1 = .ok b ∧
      (chainRegistry.upcastShared swapCasters (fun _ => "") 3 t 1).1 = .ok b) :=
  downcast_upcast_roundtrip swapCasters (fun _ => "") chainRegistry 1 3 [10, 20] rfl
    (fun _ _ => ⟨swapPair_swapPair, swapPair_swapPair⟩)

theorem unregisteredPolymorphicCastMessage_names (loadSave baseName derivedName : String) :
    ∃ pre mid post : String,
      unregisteredPolymorphicCastMessage loadSave baseName derivedName
        = pre ++ baseName ++ mid ++ derivedName ++ post :=
  ⟨"Trying to " ++ loadSave ++ " a registered polymorphic type with an " ++
      "unregistered polymorphic cast.\n" ++ "Could not find a path to a base class (",
    ") for type: ",
    "\n" ++ "Make sure you either serialize the base class at some point via " ++
      "ser20::base_class or ser20::virtual_base_class.\n" ++
      "Alternatively, manually register the association with " ++
      "SER20_REGISTER_POLYMORPHIC_RELATION.",
    by simp only [unregisteredPolymorphicCastMessage, String.append_assoc]⟩

/-- Claim C10: `downcast` and both `upcast` overloads raise an exception if and
only if `lookup base derived` finds no path; the message of that exception
contains the name of the base type and, after it, the name of the derived
type; and the call, failing or not, hands back the registry (forward map and
reverse map) exactly as it received it. -/
theorem unregistered_cast_raises {κ : Type} (deref : κ → PolymorphicCaster)
    (name : TypeKey → String) (R : PolymorphicCasters κ) (derived : TypeKey)
    (ptr : Addr) (base : TypeKey) :
    ((∃ e, (R.downcast deref name derived ptr base).1 = .error e)
      ↔ R.lookup base derived = none) ∧
    ((∃ e, (R.upcast deref name derived ptr base).1 = .error e)
      ↔ R.lookup base derived = none) ∧
    ((∃ e, (R.upcastShared deref name derived ptr base).1 = .error e)
      ↔ R.lookup base derived = none) ∧
    (R.lookup base derived = none →
      ∃ pre pre' mid post : String,
        (R.downcast deref name derived ptr base).1
          = .error ⟨pre ++ name base ++ mid ++ name derived ++ post⟩ ∧
        (R.upcast deref name derived ptr base).1
          = .error ⟨pre' ++ name base ++ mid ++ name derived ++ post⟩ ∧
        (R.upcastShared deref name derived ptr base).1
          = .error ⟨pre' ++ name base ++ mid ++ name derived ++ post⟩) ∧
    (R.downcast deref name derived ptr base).2 = R ∧
    (R.upcast deref name derived ptr base).2 = R ∧
    (R.upcastShared deref name derived ptr base).2 = R := by
  have hd : ∀ R' : Option (List κ), R.lookup base derived = R' →
      (R.downcast deref name derived ptr base) =
        (match R' with
          | none => (.error ⟨unregisteredPolymorphicCastMessage "save" (name base)
              (name derived)⟩, R)
          | some mapping =>
            (.ok (mapping.foldl (fun p dmap => (deref dmap).downcast p) ptr), R)) := by
    intro R' h
    simp only [PolymorphicCasters.downcast, h]
  have hu : ∀ R' : Option (List κ), R.lookup base derived = R' →
      (R.upcast deref name derived ptr base) =
        (match R' with
          | none => (.error ⟨unregisteredPolymorphicCastMessage "load" (name base)
              (name derived)⟩, R)
          | some mapping =>
            (.ok (mapping.reverse.foldl (fun p m => (deref m).upcast p) ptr), R)) := by
    intro R' h
    simp only [PolymorphicCasters.upcast, h]
  have hs : ∀ R' : Option (List κ), R.lookup base derived = R' →
      (R.upcastShared deref name derived ptr base) =
        (match R' with
          | none => (.error ⟨unregisteredPolymorphicCastMessage "load" (name base)
              (name derived)⟩, R)
          | some mapping =>
            (.ok (mapping.reverse.foldl (fun p m => (deref m).upcastShared p) ptr), R)) := by
    intro R' h
    simp only [PolymorphicCasters.upcastShared, h]
  cases h : R.lookup base derived with
  | none =>
    rw [hd none h, hu none h, hs none h]
    refine ⟨by simp, by simp, by simp, fun _ => ?_, rfl, rfl, rfl⟩
    refine ⟨"Trying to " ++ "save" ++ " a registered polymorphic type with an " ++
        "unregistered polymorphic cast.\n" ++ "Could not find a path to a base class (",
      "Trying to " ++ "load" ++ " a registered polymorphic type with an " ++
        "unregistered polymorphic cast.\n" ++ "Could not find a path to a base class (",
      ") for type: ",
      "\n" ++ "Make sure you either serialize the base class at some point via " ++
        "ser20::base_class or ser20::virtual_base_class.\n" ++
        "Alternatively, manually register the association with " ++
        "SER20_REGISTER_POLYMORPHIC_RELATION.", ?_, ?_, ?_⟩ <;>
      simp only [unregisteredPolymorphicCastMessage, String.append_assoc]
  | some path =>
    rw [hd _ h, hu _ h, hs _ h]
    refine ⟨by simp, by simp, by simp, fun h' => (by cases h'), rfl, rfl, rfl⟩

/-! ## Round trip of shared pointers -/

theorem save_shared_ptrs_leaf {β : Type} (saveBody : β → List Nat) (body : Addr → β)
    (ar : OutputArchive) (ps : List Addr) :
    (save_shared_ptrs (saveLeaf saveBody body) ar ps).stream
        = ar.stream ++ wireOf saveBody body ar.storage ps ∧
    (save_shared_ptrs (saveLeaf saveBody body) ar ps).storage
        = ar.storage.registerAll ps := by
  induction ps generalizing ar with
  | nil => simp [save_shared_ptrs, wireOf, OutputSharedPointerStorage.registerAll]
  | cons p rest ih =>
    have h := ih (save_shared_ptr (saveLeaf saveBody body) ar p)
    simp only [save_shared_ptrs, List.foldl_cons] at h ⊢
    rw [h.1, h.2]
    unfold save_shared_ptr
    by_cases hm : hasMsb (ar.storage.registerSharedPointer p).1 = true
    · simp [hm, saveLeaf, OutputArchive.saveU32, OutputArchive.saveBinary, wireOf,
        OutputSharedPointerStorage.registerAll]
    · simp [hm, saveLeaf, OutputArchive.saveU32, OutputArchive.saveBinary, wireOf,
        OutputSharedPointerStorage.registerAll]

theorem heapGet_append_new {β : Type} (heap : List (Cell β)) (c : Cell β) :
    heapGet (heap ++ [c]) (heap.length + 1) = some c := by
  simp [heapGet]

theorem heapGet_append_old {β : Type} (heap : List (Cell β)) (c : Cell β) {p : Nat}
    (h : p ≤ heap.length) : heapGet (heap ++ [c]) p = heapGet heap p := by
  unfold heapGet
  by_cases h0 : p = 0
  · simp [h0]
  · simp only [h0, if_false, List.get?_eq_getElem?]
    rw [List.getElem?_append_left (by omega)]

theorem heapGet_heapSet_self {β : Type} (heap : List (Cell β)) (c : Cell β) {p : Nat}
    (h0 : p ≠ 0) (h : p ≤ heap.length) : heapGet (heapSet heap p c) p = some c := by
  simp only [heapGet, heapSet, h0, if_false, List.get?_eq_getElem?]
  rw [List.getElem?_set_self (by omega)]

theorem heapGet_heapSet_ne {β : Type} (heap : List (Cell β)) (c : Cell β) {p q : Nat}
    (hq : q ≠ 0) (h : p ≠ q) : heapGet (heapSet heap p c) q = heapGet heap q := by
  unfold heapGet heapSet
  by_cases h0 : p = 0
  · simp [h0]
  · simp only [h0, hq, if_false, List.get?_eq_getElem?]
    rw [List.getElem?_set_ne (by omega)]

theorem heapObject_heapStore_self {β : Type} (heap : List (Cell β)) (b : β) {p : Nat}
    (h0 : p ≠ 0) (h : p ≤ heap.length) : heapObject (heapStore heap p b) p = some b := by
  unfold heapStore heapObject
  cases hg : heapGet heap p with
  | none =>
    exfalso
    simp only [heapGet, h0, if_false, List.get?_eq_getElem?] at hg
    rw [List.getElem?_eq_none_iff] at hg
    omega
  | some c => simp [heapGet_heapSet_self heap _ h0 h]

theorem heapObject_heapStore_ne {β : Type} (heap : List (Cell β)) (b : β) {p q : Nat}
    (hq : q ≠ 0) (h : p ≠ q) : heapObject (heapStore heap p b) q = heapObject heap q := by
  unfold heapStore heapObject
  cases heapGet heap p with
  | none => rfl
  | some c => simp [heapGet_heapSet_ne heap _ hq h]

theorem length_heapStore {β : Type} (heap : List (Cell β)) (b : β) (p : Nat) :
    (heapStore heap p b).length = heap.length := by
  unfold heapStore
  cases heapGet heap p with
  | none => rfl
  | some c =>
    simp only [heapSet]
    split <;> simp

theorem mapFind_register_mono {st : OutputSharedPointerStorage} {a id : Nat} (p : Nat)
    (h : mapFind st.itsSharedPointerMap a = some id) :
    mapFind (st.registerSharedPointer p).2.itsSharedPointerMap a = some id := by
  by_cases hp : p = 0
  · subst hp
    rw [OutputSharedPointerStorage.register_null]
    exact h
  · cases hf : mapFind st.itsSharedPointerMap p with
    | some id' =>
      rw [OutputSharedPointerStorage.register_old hp hf]
      exact h
    | none =>
      rw [OutputSharedPointerStorage.register_new hp hf]
      simp [mapFind_append, h]

theorem mapFind_registerAll_mono {st : OutputSharedPointerStorage} {a id : Nat}
    (ps : List Nat) (h : mapFind st.itsSharedPointerMap a = some id) :
    mapFind (st.registerAll ps).itsSharedPointerMap a = some id := by
  induction ps generalizing st with
  | nil => exact h
  | cons p rest ih => exact ih (mapFind_register_mono p h)

theorem mapFind_append_singleton {κ ν : Type} [DecidableEq κ] {m : List (κ × ν)} {k k' : κ}
    {v v' : ν} (h : mapFind (m ++ [(k, v)]) k' = some v') :
    mapFind m k' = some v' ∨ (mapFind m k' = none ∧ k' = k ∧ v' = v) := by
  rw [mapFind_append] at h
  cases hm : mapFind m k' with
  | some w =>
    left
    simpa [hm] using h
  | none =>
    right
    by_cases hk : k = k'
    · simp [hm, mapFind, hk] at h
      exact ⟨rfl, hk.symm, h.symm⟩
    · simp [hm, mapFind, hk] at h

theorem load_shared_ptr_step {β : Type} (dflt : β) (saveBody : β → List Nat)
    (loadBody : List Nat → Except Exception (β × List Nat))
    (hrt : ∀ b rest, loadBody (saveBody b ++ rest) = .ok (b, rest))
    (body : Addr → β) {st : OutputSharedPointerStorage} {ia : InputArchive β}
    (hM : Mirrors body st ia) (p : Nat) (rest : List Nat)
    (hc : st.itsCurrentPointerId ≤ 2 ^ 31)
    (hnew : p ≠ 0 → mapFind st.itsSharedPointerMap p = none → st.itsCurrentPointerId < 2 ^ 31)
    (hs : ia.stream = encodeU32 (st.registerSharedPointer p).1 ++
      (if hasMsb (st.registerSharedPointer p).1 then saveBody (body p) else []) ++ rest) :
    ∃ q ia', load_shared_ptr dflt (loadLeaf loadBody) ia = .ok (q, ia') ∧
      ia'.stream = rest ∧ Mirrors body (st.registerSharedPointer p).2 ia' ∧
      (p = 0 → q = 0) ∧
      (p ≠ 0 → mapFind (st.registerSharedPointer p).2.itsSharedPointerMap p = some q) := by
  by_cases hp : p = 0
  · subst hp
    rw [OutputSharedPointerStorage.register_null] at hs ⊢
    have h0 : hasMsb 0 = false := by decide
    simp only [h0, Bool.false_eq_true, if_false, List.append_nil] at hs
    refine ⟨0, { ia with stream := rest }, ?_, rfl, ?_, fun _ => rfl, fun h => absurd rfl h⟩
    · unfold load_shared_ptr
      rw [loadU32_encodeU32 ia 0 rest hs]
      simp [h0, InputArchive.getSharedPointer, InputSharedPointerStorage.getSharedPointer]
    · exact ⟨hM.wf, hM.next, hM.entry, hM.inj⟩
  · cases hf : mapFind st.itsSharedPointerMap p with
    | some id =>
      rw [OutputSharedPointerStorage.register_old hp hf] at hs ⊢
      have hlt := OutputSharedPointerStorage.lt_of_wellFormed hM.wf hf
      have hmsb : hasMsb id = false := hasMsb_of_lt (by omega)
      simp only [hmsb, Bool.false_eq_true, if_false, List.append_nil] at hs
      obtain ⟨_, hid0, hfind, _⟩ := hM.entry p id hf
      refine ⟨id, { ia with stream := rest }, ?_, rfl, ?_, fun h => absurd h hp, fun _ => hf⟩
      · unfold load_shared_ptr
        rw [loadU32_encodeU32 ia id rest hs]
        have hmod : id % 2 ^ 32 = id := Nat.mod_eq_of_lt (by omega)
        simp only [hmod, hmsb, Bool.false_eq_true, if_false, InputArchive.getSharedPointer,
          InputSharedPointerStorage.getSharedPointer_of_find hid0 hfind]
      · exact ⟨hM.wf, hM.next, hM.entry, hM.inj⟩
    | none =>
      have hc := hnew hp hf
      have hwf := OutputSharedPointerStorage.wellFormed_register hM.wf hc p
      rw [OutputSharedPointerStorage.register_new hp hf] at hs hwf ⊢
      have hnext := hM.next
      have hmsb := hasMsb_or_msb hc
      have hstrip := stripMsb_or_msb hc
      have hadd := or_msb_eq_add hc
      have hmod : (st.itsCurrentPointerId ||| msb_32bit) % 2 ^ 32
          = st.itsCurrentPointerId ||| msb_32bit := Nat.mod_eq_of_lt (by omega)
      have hu : toU32 (st.itsCurrentPointerId + 1) = st.itsCurrentPointerId + 1 := by
        unfold toU32
        omega
      simp only [hmsb, if_true, List.append_assoc] at hs
      refine ⟨st.itsCurrentPointerId,
        { stream := rest
          storage := ia.storage.registerSharedPointer
            (st.itsCurrentPointerId ||| msb_32bit) st.itsCurrentPointerId
          itsPolymorphicTypeMap := ia.itsPolymorphicTypeMap
          heap := heapStore (ia.heap ++ [{ object := some dflt, valid := true }])
            st.itsCurrentPointerId (body p) }, ?_, rfl, ?_, fun h => absurd h hp, ?_⟩
      · unfold load_shared_ptr
        rw [loadU32_encodeU32 ia _ _ hs]
        simp only [hmod, hmsb, if_true, InputArchive.allocate, hnext,
          InputArchive.registerSharedPointer, loadLeaf, hrt]
      · refine ⟨hwf, ?_, ?_, ?_⟩
        · simp only [length_heapStore, List.length_append, List.length_singleton, hu]
          omega
        · intro a id ha
          simp only [InputSharedPointerStorage.registerSharedPointer, hstrip]
          rcases mapFind_append_singleton ha with hold | ⟨_, hap, hidc⟩
          · obtain ⟨ha0, hid0, hfind, hobj⟩ := hM.entry a id hold
            have hlt := OutputSharedPointerStorage.lt_of_wellFormed hM.wf hold
            refine ⟨ha0, hid0, ?_, ?_⟩
            · rw [mapFind_mapAssign_ne _ _ (by omega)]
              exact hfind
            · rw [heapObject_heapStore_ne _ _ hid0 (by omega)]
              unfold heapObject
              rw [heapGet_append_old _ _ (by omega)]
              exact hobj
          · subst hap hidc
            refine ⟨hp, by omega, mapFind_mapAssign_self _ _ _, ?_⟩
            exact heapObject_heapStore_self _ _ (by omega) (by simp; omega)
        · intro a b id ha hb
          rcases mapFind_append_singleton ha with hold | ⟨_, hap, hidc⟩
          · rcases mapFind_append_singleton hb with hold' | ⟨_, _, hidc'⟩
            · exact hM.inj a b id hold hold'
            · have hlt := OutputSharedPointerStorage.lt_of_wellFormed hM.wf hold
              omega
          · rcases mapFind_append_singleton hb with hold' | ⟨_, hbp, _⟩
            · have hlt := OutputSharedPointerStorage.lt_of_wellFormed hM.wf hold'
              omega
            · rw [hap, hbp]
      · intro _
        simp [mapFind_append, hf, mapFind]

theorem keys_of_mapFind_none {κ ν : Type} [DecidableEq κ] {m : List (κ × ν)} {k : κ}
    (h : mapFind m k = none) : k ∉ m.map Prod.fst := by
  intro hk
  obtain ⟨e, he, hek⟩ := List.mem_map.1 hk
  obtain ⟨w, hw⟩ := mapFind_isSome_of_mem (show (k, e.2) ∈ m by rw [← hek]; exact he)
  rw [h] at hw
  cases hw

theorem KeysWithin.counter_le {D : List Nat} {st : OutputSharedPointerStorage}
    (hK : KeysWithin D st) (hD : D.length < 2 ^ 31) : st.itsCurrentPointerId ≤ 2 ^ 31 := by
  have h1 : (st.itsSharedPointerMap.map Prod.fst).length ≤ D.length :=
    (List.subperm_of_subset hK.nodup hK.sub).length_le
  have h2 := hK.count
  simp only [List.length_map] at h1
  omega

theorem KeysWithin.register {D : List Nat} {st : OutputSharedPointerStorage}
    (hK : KeysWithin D st) (hD : D.length < 2 ^ 31) {p : Nat} (hp : p ≠ 0 → p ∈ D) :
    KeysWithin D (st.registerSharedPointer p).2 ∧
    (p ≠ 0 → mapFind st.itsSharedPointerMap p = none → st.itsCurrentPointerId < 2 ^ 31) := by
  have hnew : p ≠ 0 → mapFind st.itsSharedPointerMap p = none →
      (st.itsSharedPointerMap.map Prod.fst ++ [p]).Nodup ∧
      (st.itsSharedPointerMap.map Prod.fst ++ [p]) ⊆ D := by
    intro hp0 hf
    constructor
    · exact List.Nodup.append hK.nodup (List.nodup_singleton p)
        (by
          intro a ha hap
          rw [List.mem_singleton] at hap
          subst hap
          exact keys_of_mapFind_none hf ha)
    · intro a ha
      rcases List.mem_append.1 ha with ha | ha
      · exact hK.sub ha
      · rw [List.mem_singleton] at ha
        subst ha
        exact hp hp0
  have hlt : p ≠ 0 → mapFind st.itsSharedPointerMap p = none →
      st.itsCurrentPointerId < 2 ^ 31 := by
    intro hp0 hf
    obtain ⟨hn, hs⟩ := hnew hp0 hf
    have h1 := (List.subperm_of_subset hn hs).length_le
    have h2 := hK.count
    simp only [List.length_append, List.length_map, List.length_singleton] at h1
    omega
  refine ⟨?_, hlt⟩
  by_cases hp0 : p = 0
  · subst hp0
    rw [OutputSharedPointerStorage.register_null]
    exact hK
  · cases hf : mapFind st.itsSharedPointerMap p with
    | some id =>
      rw [OutputSharedPointerStorage.register_old hp0 hf]
      exact ⟨hK.nodup, hK.sub, hK.count⟩
    | none =>
      rw [OutputSharedPointerStorage.register_new hp0 hf]
      obtain ⟨hn, hs⟩ := hnew hp0 hf
      have hc := hlt hp0 hf
      refine ⟨by simpa using hn, by simpa using hs, ?_⟩
      have h2 := hK.count
      simp only [toU32, List.length_append, List.length_singleton]
      omega

theorem load_shared_ptrs_sim {β : Type} (dflt : β) (saveBody : β → List Nat)
    (loadBody : List Nat → Except Exception (β × List Nat))
    (hrt : ∀ b rest, loadBody (saveBody b ++ rest) = .ok (b, rest))
    (body : Addr → β) (D : List Nat) (hD : D.length < 2 ^ 31) (ps : List Nat) :
    ∀ (st : OutputSharedPointerStorage) (ia : InputArchive β) (rest : List Nat),
      Mirrors body st ia → KeysWithin D st → (∀ p ∈ ps, p ≠ 0 → p ∈ D) →
      ia.stream = wireOf saveBody body st ps ++ rest →
      ∃ qs ia',
        load_shared_ptrs (load_shared_ptr dflt (loadLeaf loadBody)) ps.length ia
          = .ok (qs, ia') ∧
        ia'.stream = rest ∧ Mirrors body (st.registerAll ps) ia' ∧
        KeysWithin D (st.registerAll ps) ∧
        List.Forall₂ (fun p q => (p = 0 → q = 0) ∧
          (p ≠ 0 → mapFind (st.registerAll ps).itsSharedPointerMap p = some q)) ps qs := by
  induction ps with
  | nil =>
    intro st ia rest hM hK _ hs
    exact ⟨[], ia, rfl, by simpa [wireOf] using hs, hM, hK, List.Forall₂.nil⟩
  | cons p ps' ih =>
    intro st ia rest hM hK hsub hs
    simp only [wireOf, List.append_assoc] at hs
    obtain ⟨hK1, hnew⟩ := hK.register hD (hsub p (List.mem_cons_self _ _))
    obtain ⟨q, ia1, hload, hs1, hM1, hq0, hq1⟩ :=
      load_shared_ptr_step dflt saveBody loadBody hrt body hM p
        (wireOf saveBody body (st.registerSharedPointer p).2 ps' ++ rest)
        (hK.counter_le hD) hnew (by simpa [List.append_assoc] using hs)
    obtain ⟨qs, ia2, hloads, hs2, hM2, hK2, hall⟩ :=
      ih (st.registerSharedPointer p).2 ia1 rest hM1 hK1
        (fun x hx => hsub x (List.mem_cons_of_mem _ hx)) hs1
    refine ⟨q :: qs, ia2, ?_, hs2, hM2, hK2, ?_⟩
    · simp only [List.length_cons, load_shared_ptrs, hload, hloads]
    · exact List.Forall₂.cons
        ⟨hq0, fun hp => mapFind_registerAll_mono ps' (hq1 hp)⟩ hall

theorem mirrors_init {β : Type} (body : Addr → β) (stream : List Nat) :
    Mirrors body OutputSharedPointerStorage.init (InputArchive.init (β := β) stream) :=
  ⟨by decide, rfl, fun a id h => by simp [OutputSharedPointerStorage.init, mapFind] at h,
    fun a b id h => by simp [OutputSharedPointerStorage.init, mapFind] at h⟩

theorem keysWithin_init (D : List Nat) : KeysWithin D OutputSharedPointerStorage.init :=
  ⟨by simp [OutputSharedPointerStorage.init], by simp [OutputSharedPointerStorage.init], rfl⟩

/-- Claim C1 as amended: for every list `ps` of shared pointers with fewer
than `2 ^ 31` distinct non-null addresses (each null, or pointing to an object
whose body holds no further pointers and is written and read back by
`saveBody` and `loadBody`), saving them through the wrapper into one fresh
output archive and loading as many pointers from the resulting stream with one
fresh input archive returns handles `qs`, one per pointer, the whole stream
being consumed, such that for all positions: the handle is null iff the pointer
is null, the object behind the handle is the body of the pointer, and two
handles hold the same address exactly when the two pointers do. -/
theorem shared_ptr_roundtrip {β : Type} (dflt : β) (saveBody : β → List Nat)
    (loadBody : List Nat → Except Exception (β × List Nat))
    (hrt : ∀ b rest, loadBody (saveBody b ++ rest) = .ok (b, rest))
    (body : Addr → β) (ps : List Addr)
    (hdistinct : ((ps.filter (fun p => p != 0)).dedup).length < 2 ^ 31) :
    ∃ qs ar',
      load_shared_ptrs (load_shared_ptr dflt (loadLeaf loadBody)) ps.length
          (InputArchive.init
            (save_shared_ptrs (saveLeaf saveBody body) OutputArchive.init ps).stream)
        = .ok (qs, ar') ∧
      qs.length = ps.length ∧ ar'.stream = [] ∧
      ∀ p q, (p, q) ∈ ps.zip qs →
        (q = 0 ↔ p = 0) ∧
        (p ≠ 0 → heapObject ar'.heap q = some (body p)) ∧
        ∀ p' q', (p', q') ∈ ps.zip qs → (q = q' ↔ p = p') := by
  have hstream := (save_shared_ptrs_leaf saveBody body OutputArchive.init ps).1
  obtain ⟨qs, ar', hload, hs, hM, _, hall⟩ :=
    load_shared_ptrs_sim dflt saveBody loadBody hrt body _ hdistinct ps
      OutputSharedPointerStorage.init _ []
      (mirrors_init body _) (keysWithin_init _)
      (fun p hp hp0 => by
        rw [List.mem_dedup, List.mem_filter]
        exact ⟨hp, by simpa using hp0⟩)
      (by simpa [InputArchive.init, OutputArchive.init] using hstream)
  refine ⟨qs, ar', hload, hall.length_eq.symm, hs, ?_⟩
  have key : ∀ p q, (p, q) ∈ ps.zip qs →
      (p = 0 → q = 0) ∧ (p ≠ 0 →
        mapFind (OutputSharedPointerStorage.init.registerAll ps).itsSharedPointerMap p
          = some q) :=
    fun p q h => List.forall₂_zip hall h
  intro p q hpq
  obtain ⟨hp0, hp1⟩ := key p q hpq
  refine ⟨⟨fun hq => ?_, hp0⟩, fun hp => (hM.entry p q (hp1 hp)).2.2.2, ?_⟩
  · by_contra hp
    exact (hM.entry p q (hp1 hp)).2.1 hq
  · intro p' q' hpq'
    obtain ⟨hp0', hp1'⟩ := key p' q' hpq'
    by_cases hp : p = 0
    · by_cases hp' : p' = 0
      · simp [hp, hp', hp0 hp, hp0' hp']
      · have hq' := (hM.entry p' q' (hp1' hp')).2.1
        rw [hp0 hp, hp]
        exact ⟨fun h => absurd h.symm hq', fun h => absurd h.symm hp'⟩
    · have hq := (hM.entry p q (hp1 hp)).2.1
      by_cases hp' : p' = 0
      · rw [hp0' hp', hp']
        exact ⟨fun h => absurd h hq, fun h => absurd h hp⟩
      · constructor
        · intro h
          subst h
          exact hM.inj p p' q (hp1 hp) (hp1' hp')
        · intro h
          subst h
          have := (hp1 hp).symm.trans (hp1' hp')
          exact Option.some.inj this

theorem loadByte_saveByte (b : Fin 256) (rest : List Nat) :
    loadByte (saveByte b ++ rest) = .ok (b, rest) := by
  simp only [saveByte, loadByte, List.singleton_append]
  congr
  apply Fin.ext
  simp [Fin.ofNat, Nat.mod_eq_of_lt b.isLt]

/-- Witness of C1 (amended) on the pointers 5, null, 7, 5 with one-byte
bodies. -/
theorem shared_ptr_roundtrip_witness :
    ∃ qs ar',
      load_shared_ptrs (load_shared_ptr 0 (loadLeaf loadByte)) [5, 0, 7, 5].length
          (InputArchive.init
            (save_shared_ptrs (saveLeaf saveByte (fun a => Fin.ofNat a)) OutputArchive.init
              [5, 0, 7, 5]).stream)
        = .ok (qs, ar') ∧
      qs.length = [5, 0, 7, 5].length ∧ ar'.stream = [] ∧
      ∀ p q, (p, q) ∈ [5, 0, 7, 5].zip qs →
        (q = 0 ↔ p = 0) ∧
        (p ≠ 0 → heapObject ar'.heap q = some ((fun a => Fin.ofNat a) p)) ∧
        ∀ p' q', (p', q') ∈ [5, 0, 7, 5].zip qs → (q = q' ↔ p = p') :=
  shared_ptr_roundtrip 0 saveByte loadByte loadByte_saveByte (fun a => Fin.ofNat a)
    [5, 0, 7, 5] (by decide)

/-! ## Beyond `2 ^ 31` objects -/

theorem wireOf_append {β : Type} (saveBody : β → List Nat) (body : Addr → β)
    (st : OutputSharedPointerStorage) (xs ys : List Nat) :
    wireOf saveBody body st (xs ++ ys)
      = wireOf saveBody body st xs ++ wireOf saveBody body (st.registerAll xs) ys := by
  induction xs generalizing st with
  | nil => rfl
  | cons x rest ih =>
    show wireOf saveBody body st (x :: (rest ++ ys)) = _
    simp only [wireOf, OutputSharedPointerStorage.registerAll, ih, List.append_assoc]

theorem load_shared_ptrs_append {β : Type}
    (load : InputArchive β → Except Exception (Addr × InputArchive β)) (n m : Nat)
    {ia ia1 ia2 : InputArchive β} {qs1 qs2 : List Addr}
    (h1 : load_shared_ptrs load n ia = .ok (qs1, ia1))
    (h2 : load_shared_ptrs load m ia1 = .ok (qs2, ia2)) :
    load_shared_ptrs load (n + m) ia = .ok (qs1 ++ qs2, ia2) := by
  induction n generalizing ia qs1 with
  | zero =>
    simp only [load_shared_ptrs, Except.ok.injEq, Prod.mk.injEq] at h1
    obtain ⟨hq, hia⟩ := h1
    subst hq hia
    simpa using h2
  | succ k ih =>
    rw [Nat.add_right_comm]
    simp only [load_shared_ptrs] at h1 ⊢
    cases hl : load ia with
    | error e => simp [hl] at h1
    | ok r =>
      obtain ⟨q, ia'⟩ := r
      simp only [hl] at h1 ⊢
      cases hr : load_shared_ptrs load k ia' with
      | error e => simp [hr] at h1
      | ok r' =>
        obtain ⟨qs, ia''⟩ := r'
        simp only [hr, Except.ok.injEq, Prod.mk.injEq] at h1
        obtain ⟨hq, hia⟩ := h1
        subst hq hia
        rw [ih hr]
        rfl

theorem mapFind_registerAll_mem (st : OutputSharedPointerStorage) (ps : List Nat) {p : Nat}
    (hp : p ∈ ps) (hp0 : p ≠ 0) :
    ∃ id, mapFind (st.registerAll ps).itsSharedPointerMap p = some id := by
  induction ps generalizing st with
  | nil => cases hp
  | cons x rest ih =>
    rcases List.mem_cons.1 hp with hx | hx
    · subst hx
      have h1 : ∃ id, mapFind (st.registerSharedPointer p).2.itsSharedPointerMap p = some id := by
        cases hf : mapFind st.itsSharedPointerMap p with
        | some id =>
          rw [OutputSharedPointerStorage.register_old hp0 hf]
          exact ⟨id, hf⟩
        | none =>
          rw [OutputSharedPointerStorage.register_new hp0 hf]
          exact ⟨st.itsCurrentPointerId, by simp [mapFind_append, hf, mapFind]⟩
      obtain ⟨id, hid⟩ := h1
      exact ⟨id, mapFind_registerAll_mono rest hid⟩
    · exact ih _ hx

theorem load_shared_ptr_first {β : Type} (dflt : β) (saveBody : β → List Nat)
    (loadBody : List Nat → Except Exception (β × List Nat))
    (hrt : ∀ b rest, loadBody (saveBody b ++ rest) = .ok (b, rest))
    (ia : InputArchive β) (id : Nat) (b : β) (rest : List Nat) (hid : id < 2 ^ 32)
    (hmsb : hasMsb id = true) (hs : ia.stream = encodeU32 id ++ (saveBody b ++ rest)) :
    load_shared_ptr dflt (loadLeaf loadBody) ia =
      .ok (ia.heap.length + 1,
        { stream := rest
          storage := ia.storage.registerSharedPointer id (ia.heap.length + 1)
          itsPolymorphicTypeMap := ia.itsPolymorphicTypeMap
          heap := heapStore (ia.heap ++ [{ object := some dflt, valid := true }])
            (ia.heap.length + 1) b }) := by
  unfold load_shared_ptr
  rw [loadU32_encodeU32 ia _ _ hs]
  simp only [Nat.mod_eq_of_lt hid, hmsb, if_true, InputArchive.allocate,
    InputArchive.registerSharedPointer, loadLeaf, hrt]

theorem load_shared_ptrs_two_first {β : Type} (dflt : β) (saveBody : β → List Nat)
    (loadBody : List Nat → Except Exception (β × List Nat))
    (hrt : ∀ b rest, loadBody (saveBody b ++ rest) = .ok (b, rest))
    (ia : InputArchive β) (id1 id2 : Nat) (b1 b2 : β) (rest : List Nat)
    (hid1 : id1 < 2 ^ 32) (hmsb1 : hasMsb id1 = true)
    (hid2 : id2 < 2 ^ 32) (hmsb2 : hasMsb id2 = true)
    (hs : ia.stream
      = encodeU32 id1 ++ (saveBody b1 ++ (encodeU32 id2 ++ (saveBody b2 ++ rest)))) :
    ∃ ia3, load_shared_ptrs (load_shared_ptr dflt (loadLeaf loadBody)) 2 ia
      = .ok ([ia.heap.length + 1, ia.heap.length + 1 + 1], ia3) := by
  have hl1 := load_shared_ptr_first dflt saveBody loadBody hrt ia id1 b1 _ hid1 hmsb1 hs
  have hl2 := load_shared_ptr_first dflt saveBody loadBody hrt
    { stream := encodeU32 id2 ++ (saveBody b2 ++ rest)
      storage := ia.storage.registerSharedPointer id1 (ia.heap.length + 1)
      itsPolymorphicTypeMap := ia.itsPolymorphicTypeMap
      heap := heapStore (ia.heap ++ [{ object := some dflt, valid := true }])
        (ia.heap.length + 1) b1 } id2 b2 rest hid2 hmsb2 rfl
  simp only [length_heapStore, List.length_append, List.length_singleton] at hl2
  exact ⟨_, by simp only [load_shared_ptrs, hl1, hl2]; rfl⟩

theorem load_after_overflow {β : Type} (dflt : β) (saveBody : β → List Nat)
    (loadBody : List Nat → Except Exception (β × List Nat))
    (hrt : ∀ b rest, loadBody (saveBody b ++ rest) = .ok (b, rest))
    (body : Addr → β) (P1 : List Nat) (a : Nat) (hnd : P1.Nodup)
    (hnz : ∀ p ∈ P1, p ≠ 0) (hlen : P1.length = 2 ^ 31 - 1) (ha : a ∉ P1) (ha0 : a ≠ 0) :
    ∃ qs ar',
      load_shared_ptrs (load_shared_ptr dflt (loadLeaf loadBody)) (P1 ++ [a, a]).length
          (InputArchive.init
            (save_shared_ptrs (saveLeaf saveBody body) OutputArchive.init
              (P1 ++ [a, a])).stream)
        = .ok (qs, ar') ∧
      (a, 2 ^ 31) ∈ (P1 ++ [a, a]).zip qs ∧ (a, 2 ^ 31 + 1) ∈ (P1 ++ [a, a]).zip qs := by
  have hstream := (save_shared_ptrs_leaf saveBody body OutputArchive.init (P1 ++ [a, a])).1
  rw [wireOf_append] at hstream
  have hD : P1.length < 2 ^ 31 := by omega
  obtain ⟨qs1, ia1, hload1, hs1, hM1, hK1, hall1⟩ :=
    load_shared_ptrs_sim dflt saveBody loadBody hrt body P1 hD P1
      OutputSharedPointerStorage.init
      (InputArchive.init
        (save_shared_ptrs (saveLeaf saveBody body) OutputArchive.init (P1 ++ [a, a])).stream)
      (wireOf saveBody body (OutputSharedPointerStorage.init.registerAll P1) [a, a])
      (mirrors_init body _) (keysWithin_init _) (fun p hp _ => hp)
      (by simpa [InputArchive.init, OutputArchive.init] using hstream)
  have hsub : P1 ⊆
      (OutputSharedPointerStorage.init.registerAll P1).itsSharedPointerMap.map Prod.fst := by
    intro p hp
    obtain ⟨id, hid⟩ :=
      mapFind_registerAll_mem OutputSharedPointerStorage.init P1 hp (hnz p hp)
    exact List.mem_map.2 ⟨_, mem_of_mapFind hid, rfl⟩
  generalize OutputSharedPointerStorage.init.registerAll P1 = st1 at hs1 hM1 hK1 hall1 hsub
  -- the counter has reached `2 ^ 31` and `a` is new
  have hcount : st1.itsCurrentPointerId = 2 ^ 31 := by
    have h1 := (List.subperm_of_subset hK1.nodup hK1.sub).length_le
    have h2 := (List.subperm_of_subset hnd hsub).length_le
    have h3 := hK1.count
    simp only [List.length_map] at h1 h2
    omega
  have hfa : mapFind st1.itsSharedPointerMap a = none := by
    cases hf : mapFind st1.itsSharedPointerMap a with
    | none => rfl
    | some id =>
      exact absurd (hK1.sub (List.mem_map.2 ⟨_, mem_of_mapFind hf, rfl⟩)) ha
  have hor : (2 ^ 31 ||| msb_32bit : Nat) = 2 ^ 31 := by decide
  have hmsb : hasMsb (2 ^ 31) = true := by decide
  have hr1 := OutputSharedPointerStorage.register_new ha0 hfa
  rw [hcount, hor] at hr1
  have hfa2 : mapFind (st1.registerSharedPointer a).2.itsSharedPointerMap a
      = some (2 ^ 31) := by
    rw [hr1]
    simp [mapFind_append, hfa, mapFind]
  have hr2 := OutputSharedPointerStorage.register_old ha0 hfa2
  have hwire : wireOf saveBody body st1 [a, a] =
      encodeU32 (2 ^ 31) ++ (saveBody (body a) ++
        (encodeU32 (2 ^ 31) ++ (saveBody (body a) ++ []))) := by
    simp only [wireOf, hr2]
    simp only [hr1, hmsb, if_true, List.append_assoc, List.append_nil]
  rw [hwire] at hs1
  obtain ⟨ia3, hl3⟩ := load_shared_ptrs_two_first dflt saveBody loadBody hrt ia1
    (2 ^ 31) (2 ^ 31) (body a) (body a) [] (by decide) hmsb (by decide) hmsb hs1
  have hnext := hM1.next
  rw [hcount] at hnext
  have e1 : ia1.heap.length + 1 = 2 ^ 31 := hnext
  rw [e1] at hl3
  have hload2 := load_shared_ptrs_append _ P1.length 2 hload1 hl3
  refine ⟨_, _, by simpa using hload2, ?_, ?_⟩
  · rw [List.zip_append hall1.length_eq]
    simp
  · rw [List.zip_append hall1.length_eq]
    simp

/-- Claim C1 as stated fails once the ordinals run into bit 31: saving pointers
to `2 ^ 31 - 1` distinct objects and then two pointers to one more object (at
address `2 ^ 31`, with one-byte bodies) into a fresh archive and loading the
stream with a fresh archive succeeds, but the handles loaded for the last two
pointers are `2 ^ 31` and `2 ^ 31 + 1`: two objects for two pointers that alias
one object. -/
theorem shared_ptr_roundtrip_overflow :
    ∃ qs ar',
      load_shared_ptrs (load_shared_ptr 0 (loadLeaf loadByte)) overflowPointers.length
          (InputArchive.init
            (save_shared_ptrs (saveLeaf saveByte (fun _ => 0)) OutputArchive.init
              overflowPointers).stream)
        = .ok (qs, ar') ∧
      (2 ^ 31, 2 ^ 31) ∈ overflowPointers.zip qs ∧
      (2 ^ 31, 2 ^ 31 + 1) ∈ overflowPointers.zip qs ∧
      ¬ (∀ p q, (p, q) ∈ overflowPointers.zip qs →
          ∀ p' q', (p', q') ∈ overflowPointers.zip qs → (q = q' ↔ p = p')) := by
  obtain ⟨qs, ar', hload, h1, h2⟩ :=
    load_after_overflow (0 : Fin 256) saveByte loadByte loadByte_saveByte (fun _ => 0)
      (List.range' 1 (2 ^ 31 - 1)) (2 ^ 31) (List.nodup_range' 1 (2 ^ 31 - 1))
      (fun p hp => by
        rw [List.mem_range'_1] at hp
        omega)
      (List.length_range' 1 1 (2 ^ 31 - 1))
      (fun hp => by
        rw [List.mem_range'_1] at hp
        omega)
      (by decide)
  refine ⟨qs, ar', hload, h1, h2, fun h => ?_⟩
  have h3 : (2 ^ 31 : Nat) = 2 ^ 31 + 1 := (h _ _ h1 _ _ h2).2 rfl
  exact absurd h3 (by decide)

/-! ## Cycles -/

theorem loadU32_mk {β : Type} (n : Nat) (rest : List Nat) (st : InputSharedPointerStorage)
    (tm : List (Nat × String)) (hp : List (Cell β)) :
    InputArchive.loadU32
        { stream := encodeU32 n ++ rest, storage := st, itsPolymorphicTypeMap := tm,
          heap := hp }
      = .ok (n % 2 ^ 32,
          { stream := rest, storage := st, itsPolymorphicTypeMap := tm, heap := hp }) :=
  loadU32_encodeU32 _ n rest rfl

theorem load_shared_ptr_new {β : Type} (dflt : β)
    (loadData : Addr → InputArchive β → Except Exception (InputArchive β))
    (id : Nat) (rest : List Nat) (st : InputSharedPointerStorage)
    (tm : List (Nat × String)) (hp : List (Cell β))
    (hid : id < 2 ^ 32) (hmsb : hasMsb id = true) :
    load_shared_ptr dflt loadData
        { stream := encodeU32 id ++ rest, storage := st, itsPolymorphicTypeMap := tm,
          heap := hp }
      = match loadData (hp.length + 1)
          { stream := rest, storage := st.registerSharedPointer id (hp.length + 1),
            itsPolymorphicTypeMap := tm,
            heap := hp ++ [{ object := some dflt, valid := true }] } with
        | .error e => .error e
        | .ok ar3 => .ok (hp.length + 1, ar3) := by
  unfold load_shared_ptr
  rw [loadU32_mk]
  simp only [Nat.mod_eq_of_lt hid, hmsb, if_true, InputArchive.allocate,
    InputArchive.registerSharedPointer]

theorem load_shared_ptr_construct_new {β : Type}
    (loadAndConstruct : Addr → InputArchive β → Except Exception (InputArchive β))
    (id : Nat) (rest : List Nat) (st : InputSharedPointerStorage)
    (tm : List (Nat × String)) (hp : List (Cell β))
    (hid : id < 2 ^ 32) (hmsb : hasMsb id = true) :
    load_shared_ptr_construct loadAndConstruct
        { stream := encodeU32 id ++ rest, storage := st, itsPolymorphicTypeMap := tm,
          heap := hp }
      = match loadAndConstruct (hp.length + 1)
          { stream := rest, storage := st.registerSharedPointer id (hp.length + 1),
            itsPolymorphicTypeMap := tm,
            heap := hp ++ [{ object := none, valid := false }] } with
        | .error e => .error e
        | .ok ar3 =>
          .ok (hp.length + 1,
            { ar3 with heap := (heapSet ar3.heap (hp.length + 1)
              { object := ((heapGet ar3.heap (hp.length + 1)).getD
                  { object := none, valid := false }).object
                valid := true }) }) := by
  unfold load_shared_ptr_construct
  rw [loadU32_mk]
  simp only [Nat.mod_eq_of_lt hid, hmsb, if_true, InputArchive.allocate,
    InputArchive.registerSharedPointer]

theorem load_shared_ptr_known {β : Type} (dflt : β)
    (loadData : Addr → InputArchive β → Except Exception (InputArchive β))
    (k : Nat) (p : Addr) (rest : List Nat) (st : InputSharedPointerStorage)
    (tm : List (Nat × String)) (hp : List (Cell β))
    (hk0 : k ≠ 0) (hk : k < 2 ^ 31) (hfind : mapFind st.itsSharedPointerMap k = some p) :
    load_shared_ptr dflt loadData
        { stream := encodeU32 k ++ rest, storage := st, itsPolymorphicTypeMap := tm,
          heap := hp }
      = .ok (p, { stream := rest, storage := st, itsPolymorphicTypeMap := tm, heap := hp }) := by
  unfold load_shared_ptr
  rw [loadU32_mk]
  simp only [Nat.mod_eq_of_lt (show k < 2 ^ 32 by omega), hasMsb_of_lt hk,
    Bool.false_eq_true, if_false, InputArchive.getSharedPointer,
    InputSharedPointerStorage.getSharedPointer_of_find hk0 hfind]

theorem load_shared_ptr_construct_known {β : Type}
    (loadAndConstruct : Addr → InputArchive β → Except Exception (InputArchive β))
    (k : Nat) (p : Addr) (rest : List Nat) (st : InputSharedPointerStorage)
    (tm : List (Nat × String)) (hp : List (Cell β))
    (hk0 : k ≠ 0) (hk : k < 2 ^ 31) (hfind : mapFind st.itsSharedPointerMap k = some p) :
    load_shared_ptr_construct loadAndConstruct
        { stream := encodeU32 k ++ rest, storage := st, itsPolymorphicTypeMap := tm,
          heap := hp }
      = .ok (p, { stream := rest, storage := st, itsPolymorphicTypeMap := tm, heap := hp }) := by
  unfold load_shared_ptr_construct
  rw [loadU32_mk]
  simp only [Nat.mod_eq_of_lt (show k < 2 ^ 32 by omega), hasMsb_of_lt hk,
    Bool.false_eq_true, if_false, InputArchive.getSharedPointer,
    InputSharedPointerStorage.getSharedPointer_of_find hk0 hfind]

theorem heapGet_at {β : Type} (pre : List (Cell β)) (c : Cell β) (tail : List (Cell β)) :
    heapGet (pre ++ c :: tail) (pre.length + 1) = some c := by
  unfold heapGet
  simp only [Nat.add_one_ne_zero, if_false, Nat.add_sub_cancel, List.get?_eq_getElem?]
  rw [List.getElem?_append_right (le_refl _)]
  simp

theorem heapSet_at {β : Type} (pre : List (Cell β)) (c c' : Cell β) (tail : List (Cell β)) :
    heapSet (pre ++ c :: tail) (pre.length + 1) c' = pre ++ c' :: tail := by
  unfold heapSet
  simp only [Nat.add_one_ne_zero, if_false, Nat.add_sub_cancel]
  rw [List.set_append_right _ _ (le_refl _)]
  simp

theorem heapGet_at_second {β : Type} (pre : List (Cell β)) (c₁ c₂ : Cell β)
    (tail : List (Cell β)) :
    heapGet (pre ++ c₁ :: c₂ :: tail) (pre.length + 1 + 1) = some c₂ := by
  have h := heapGet_at (pre ++ [c₁]) c₂ tail
  simpa using h

theorem heapSet_at_second {β : Type} (pre : List (Cell β)) (c₁ c₂ c' : Cell β)
    (tail : List (Cell β)) :
    heapSet (pre ++ c₁ :: c₂ :: tail) (pre.length + 1 + 1) c' = pre ++ c₁ :: c' :: tail := by
  have h := heapSet_at (pre ++ [c₁]) c₂ c' tail
  simpa using h

theorem heapUpdate_at {β : Type} (pre : List (Cell β)) (c : Cell β) (tail : List (Cell β))
    (f : β → β) :
    heapUpdate (pre ++ c :: tail) (pre.length + 1) f
      = pre ++ { object := c.object.map f, valid := c.valid } :: tail := by
  simp only [heapUpdate, heapGet_at, heapSet_at]

theorem heapUpdate_at_second {β : Type} (pre : List (Cell β)) (c₁ c₂ : Cell β)
    (tail : List (Cell β)) (f : β → β) :
    heapUpdate (pre ++ c₁ :: c₂ :: tail) (pre.length + 1 + 1) f
      = pre ++ c₁ :: { object := c₂.object.map f, valid := c₂.valid } :: tail := by
  simp only [heapUpdate, heapGet_at_second, heapSet_at_second]

theorem heapConstruct_at {β : Type} (pre : List (Cell β)) (c : Cell β) (tail : List (Cell β))
    (b : β) :
    heapConstruct (pre ++ c :: tail) (pre.length + 1) b
      = pre ++ { object := some b, valid := c.valid } :: tail := by
  simp only [heapConstruct, heapGet_at, heapSet_at]

theorem heapConstruct_at_second {β : Type} (pre : List (Cell β)) (c₁ c₂ : Cell β)
    (tail : List (Cell β)) (b : β) :
    heapConstruct (pre ++ c₁ :: c₂ :: tail) (pre.length + 1 + 1) b
      = pre ++ c₁ :: { object := some b, valid := c₂.valid } :: tail := by
  simp only [heapConstruct, heapGet_at_second, heapSet_at_second]

theorem find_registered (st : InputSharedPointerStorage) (id : Nat) (p : Addr) :
    mapFind (st.registerSharedPointer id p).itsSharedPointerMap (stripMsb id) = some p := by
  simp [InputSharedPointerStorage.registerSharedPointer, mapFind_mapAssign_self]

theorem find_registered_ne (st : InputSharedPointerStorage) (id : Nat) (p : Addr) {k : Nat}
    (h : stripMsb id ≠ k) :
    mapFind (st.registerSharedPointer id p).itsSharedPointerMap k
      = mapFind st.itsSharedPointerMap k := by
  simp [InputSharedPointerStorage.registerSharedPointer, mapFind_mapAssign_ne _ _ h]

theorem stripMsb_lt (id : Nat) : stripMsb id < 2 ^ 31 := by
  rw [stripMsb_eq_mod]
  exact Nat.mod_lt _ (by decide)

theorem loadNode_self_cycle (fuel : Nat) (id v : Nat) (rest : List Nat)
    (st : InputSharedPointerStorage) (tm : List (Nat × String)) (hp : List (Cell Node))
    (hid : id < 2 ^ 32) (hmsb : hasMsb id = true) (hk : stripMsb id ≠ 0) (hv : v < 2 ^ 32) :
    load_shared_ptr { value := 0, next := 0 } (loadNode (fuel + 1))
        { stream := encodeU32 id ++ (encodeU32 v ++ (encodeU32 (stripMsb id) ++ rest)),
          storage := st, itsPolymorphicTypeMap := tm, heap := hp }
      = .ok (hp.length + 1,
          { stream := rest, storage := st.registerSharedPointer id (hp.length + 1),
            itsPolymorphicTypeMap := tm,
            heap := hp ++ [{ object := some { value := v, next := hp.length + 1 },
                             valid := true }] }) := by
  rw [load_shared_ptr_new _ _ _ _ _ _ _ hid hmsb]
  simp only [loadNode]
  rw [loadU32_mk]
  simp only [Nat.mod_eq_of_lt hv, heapUpdate_at]
  rw [load_shared_ptr_known _ _ _ _ _ _ _ _ hk (stripMsb_lt id) (find_registered st id _)]
  simp only [heapUpdate_at, Option.map_some']

theorem loadAndConstructNode_self_cycle (fuel : Nat) (id v : Nat) (rest : List Nat)
    (st : InputSharedPointerStorage) (tm : List (Nat × String)) (hp : List (Cell Node))
    (hid : id < 2 ^ 32) (hmsb : hasMsb id = true) (hk : stripMsb id ≠ 0) (hv : v < 2 ^ 32) :
    load_shared_ptr_construct (loadAndConstructNode (fuel + 1))
        { stream := encodeU32 id ++ (encodeU32 v ++ (encodeU32 (stripMsb id) ++ rest)),
          storage := st, itsPolymorphicTypeMap := tm, heap := hp }
      = .ok (hp.length + 1,
          { stream := rest, storage := st.registerSharedPointer id (hp.length + 1),
            itsPolymorphicTypeMap := tm,
            heap := hp ++ [{ object := some { value := v, next := hp.length + 1 },
                             valid := true }] }) := by
  rw [load_shared_ptr_construct_new _ _ _ _ _ _ hid hmsb]
  simp only [loadAndConstructNode]
  rw [loadU32_mk]
  simp only [Nat.mod_eq_of_lt hv, heapConstruct_at]
  rw [load_shared_ptr_construct_known _ _ _ _ _ _ _ hk (stripMsb_lt id)
    (find_registered st id _)]
  simp only [heapUpdate_at, Option.map_some', heapGet_at, heapSet_at, Option.getD_some]

theorem loadNode_two_cycle (fuel : Nat) (idk idj v₁ v₂ : Nat) (rest : List Nat)
    (st : InputSharedPointerStorage) (tm : List (Nat × String)) (hp : List (Cell Node))
    (hidk : idk < 2 ^ 32) (hmsbk : hasMsb idk = true) (hk : stripMsb idk ≠ 0)
    (hidj : idj < 2 ^ 32) (hmsbj : hasMsb idj = true) (hjk : stripMsb idj ≠ stripMsb idk)
    (hv₁ : v₁ < 2 ^ 32) (hv₂ : v₂ < 2 ^ 32) :
    load_shared_ptr { value := 0, next := 0 } (loadNode (fuel + 2))
        { stream := encodeU32 idk ++ (encodeU32 v₁ ++ (encodeU32 idj ++
            (encodeU32 v₂ ++ (encodeU32 (stripMsb idk) ++ rest)))),
          storage := st, itsPolymorphicTypeMap := tm, heap := hp }
      = .ok (hp.length + 1,
          { stream := rest,
            storage := (st.registerSharedPointer idk (hp.length + 1)).registerSharedPointer
              idj (hp.length + 1 + 1),
            itsPolymorphicTypeMap := tm,
            heap := hp ++ [{ object := some { value := v₁, next := hp.length + 1 + 1 },
                             valid := true },
                           { object := some { value := v₂, next := hp.length + 1 },
                             valid := true }] }) := by
  have hfind : mapFind ((st.registerSharedPointer idk (hp.length + 1)).registerSharedPointer
      idj (hp.length + 1 + 1)).itsSharedPointerMap (stripMsb idk) = some (hp.length + 1) := by
    rw [find_registered_ne _ _ _ hjk]
    exact find_registered st idk _
  rw [load_shared_ptr_new _ _ _ _ _ _ _ hidk hmsbk]
  simp only [loadNode]
  rw [loadU32_mk]
  simp only [Nat.mod_eq_of_lt hv₁, heapUpdate_at]
  rw [load_shared_ptr_new _ _ _ _ _ _ _ hidj hmsbj]
  simp only [loadNode, List.length_append, List.length_singleton, List.append_assoc,
    List.singleton_append]
  rw [loadU32_mk]
  simp only [Nat.mod_eq_of_lt hv₂, heapUpdate_at_second]
  rw [load_shared_ptr_known _ _ _ _ _ _ _ _ hk (stripMsb_lt idk) hfind]
  simp only [heapUpdate_at, heapUpdate_at_second, Option.map_some']

theorem loadAndConstructNode_two_cycle (fuel : Nat) (idk idj v₁ v₂ : Nat) (rest : List Nat)
    (st : InputSharedPointerStorage) (tm : List (Nat × String)) (hp : List (Cell Node))
    (hidk : idk < 2 ^ 32) (hmsbk : hasMsb idk = true) (hk : stripMsb idk ≠ 0)
    (hidj : idj < 2 ^ 32) (hmsbj : hasMsb idj = true) (hjk : stripMsb idj ≠ stripMsb idk)
    (hv₁ : v₁ < 2 ^ 32) (hv₂ : v₂ < 2 ^ 32) :
    load_shared_ptr_construct (loadAndConstructNode (fuel + 2))
        { stream := encodeU32 idk ++ (encodeU32 v₁ ++ (encodeU32 idj ++
            (encodeU32 v₂ ++ (encodeU32 (stripMsb idk) ++ rest)))),
          storage := st, itsPolymorphicTypeMap := tm, heap := hp }
      = .ok (hp.length + 1,
          { stream := rest,
            storage := (st.registerSharedPointer idk (hp.length + 1)).registerSharedPointer
              idj (hp.length + 1 + 1),
            itsPolymorphicTypeMap := tm,
            heap := hp ++ [{ object := some { value := v₁, next := hp.length + 1 + 1 },
                             valid := true },
                           { object := some { value := v₂, next := hp.length + 1 },
                             valid := true }] }) := by
  have hfind : mapFind ((st.registerSharedPointer idk (hp.length + 1)).registerSharedPointer
      idj (hp.length + 1 + 1)).itsSharedPointerMap (stripMsb idk) = some (hp.length + 1) := by
    rw [find_registered_ne _ _ _ hjk]
    exact find_registered st idk _
  rw [load_shared_ptr_construct_new _ _ _ _ _ _ hidk hmsbk]
  simp only [loadAndConstructNode]
  rw [loadU32_mk]
  simp only [Nat.mod_eq_of_lt hv₁, heapConstruct_at]
  rw [load_shared_ptr_construct_new _ _ _ _ _ _ hidj hmsbj]
  simp only [loadAndConstructNode, List.length_append, List.length_singleton,
    List.append_assoc, List.singleton_append]
  rw [loadU32_mk]
  simp only [Nat.mod_eq_of_lt hv₂, heapConstruct_at_second]
  rw [load_shared_ptr_construct_known _ _ _ _ _ _ _ hk (stripMsb_lt idk) hfind]
  simp only [heapUpdate_at, heapUpdate_at_second, Option.map_some', heapGet_at,
    heapSet_at, heapGet_at_second, heapSet_at_second, Option.getD_some]

/-- Claim C6 as amended: let the stream start with a first-occurrence id (bit
31 set) whose ordinal `k` is non-zero, and let `h` be the address of the object
the load allocates for it. In both load overloads the body loader is run on an archive
whose identity table already stores `h` under `k`, and a nested load that reads
the id `k` (bit 31 clear) in that archive returns `h`, raises nothing and
allocates nothing. For nodes, in both overloads: when the body of `k` refers to
`k`, the load returns `h`, one object has been allocated and its `next` is `h`;
when the body of `k` holds a first occurrence of `j` whose body refers to `k`,
the load returns `h`, two objects have been allocated, the `next` of the first
is the second and the `next` of the second is `h`. -/
theorem load_registers_before_body (id : Nat) (rest : List Nat)
    (st : InputSharedPointerStorage) (tm : List (Nat × String))
    (hid : id < 2 ^ 32) (hmsb : hasMsb id = true) (hk : stripMsb id ≠ 0) :
    (∀ (β : Type) (dflt : β)
        (loadData : Addr → InputArchive β → Except Exception (InputArchive β))
        (hp : List (Cell β)),
      ∃ ar2 : InputArchive β,
        (ar2.storage.getSharedPointer (stripMsb id)).1 = .ok (hp.length + 1) ∧
        ar2.stream = rest ∧
        ar2.heap = hp ++ [{ object := some dflt, valid := true }] ∧
        load_shared_ptr dflt loadData
            { stream := encodeU32 id ++ rest, storage := st, itsPolymorphicTypeMap := tm,
              heap := hp }
          = (match loadData (hp.length + 1) ar2 with
              | .error e => .error e
              | .ok ar3 => .ok (hp.length + 1, ar3)) ∧
        ∀ (loadData' : Addr → InputArchive β → Except Exception (InputArchive β))
          (rest' : List Nat),
          load_shared_ptr dflt loadData'
              { ar2 with stream := encodeU32 (stripMsb id) ++ rest' }
            = .ok (hp.length + 1, { ar2 with stream := rest' })) ∧
    (∀ (β : Type)
        (loadAndConstruct : Addr → InputArchive β → Except Exception (InputArchive β))
        (hp : List (Cell β)),
      ∃ ar2 : InputArchive β,
        (ar2.storage.getSharedPointer (stripMsb id)).1 = .ok (hp.length + 1) ∧
        ar2.stream = rest ∧
        ar2.heap = hp ++ [{ object := none, valid := false }] ∧
        load_shared_ptr_construct loadAndConstruct
            { stream := encodeU32 id ++ rest, storage := st, itsPolymorphicTypeMap := tm,
              heap := hp }
          = (match loadAndConstruct (hp.length + 1) ar2 with
              | .error e => .error e
              | .ok ar3 =>
                .ok (hp.length + 1,
                  { ar3 with heap := (heapSet ar3.heap (hp.length + 1)
                    { object := ((heapGet ar3.heap (hp.length + 1)).getD
                        { object := none, valid := false }).object
                      valid := true }) })) ∧
        ∀ (loadAndConstruct' : Addr → InputArchive β → Except Exception (InputArchive β))
          (rest' : List Nat),
          load_shared_ptr_construct loadAndConstruct'
              { ar2 with stream := encodeU32 (stripMsb id) ++ rest' }
            = .ok (hp.length + 1, { ar2 with stream := rest' })) ∧
    (∀ (fuel v : Nat) (hp : List (Cell Node)), v < 2 ^ 32 →
      load_shared_ptr { value := 0, next := 0 } (loadNode (fuel + 1))
          { stream := encodeU32 id ++ (encodeU32 v ++ (encodeU32 (stripMsb id) ++ rest)),
            storage := st, itsPolymorphicTypeMap := tm, heap := hp }
        = .ok (hp.length + 1,
            { stream := rest, storage := st.registerSharedPointer id (hp.length + 1),
              itsPolymorphicTypeMap := tm,
              heap := hp ++ [{ object := some { value := v, next := hp.length + 1 },
                               valid := true }] }) ∧
      load_shared_ptr_construct (loadAndConstructNode (fuel + 1))
          { stream := encodeU32 id ++ (encodeU32 v ++ (encodeU32 (stripMsb id) ++ rest)),
            storage := st, itsPolymorphicTypeMap := tm, heap := hp }
        = .ok (hp.length + 1,
            { stream := rest, storage := st.registerSharedPointer id (hp.length + 1),
              itsPolymorphicTypeMap := tm,
              heap := hp ++ [{ object := some { value := v, next := hp.length + 1 },
                               valid := true }] })) ∧
    (∀ (fuel idj v₁ v₂ : Nat) (hp : List (Cell Node)), idj < 2 ^ 32 → hasMsb idj = true →
      stripMsb idj ≠ stripMsb id → v₁ < 2 ^ 32 → v₂ < 2 ^ 32 →
      load_shared_ptr { value := 0, next := 0 } (loadNode (fuel + 2))
          { stream := encodeU32 id ++ (encodeU32 v₁ ++ (encodeU32 idj ++
              (encodeU32 v₂ ++ (encodeU32 (stripMsb id) ++ rest)))),
            storage := st, itsPolymorphicTypeMap := tm, heap := hp }
        = .ok (hp.length + 1,
            { stream := rest,
              storage := (st.registerSharedPointer id (hp.length + 1)).registerSharedPointer
                idj (hp.length + 1 + 1),
              itsPolymorphicTypeMap := tm,
              heap := hp ++ [{ object := some { value := v₁, next := hp.length + 1 + 1 },
                               valid := true },
                             { object := some { value := v₂, next := hp.length + 1 },
                               valid := true }] }) ∧
      load_shared_ptr_construct (loadAndConstructNode (fuel + 2))
          { stream := encodeU32 id ++ (encodeU32 v₁ ++ (encodeU32 idj ++
              (encodeU32 v₂ ++ (encodeU32 (stripMsb id) ++ rest)))),
            storage := st, itsPolymorphicTypeMap := tm, heap := hp }
        = .ok (hp.length + 1,
            { stream := rest,
              storage := (st.registerSharedPointer id (hp.length + 1)).registerSharedPointer
                idj (hp.length + 1 + 1),
              itsPolymorphicTypeMap := tm,
              heap := hp ++ [{ object := some { value := v₁, next := hp.length + 1 + 1 },
                               valid := true },
                             { object := some { value := v₂, next := hp.length + 1 },
                               valid := true }] })) := by
  refine ⟨?_, ?_, ?_, ?_⟩
  · intro β dflt loadData hp
    refine ⟨{ stream := rest, storage := st.registerSharedPointer id (hp.length + 1),
              itsPolymorphicTypeMap := tm,
              heap := hp ++ [{ object := some dflt, valid := true }] }, ?_, rfl, rfl, ?_, ?_⟩
    · rw [InputSharedPointerStorage.getSharedPointer_of_find hk (find_registered st id _)]
    · exact load_shared_ptr_new dflt loadData id rest st tm hp hid hmsb
    · intro loadData' rest'
      exact load_shared_ptr_known dflt loadData' _ _ rest' _ tm _ hk (stripMsb_lt id)
        (find_registered st id _)
  · intro β loadAndConstruct hp
    refine ⟨{ stream := rest, storage := st.registerSharedPointer id (hp.length + 1),
              itsPolymorphicTypeMap := tm,
              heap := hp ++ [{ object := none, valid := false }] }, ?_, rfl, rfl, ?_, ?_⟩
    · rw [InputSharedPointerStorage.getSharedPointer_of_find hk (find_registered st id _)]
    · exact load_shared_ptr_construct_new loadAndConstruct id rest st tm hp hid hmsb
    · intro loadAndConstruct' rest'
      exact load_shared_ptr_construct_known loadAndConstruct' _ _ rest' _ tm _ hk
        (stripMsb_lt id) (find_registered st id _)
  · intro fuel v hp hv
    exact ⟨loadNode_self_cycle fuel id v rest st tm hp hid hmsb hk hv,
      loadAndConstructNode_self_cycle fuel id v rest st tm hp hid hmsb hk hv⟩
  · intro fuel idj v₁ v₂ hp hidj hmsbj hjk hv₁ hv₂
    exact ⟨loadNode_two_cycle fuel id idj v₁ v₂ rest st tm hp hid hmsb hk hidj hmsbj hjk
        hv₁ hv₂,
      loadAndConstructNode_two_cycle fuel id idj v₁ v₂ rest st tm hp hid hmsb hk hidj hmsbj
        hjk hv₁ hv₂⟩

/-- Witness of C6 (amended): the stream of a node with ordinal 3 and value 77 whose
`next` refers to ordinal 3 loads, in a fresh archive, into one object at
address 1 whose `next` is 1. -/
theorem load_registers_before_body_witness :
    load_shared_ptr { value := 0, next := 0 } (loadNode (0 + 1))
        { stream := encodeU32 0x80000003 ++
            (encodeU32 77 ++ (encodeU32 (stripMsb 0x80000003) ++ [])),
          storage := InputSharedPointerStorage.init, itsPolymorphicTypeMap := [],
          heap := [] }
      = .ok (([] : List (Cell Node)).length + 1,
          { stream := [],
            storage := InputSharedPointerStorage.init.registerSharedPointer 0x80000003
              (([] : List (Cell Node)).length + 1),
            itsPolymorphicTypeMap := [],
            heap := [] ++ [{ object := some { value := 77,
                                               next := ([] : List (Cell Node)).length + 1 },
                             valid := true }] }) :=
  ((load_registers_before_body 0x80000003 [] InputSharedPointerStorage.init []
    (by decide) (by decide) (by decide)).2.2.1 0 77 [] (by decide)).1

/-! ## Round trip through the bindings of a polymorphic type -/

theorem foldl_downcast_null {κ : Type} (deref : κ → PolymorphicCaster) (path : List κ)
    (h : ∀ c ∈ path, (deref c).downcast 0 = 0) :
    path.foldl (fun p dmap => (deref dmap).downcast p) 0 = 0 := by
  induction path with
  | nil => rfl
  | cons c rest ih =>
    simp only [List.foldl_cons, h c (List.mem_cons_self _ _)]
    exact ih (fun c' hc' => h c' (List.mem_cons_of_mem _ hc'))

theorem writeMetadata_init (saveString : String → List Nat) (bindingName : String) :
    (writeMetadata saveString bindingName OutputArchive.init).stream
        = encodeU32 (1 ||| msb_32bit) ++ saveString bindingName ∧
    (writeMetadata saveString bindingName OutputArchive.init).storage
        = OutputSharedPointerStorage.init := by
  have hm : hasMsb (1 ||| msb_32bit) = true := hasMsb_or_msb (by decide)
  constructor <;>
    simp only [writeMetadata, OutputArchive.registerPolymorphicType, mapFind,
      OutputArchive.init, hm, if_true, OutputArchive.saveBinary, OutputArchive.saveU32,
      List.nil_append]

theorem save_shared_ptr_first {β : Type} (saveBody : β → List Nat) (body : Addr → β)
    (ar : OutputArchive) (t : Addr)
    (hst : ar.storage = OutputSharedPointerStorage.init) (ht : t ≠ 0) :
    (save_shared_ptr (saveLeaf saveBody body) ar t).stream
      = ar.stream ++ (encodeU32 (1 ||| msb_32bit) ++ saveBody (body t)) := by
  have hm : hasMsb (1 ||| msb_32bit) = true := hasMsb_or_msb (by decide)
  have hreg : OutputSharedPointerStorage.init.registerSharedPointer t
        = (1 ||| msb_32bit,
            { itsSharedPointerMap := [] ++ [(t, 1)]
              itsCurrentPointerId := toU32 (1 + 1)
              itsSharedPointerStorage := [] ++ [t] }) :=
      OutputSharedPointerStorage.register_new ht rfl
  simp only [save_shared_ptr, hst, hreg, hm, if_true, saveLeaf, OutputArchive.saveU32,
    OutputArchive.saveBinary, List.append_assoc]

theorem output_binding_fresh_stream {κ β : Type} (deref : κ → PolymorphicCaster)
    (typeName : TypeKey → String) (saveString : String → List Nat)
    (saveBody : β → List Nat) (body : Addr → β) (R : PolymorphicCasters κ)
    (T Base : TypeKey) (bindingName : String) (b t : Addr)
    (hdown : (R.downcast deref typeName T b Base).1 = .ok t) (ht : t ≠ 0) :
    ∃ ar1, outputSharedPtrBinding deref typeName saveString T bindingName
        (saveLeaf saveBody body) R OutputArchive.init b Base = .ok ar1 ∧
      ar1.stream = encodeU32 (1 ||| msb_32bit) ++ (saveString bindingName ++
        (encodeU32 (1 ||| msb_32bit) ++ (saveBody (body t) ++ []))) := by
  refine ⟨savePolymorphicSharedPtr (saveLeaf saveBody body)
    (writeMetadata saveString bindingName OutputArchive.init) t, ?_, ?_⟩
  · simp only [outputSharedPtrBinding, hdown]
  · unfold savePolymorphicSharedPtr
    rw [save_shared_ptr_first saveBody body _ t (writeMetadata_init _ _).2 ht,
      (writeMetadata_init _ _).1]
    simp only [List.append_assoc, List.append_nil]

theorem readMetadata_fresh {β : Type}
    (saveString : String → List Nat)
    (loadString : List Nat → Except Exception (String × List Nat))
    (hstr : ∀ s rest, loadString (saveString s ++ rest) = .ok (s, rest))
    (name : String) (rest : List Nat) :
    readMetadata (β := β) loadString
        (InputArchive.init (encodeU32 (1 ||| msb_32bit) ++ (saveString name ++ rest)))
      = .ok (name,
          { stream := rest, storage := InputSharedPointerStorage.init,
            itsPolymorphicTypeMap := mapEmplace [] (stripMsb (1 ||| msb_32bit)) name,
            heap := [] }) := by
  have hm : hasMsb (1 ||| msb_32bit) = true := hasMsb_or_msb (by decide)
  have hlt : 1 ||| msb_32bit < 2 ^ 32 := by
    rw [or_msb_eq_add (by decide)]
    decide
  unfold readMetadata InputArchive.init
  rw [loadU32_mk]
  simp only [Nat.mod_eq_of_lt hlt, hm, if_true, hstr]

theorem load_leaf_fresh {β : Type} (dflt : β) (saveBody : β → List Nat)
    (loadBody : List Nat → Except Exception (β × List Nat))
    (hrt : ∀ b rest, loadBody (saveBody b ++ rest) = .ok (b, rest))
    (b : β) (st : InputSharedPointerStorage) (tm : List (Nat × String)) :
    load_shared_ptr dflt (loadLeaf loadBody)
        { stream := encodeU32 (1 ||| msb_32bit) ++ (saveBody b ++ []), storage := st,
          itsPolymorphicTypeMap := tm, heap := [] }
      = .ok (1, { stream := [], storage := st.registerSharedPointer (1 ||| msb_32bit) 1,
                  itsPolymorphicTypeMap := tm,
                  heap := [{ object := some b, valid := true }] }) ∧
    load_shared_ptr_construct (loadAndConstructLeaf loadBody)
        { stream := encodeU32 (1 ||| msb_32bit) ++ (saveBody b ++ []), storage := st,
          itsPolymorphicTypeMap := tm, heap := [] }
      = .ok (1, { stream := [], storage := st.registerSharedPointer (1 ||| msb_32bit) 1,
                  itsPolymorphicTypeMap := tm,
                  heap := [{ object := some b, valid := true }] }) := by
  have hm : hasMsb (1 ||| msb_32bit) = true := hasMsb_or_msb (by decide)
  have hlt : 1 ||| msb_32bit < 2 ^ 32 := by
    rw [or_msb_eq_add (by decide)]
    decide
  have hg : ∀ c : Cell β, heapGet ([] ++ [c]) (([] : List (Cell β)).length + 1) = some c :=
    fun c => heapGet_at [] c []
  have hs : ∀ c c' : Cell β,
      heapSet ([] ++ [c]) (([] : List (Cell β)).length + 1) c' = [] ++ [c'] :=
    fun c c' => heapSet_at [] c c' []
  constructor
  · rw [load_shared_ptr_new _ _ _ _ _ _ _ hlt hm]
    simp only [loadLeaf, hrt, heapStore, hg, hs]
    rfl
  · rw [load_shared_ptr_construct_new _ _ _ _ _ _ hlt hm]
    simp only [loadAndConstructLeaf, hrt, heapConstruct, hg, hs, Option.getD_some]
    rfl

/-- Claim C2: let `T` be a type with a stored cast path from `Base` whose links
are genuine casts (a downcast undoes the upcast, and null is cast to null),
let `b` be a `Base`-typed pointer whose downcast to `T` is the non-null address
`t` of an object with state `body t`, and let no other type be bound to the
type key of `T` or to the name `binding_name<T>`. Then the output shared-pointer
binding that `OutputBindingCreator` stores for `T` runs on `b` in a fresh
archive; the name read back from the stream is `binding_name<T>`; and the input
binding that `InputBindingCreator` stores under that name (with either load
overload) returns a handle that is non-null and whose downcast to `T` succeeds
and gives a non-null address holding an object whose state is `body t`. -/
theorem polymorphic_shared_ptr_roundtrip {κ β : Type} (deref : κ → PolymorphicCaster)
    (typeName : TypeKey → String) (saveString : String → List Nat)
    (loadString : List Nat → Except Exception (String × List Nat))
    (hstr : ∀ s rest, loadString (saveString s ++ rest) = .ok (s, rest))
    (dflt : β) (saveBody : β → List Nat)
    (loadBody : List Nat → Except Exception (β × List Nat))
    (hrt : ∀ x rest, loadBody (saveBody x ++ rest) = .ok (x, rest))
    (body : Addr → β) (R : PolymorphicCasters κ) (T Base : TypeKey) (bindingName : String)
    (path : List κ) (hpath : R.lookup Base T = some path)
    (hlinks : ∀ c ∈ path,
      (∀ p, (deref c).downcast ((deref c).upcast p) = p) ∧ (deref c).downcast 0 = 0)
    (b t : Addr) (hb : (R.downcast deref typeName T b Base).1 = .ok t) (ht : t ≠ 0)
    (omap : List (TypeKey × OutputSerializer κ)) (homap : mapFind omap T = none)
    (imap : List (String × InputSerializer κ β))
    (himap : mapFind imap bindingName = none) :
    ∃ outBinding ar1 name arIn,
      mapFind (OutputBindingCreator deref typeName saveString T bindingName
        (saveLeaf saveBody body) omap) T = some outBinding ∧
      outBinding R OutputArchive.init b Base = .ok ar1 ∧
      readMetadata loadString (InputArchive.init ar1.stream) = .ok (name, arIn) ∧
      name = bindingName ∧
      ∀ load : InputArchive β → Except Exception (Addr × InputArchive β),
        (load = load_shared_ptr dflt (loadLeaf loadBody) ∨
          load = load_shared_ptr_construct (loadAndConstructLeaf loadBody)) →
        ∃ inBinding h ar2 t',
          mapFind (InputBindingCreator deref typeName T bindingName load imap) name
            = some inBinding ∧
          inBinding R arIn Base = .ok (h, ar2) ∧
          h ≠ 0 ∧
          (R.downcast deref typeName T h Base).1 = .ok t' ∧
          t' ≠ 0 ∧
          heapObject ar2.heap t' = some (body t) := by
  obtain ⟨ar1, hout, hstream⟩ :=
    output_binding_fresh_stream deref typeName saveString saveBody body R T Base bindingName
      b t hb ht
  have hmeta := readMetadata_fresh (β := β) saveString loadString hstr bindingName
    (encodeU32 (1 ||| msb_32bit) ++ (saveBody (body t) ++ []))
  rw [← hstream] at hmeta
  refine ⟨_, ar1, bindingName, _, ?_, hout, hmeta, rfl, ?_⟩
  · simp only [OutputBindingCreator, homap]
    exact mapFind_mapEmplace_self _ homap
  · intro load hload
    have hl := load_leaf_fresh dflt saveBody loadBody hrt (body t)
      InputSharedPointerStorage.init
      (mapEmplace [] (stripMsb (1 ||| msb_32bit)) bindingName)
    have hload1 : load
        { stream := encodeU32 (1 ||| msb_32bit) ++ (saveBody (body t) ++ []),
          storage := InputSharedPointerStorage.init,
          itsPolymorphicTypeMap := mapEmplace [] (stripMsb (1 ||| msb_32bit)) bindingName,
          heap := [] }
        = .ok (1, { stream := [],
                    storage := InputSharedPointerStorage.init.registerSharedPointer
                      (1 ||| msb_32bit) 1,
                    itsPolymorphicTypeMap :=
                      mapEmplace [] (stripMsb (1 ||| msb_32bit)) bindingName,
                    heap := [{ object := some (body t), valid := true }] }) := by
      rcases hload with h | h
      · rw [h]
        exact hl.1
      · rw [h]
        exact hl.2
    have hup : (R.upcastShared deref typeName T 1 Base).1
        = .ok (path.reverse.foldl (fun p m => (deref m).upcast p) 1) := by
      simp [PolymorphicCasters.upcastShared, hpath, PolymorphicCaster.upcastShared]
    have hdown : (R.downcast deref typeName T
        (path.reverse.foldl (fun p m => (deref m).upcast p) 1) Base).1 = .ok 1 := by
      simp only [PolymorphicCasters.downcast, hpath]
      rw [foldl_downcast_upcast deref path (fun c hc => (hlinks c hc).1)]
    refine ⟨inputSharedPtrBinding deref typeName T load,
      path.reverse.foldl (fun p m => (deref m).upcast p) 1,
      { stream := [],
        storage := InputSharedPointerStorage.init.registerSharedPointer (1 ||| msb_32bit) 1,
        itsPolymorphicTypeMap := mapEmplace [] (stripMsb (1 ||| msb_32bit)) bindingName,
        heap := [{ object := some (body t), valid := true }] },
      1, ?_, ?_, ?_, hdown, by decide, ?_⟩
    · simp only [InputBindingCreator, himap]
      exact mapFind_mapEmplace_self _ himap
    · simp only [inputSharedPtrBinding, hload1, hup]
    · intro h0
      rw [h0] at hdown
      simp only [PolymorphicCasters.downcast, hpath] at hdown
      rw [foldl_downcast_null deref path (fun c hc => (hlinks c hc).2)] at hdown
      cases hdown
    · simp [heapObject, heapGet]

theorem loadText_saveText (s : String) (rest : List Nat) :
    loadText (saveText s ++ rest) = .ok (s, rest) := by
  have hmap : List.map Char.ofNat (List.map Char.toNat s.data) = s.data := by
    rw [List.map_map]
    conv_rhs => rw [← List.map_id s.data]
    apply List.map_congr_left
    intro c _
    exact Char.ofNat_toNat c
  simp only [saveText, loadText, List.cons_append, List.length_append, List.length_map]
  rw [if_neg (by omega)]
  have ht : List.take s.data.length (List.map Char.toNat s.data ++ rest)
      = List.map Char.toNat s.data := by
    rw [List.take_left' (by simp)]
  have hd : List.drop s.data.length (List.map Char.toNat s.data ++ rest) = rest := by
    rw [List.drop_left' (by simp)]
  rw [ht, hd, hmap]

/-- Witness of C2: `Dog{name: "Rex"}` saved through a pointer to `Animal`. -/
theorem polymorphic_shared_ptr_roundtrip_witness :
    ∃ outBinding ar1 name arIn,
      mapFind (OutputBindingCreator identityCasters (fun _ => "") saveText 2 "Dog"
        (saveLeaf saveText (fun _ => "Rex")) []) 2 = some outBinding ∧
      outBinding animalRegistry OutputArchive.init 1000 1 = .ok ar1 ∧
      readMetadata loadText (InputArchive.init ar1.stream) = .ok (name, arIn) ∧
      name = "Dog" ∧
      ∀ load : InputArchive String → Except Exception (Addr × InputArchive String),
        (load = load_shared_ptr "" (loadLeaf loadText) ∨
          load = load_shared_ptr_construct (loadAndConstructLeaf loadText)) →
        ∃ inBinding h ar2 t',
          mapFind (InputBindingCreator identityCasters (fun _ => "") 2 "Dog" load []) name
            = some inBinding ∧
          inBinding animalRegistry arIn 1 = .ok (h, ar2) ∧
          h ≠ 0 ∧
          (animalRegistry.downcast identityCasters (fun _ => "") 2 h 1).1 = .ok t' ∧
          t' ≠ 0 ∧
          heapObject ar2.heap t' = some ((fun _ => "Rex") (1000 : Addr)) :=
  polymorphic_shared_ptr_roundtrip identityCasters (fun _ => "") saveText loadText
    loadText_saveText "" saveText loadText loadText_saveText (fun _ => "Rex")
    animalRegistry 2 1 "Dog" [10] rfl
    (fun _ _ => ⟨fun _ => rfl, rfl⟩) 1000 1000 rfl (by decide) [] rfl [] rfl

/-- Claim C6 as stated fails for the ordinal 0: in the stream of a node whose
first-occurrence id is `0x80000000` (bit 31 set, ordinal 0) and whose body
refers to that ordinal with bit 31 clear (the id 0), both overloads register
the handle 1 under the key 0 before the body is read, but the nested load of the
id 0 returns the null pointer and not the handle under construction: the `next`
of the loaded node is null, so the node does not point to itself. -/
theorem load_reference_to_ordinal_zero :
    load_shared_ptr { value := 0, next := 0 } (loadNode 1)
        (InputArchive.init (encodeU32 0x80000000 ++ (encodeU32 77 ++ encodeU32 0)))
      = .ok (1,
          { stream := [], storage := { itsSharedPointerMap := [(0, 1)] },
            itsPolymorphicTypeMap := [],
            heap := [{ object := some { value := 77, next := 0 }, valid := true }] }) ∧
    load_shared_ptr_construct (loadAndConstructNode 1)
        (InputArchive.init (encodeU32 0x80000000 ++ (encodeU32 77 ++ encodeU32 0)))
      = .ok (1,
          { stream := [], storage := { itsSharedPointerMap := [(0, 1)] },
            itsPolymorphicTypeMap := [],
            heap := [{ object := some { value := 77, next := 0 }, valid := true }] }) :=
  ⟨rfl, rfl⟩

/-! ## Registering a relation twice (C11) -/

/-- Claim C11 as stated fails for the stored paths: on the empty registry one
registration of `(1, 2, 10)` stores the 1-link path `[10]` for the pair; the
second registration of the same triple pushes the caster at the back of the
stored vector, so `lookup 1 2` is then `[10, 10]`, the reverse map holds the
relation twice, and a downcast from type 1 to type 2 applies the link twice
(the address 1000 becomes 1016 instead of 1008). -/
theorem register_twice_appends :
    ∃ R1 R2 : PolymorphicCasters Nat,
      register_virtual_caster (PolymorphicCasters.empty) 1 2 10 = some R1 ∧
      R1.lookup 1 2 = some [10] ∧
      register_virtual_caster R1 1 2 10 = some R2 ∧
      R2.lookup 1 2 = some [10, 10] ∧
      R2.lookup 1 2 ≠ R1.lookup 1 2 ∧
      R2.reverseMap = [(2, 1), (2, 1)] ∧
      (R1.downcast chainCasters (fun _ => "") 2 1000 1).1 = .ok 1008 ∧
      (R2.downcast chainCasters (fun _ => "") 2 1000 1).1 = .ok 1016 :=
  ⟨_, _, rfl, rfl, rfl, rfl, by decide, rfl, rfl, rfl⟩

/-! ## The two lookups (C13) -/

/-- Claim C13: `lookup base derived` is the path stored in the inner map under
`derived` of the entry of the forward map under `base`, and is null exactly when
one of the two entries is missing; `lookup_if_exists` has its flag set exactly
when `lookup` is not null, then with the same path (and the empty path with the
flag clear otherwise); a call of either on the process-wide registry leaves the
registry as it was; and neither reads the reverse map. -/
theorem lookup_spec {κ : Type} (R : PolymorphicCasters κ) (base derived : TypeKey) :
    R.lookup base derived = (mapFind R.map base).bind (fun m => mapFind m derived) ∧
    (∀ path, R.lookup base derived = some path ↔
      ∃ derivedMap, mapFind R.map base = some derivedMap ∧
        mapFind derivedMap derived = some path) ∧
    (R.lookup base derived = none ↔
      (mapFind R.map base = none ∨
        ∃ derivedMap, mapFind R.map base = some derivedMap ∧
          mapFind derivedMap derived = none)) ∧
    ((R.lookup_if_exists base derived).1 = true ↔ R.lookup base derived ≠ none) ∧
    (∀ path, R.lookup base derived = some path →
      R.lookup_if_exists base derived = (true, path)) ∧
    (R.lookup base derived = none → R.lookup_if_exists base derived = (false, [])) ∧
    (R.lookupInstance base derived).2 = R ∧
    (R.lookupIfExistsInstance base derived).2 = R ∧
    (R.lookupInstance base derived).1 = R.lookup base derived ∧
    (R.lookupIfExistsInstance base derived).1 = R.lookup_if_exists base derived ∧
    (∀ rev, ({ R with reverseMap := rev }).lookup base derived = R.lookup base derived) ∧
    (∀ rev, ({ R with reverseMap := rev }).lookup_if_exists base derived =
      R.lookup_if_exists base derived) := by
  unfold PolymorphicCasters.lookup PolymorphicCasters.lookup_if_exists lookupIfExistsIn
    PolymorphicCasters.lookupInstance PolymorphicCasters.lookupIfExistsInstance
    PolymorphicCasters.lookup PolymorphicCasters.lookup_if_exists lookupIfExistsIn
  cases h1 : mapFind R.map base with
  | none => simp [h1]
  | some derivedMap =>
    cases h2 : mapFind derivedMap derived with
    | none => simp [h1, h2]
    | some path => simp [h1, h2]

/-! ## The null marker (C15) -/

/-- Claim C15 as amended: saving a null shared pointer returns the id 0 from
the output table, leaves the table (map, counter and storage) as it was, and
writes the four bytes of the id 0 and no body, whatever the body writer is;
loading the id 0 (bit 31 clear, ordinal zero) returns the null pointer in both
overloads, with the table and the free store as they were and the stream
advanced past the id only, whatever the body reader is. -/
theorem null_pointer_is_id_zero {β : Type} (s : OutputSharedPointerStorage)
    (ar : OutputArchive) (saveData : Addr → OutputArchive → OutputArchive) (dflt : β)
    (loadData loadAndConstruct : Addr → InputArchive β → Except Exception (InputArchive β))
    (rest : List Nat) (st : InputSharedPointerStorage) (tm : List (Nat × String))
    (hp : List (Cell β)) :
    s.registerSharedPointer 0 = (0, s) ∧
    save_shared_ptr saveData ar 0 = { ar with stream := ar.stream ++ [0, 0, 0, 0] } ∧
    st.getSharedPointer 0 = (.ok 0, st) ∧
    load_shared_ptr dflt loadData
        { stream := [0, 0, 0, 0] ++ rest, storage := st, itsPolymorphicTypeMap := tm,
          heap := hp }
      = .ok (0, { stream := rest, storage := st, itsPolymorphicTypeMap := tm, heap := hp }) ∧
    load_shared_ptr_construct loadAndConstruct
        { stream := [0, 0, 0, 0] ++ rest, storage := st, itsPolymorphicTypeMap := tm,
          heap := hp }
      = .ok (0, { stream := rest, storage := st, itsPolymorphicTypeMap := tm, heap := hp }) := by
  have he : ([0, 0, 0, 0] : List Nat) = encodeU32 0 := rfl
  have h0 : hasMsb 0 = false := by decide
  refine ⟨OutputSharedPointerStorage.register_null s, ?_, rfl, ?_, ?_⟩
  · simp only [save_shared_ptr, OutputSharedPointerStorage.register_null, h0,
      OutputArchive.saveU32, OutputArchive.saveBinary, he]
    rfl
  · rw [he]
    unfold load_shared_ptr
    rw [loadU32_mk]
    simp only [Nat.zero_mod, h0, Bool.false_eq_true, if_false,
      InputArchive.getSharedPointer, InputSharedPointerStorage.getSharedPointer, if_true]
  · rw [he]
    unfold load_shared_ptr_construct
    rw [loadU32_mk]
    simp only [Nat.zero_mod, h0, Bool.false_eq_true, if_false,
      InputArchive.getSharedPointer, InputSharedPointerStorage.getSharedPointer, if_true]

/-- Claim C15 as stated fails for the id `0x80000000`, whose bits 0-30 are all
zero: bit 31 is tested first, so both overloads allocate an object (the handle
1, not null), register it under the key 0 and read its body (the byte 7) from
the stream. -/
theorem load_msb_only_id_constructs :
    stripMsb 0x80000000 = 0 ∧
    load_shared_ptr (0 : Fin 256) (loadLeaf loadByte)
        (InputArchive.init (encodeU32 0x80000000 ++ [7]))
      = .ok (1,
          { stream := [], storage := { itsSharedPointerMap := [(0, 1)] },
            itsPolymorphicTypeMap := [],
            heap := [{ object := some 7, valid := true }] }) ∧
    load_shared_ptr_construct (loadAndConstructLeaf loadByte)
        (InputArchive.init (encodeU32 0x80000000 ++ [7]))
      = .ok (1,
          { stream := [], storage := { itsSharedPointerMap := [(0, 1)] },
            itsPolymorphicTypeMap := [],
            heap := [{ object := some 7, valid := true }] }) :=
  ⟨by decide, rfl, rfl⟩

/-! ## Consecutive ordinals (C16) -/

theorem withinOrdinals_counter_le {s : OutputSharedPointerStorage} {ps : List Addr}
    (h : s.withinOrdinals ps = true) : s.itsCurrentPointerId ≤ 2 ^ 31 := by
  cases ps with
  | nil => simpa [OutputSharedPointerStorage.withinOrdinals] using h
  | cons p rest =>
    simp only [OutputSharedPointerStorage.withinOrdinals, Bool.and_eq_true,
      decide_eq_true_eq] at h
    exact h.1

theorem Consecutive.stored_lt {s : OutputSharedPointerStorage} (hC : Consecutive s)
    {a id : Nat} (h : mapFind s.itsSharedPointerMap a = some id) :
    0 < id ∧ id < s.itsCurrentPointerId := by
  have hm : id ∈ s.itsSharedPointerMap.map Prod.snd :=
    List.mem_map.2 ⟨(a, id), mem_of_mapFind h, rfl⟩
  rw [hC.ids, List.mem_range'_1] at hm
  have := hC.count
  omega

theorem Consecutive.inj {s : OutputSharedPointerStorage} (hC : Consecutive s)
    {a b id : Nat} (ha : mapFind s.itsSharedPointerMap a = some id)
    (hb : mapFind s.itsSharedPointerMap b = some id) : a = b := by
  have hn : (s.itsSharedPointerMap.map Prod.snd).Nodup := by
    rw [hC.ids]
    exact List.nodup_range' 1 _
  have := List.inj_on_of_nodup_map hn (mem_of_mapFind ha) (mem_of_mapFind hb) rfl
  exact congrArg Prod.fst this

theorem consecutive_init : Consecutive OutputSharedPointerStorage.init :=
  ⟨rfl, List.nodup_nil, rfl⟩

/-- One registration on a table with consecutive ordinals whose counter stays
within `2 ^ 31`: either no ordinal is handed out and the map and the counter
are kept, or the ordinal handed out is the counter, the counter moves up by one
and the entry is added at the end of the map. -/
theorem Consecutive.step {s : OutputSharedPointerStorage} (hC : Consecutive s) (p : Nat)
    (hle : (s.registerSharedPointer p).2.itsCurrentPointerId ≤ 2 ^ 31)
    (hc : s.itsCurrentPointerId ≤ 2 ^ 31) :
    Consecutive (s.registerSharedPointer p).2 ∧
    ((hasMsb (s.registerSharedPointer p).1 = false ∧
        (s.registerSharedPointer p).2.itsCurrentPointerId = s.itsCurrentPointerId ∧
        (s.registerSharedPointer p).2.itsSharedPointerMap = s.itsSharedPointerMap) ∨
      (hasMsb (s.registerSharedPointer p).1 = true ∧
        stripMsb (s.registerSharedPointer p).1 = s.itsCurrentPointerId ∧
        (s.registerSharedPointer p).2.itsCurrentPointerId = s.itsCurrentPointerId + 1 ∧
        (s.registerSharedPointer p).2.itsSharedPointerMap =
          s.itsSharedPointerMap ++ [(p, s.itsCurrentPointerId)])) := by
  by_cases hp0 : p = 0
  · subst hp0
    rw [OutputSharedPointerStorage.register_null]
    exact ⟨hC, Or.inl ⟨hasMsb_of_lt (show (0 : Nat) < 2 ^ 31 by decide), rfl, rfl⟩⟩
  · cases hf : mapFind s.itsSharedPointerMap p with
    | some id =>
      rw [OutputSharedPointerStorage.register_old hp0 hf]
      have hlt := (hC.stored_lt hf).2
      exact ⟨⟨hC.ids, hC.nodup, hC.count⟩,
        Or.inl ⟨hasMsb_of_lt (by omega), rfl, rfl⟩⟩
    | none =>
      rw [OutputSharedPointerStorage.register_new hp0 hf] at hle ⊢
      simp only [toU32] at hle
      have hlt : s.itsCurrentPointerId < 2 ^ 31 := by
        by_contra hge
        have h1 : s.itsCurrentPointerId = 2 ^ 31 := by omega
        rw [h1] at hle
        exact absurd hle (by decide)
      have hcount := hC.count
      refine ⟨⟨?_, ?_, ?_⟩, Or.inr ⟨hasMsb_or_msb hlt, stripMsb_or_msb hlt, ?_, rfl⟩⟩
      · simp only [List.map_append, List.map_cons, List.map_nil, List.length_append,
          List.length_singleton, hC.ids, List.range'_concat, hcount]
        simp [Nat.add_comm]
      · simp only [List.map_append, List.map_cons, List.map_nil]
        exact List.Nodup.append hC.nodup (List.nodup_singleton p)
          (by
            intro a ha hap
            rw [List.mem_singleton] at hap
            subst hap
            exact keys_of_mapFind_none hf ha)
      · simp only [toU32, List.length_append, List.length_singleton]
        omega
      · simp only [toU32]
        omega

theorem newOrdinals_cons (s : OutputSharedPointerStorage) (p : Nat) (rest : List Nat) :
    s.newOrdinals (p :: rest) =
      (if hasMsb (s.registerSharedPointer p).1 then [stripMsb (s.registerSharedPointer p).1]
        else []) ++ (s.registerSharedPointer p).2.newOrdinals rest := by
  unfold OutputSharedPointerStorage.newOrdinals
  cases h : hasMsb (s.registerSharedPointer p).1 <;>
    simp [OutputSharedPointerStorage.idsOf, List.filter_cons, h]

theorem Consecutive.registerAll (ps : List Nat) :
    ∀ {s : OutputSharedPointerStorage}, Consecutive s → s.withinOrdinals ps = true →
      Consecutive (s.registerAll ps) ∧
      s.itsCurrentPointerId ≤ (s.registerAll ps).itsCurrentPointerId ∧
      s.newOrdinals ps = List.range' s.itsCurrentPointerId
        ((s.registerAll ps).itsCurrentPointerId - s.itsCurrentPointerId) := by
  induction ps with
  | nil =>
    intro s hC _
    exact ⟨hC, Nat.le_refl _, by
      simp [OutputSharedPointerStorage.newOrdinals, OutputSharedPointerStorage.idsOf,
        OutputSharedPointerStorage.registerAll]⟩
  | cons p rest ih =>
    intro s hC h
    have hc := withinOrdinals_counter_le h
    simp only [OutputSharedPointerStorage.withinOrdinals, Bool.and_eq_true,
      decide_eq_true_eq] at h
    have hle := withinOrdinals_counter_le h.2
    obtain ⟨hC1, hcase⟩ := hC.step p hle hc
    obtain ⟨hC2, hmono, hnew⟩ := ih hC1 h.2
    rw [newOrdinals_cons, hnew]
    simp only [OutputSharedPointerStorage.registerAll]
    refine ⟨hC2, ?_, ?_⟩
    · rcases hcase with ⟨_, h2, _⟩ | ⟨_, _, h2, _⟩ <;> omega
    · rcases hcase with ⟨h1, h2, _⟩ | ⟨h1, h1', h2, _⟩
      · simp only [h1, Bool.false_eq_true, if_false, List.nil_append, h2]
      · simp only [h1, if_true, h1', h2, List.singleton_append]
        have hsub : ((s.registerSharedPointer p).2.registerAll rest).itsCurrentPointerId -
            s.itsCurrentPointerId =
            (((s.registerSharedPointer p).2.registerAll rest).itsCurrentPointerId -
              (s.itsCurrentPointerId + 1)) + 1 := by omega
        rw [hsub, List.range'_succ]

/-- Claim C16: in one output archive, for every sequence `ps` of registrations
during which the counter stays within `2 ^ 31`: the ordinals handed to the
addresses seen for the first time are, in the order of the calls, `1, 2, 3, ...`
(each one more than the one before, so strictly increasing); the map holds
them in the same order, one per registered address, and the counter is one more
than their number; and two registered addresses carry the same ordinal if and
only if they are the same address. -/
theorem ordinals_consecutive (ps : List Nat)
    (h : OutputSharedPointerStorage.init.withinOrdinals ps = true) :
    OutputSharedPointerStorage.init.newOrdinals ps =
      List.range' 1 (OutputSharedPointerStorage.init.registerAll ps).itsSharedPointerMap.length ∧
    (∀ k x y, (OutputSharedPointerStorage.init.newOrdinals ps)[k]? = some x →
      (OutputSharedPointerStorage.init.newOrdinals ps)[k + 1]? = some y → y = x + 1) ∧
    (OutputSharedPointerStorage.init.registerAll ps).itsSharedPointerMap.map Prod.snd =
      List.range' 1 (OutputSharedPointerStorage.init.registerAll ps).itsSharedPointerMap.length ∧
    (OutputSharedPointerStorage.init.registerAll ps).itsCurrentPointerId =
      (OutputSharedPointerStorage.init.registerAll ps).itsSharedPointerMap.length + 1 ∧
    ∀ a b i j,
      mapFind (OutputSharedPointerStorage.init.registerAll ps).itsSharedPointerMap a = some i →
      mapFind (OutputSharedPointerStorage.init.registerAll ps).itsSharedPointerMap b = some j →
      (i = j ↔ a = b) := by
  obtain ⟨hC, _, hnew⟩ := Consecutive.registerAll ps consecutive_init h
  have hcount := hC.count
  have hnew1 : OutputSharedPointerStorage.init.newOrdinals ps =
      List.range' 1
        (OutputSharedPointerStorage.init.registerAll ps).itsSharedPointerMap.length := by
    rw [hnew, hcount]
    simp [OutputSharedPointerStorage.init]
  refine ⟨hnew1, ?_, hC.ids, hcount, ?_⟩
  · intro k x y hx hy
    rw [hnew1] at hx hy
    have hk : k + 1 <
        (OutputSharedPointerStorage.init.registerAll ps).itsSharedPointerMap.length := by
      have := (List.getElem?_eq_some.1 hy).1
      simpa using this
    rw [List.getElem?_range' 1 1 (by omega)] at hx
    rw [List.getElem?_range' 1 1 hk] at hy
    simp only [Option.some.injEq] at hx hy
    omega
  · intro a b i j ha hb
    constructor
    · intro hij
      subst hij
      exact hC.inj ha hb
    · intro hab
      subst hab
      rw [ha] at hb
      exact Option.some.inj hb

/-- Claim C16 at a concrete input: the addresses 50, 70, 50 and 90 are
registered on a fresh table; the ordinals handed out are 1, 2 and 3. -/
theorem ordinals_consecutive_witness :
    OutputSharedPointerStorage.init.newOrdinals [50, 70, 50, 90] = List.range' 1 3 ∧
    (OutputSharedPointerStorage.init.registerAll [50, 70, 50, 90]).itsSharedPointerMap =
      [(50, 1), (70, 2), (90, 3)] :=
  ⟨by
    have h := (ordinals_consecutive [50, 70, 50, 90] (by decide)).1
    exact h, by decide⟩

/-! ## Unique pointers (C14) -/

theorem loadU8_cons {β : Type} (f : Nat) (rest : List Nat) (st : InputSharedPointerStorage)
    (tm : List (Nat × String)) (hp : List (Cell β)) :
    InputArchive.loadU8
        { stream := f :: rest, storage := st, itsPolymorphicTypeMap := tm, heap := hp }
      = .ok (f % 256,
          { stream := rest, storage := st, itsPolymorphicTypeMap := tm, heap := hp }) := by
  simp [InputArchive.loadU8, InputArchive.loadBinary]

theorem load_unique_ptr_cons {β : Type} (dflt : β)
    (loadData : Addr → InputArchive β → Except Exception (InputArchive β))
    (f : Nat) (rest : List Nat) (st : InputSharedPointerStorage)
    (tm : List (Nat × String)) (hp : List (Cell β)) :
    load_unique_ptr dflt loadData
        { stream := f :: rest, storage := st, itsPolymorphicTypeMap := tm, heap := hp }
      = if f % 256 = 0 then
          .ok (0, { stream := rest, storage := st, itsPolymorphicTypeMap := tm, heap := hp })
        else
          match loadData (hp.length + 1)
            { stream := rest, storage := st, itsPolymorphicTypeMap := tm,
              heap := hp ++ [{ object := some dflt, valid := true }] } with
          | .error e => .error e
          | .ok ar2 => .ok (hp.length + 1, ar2) := by
  unfold load_unique_ptr
  rw [loadU8_cons]
  by_cases h : f % 256 = 0
  · simp [h]
  · simp [h, InputArchive.allocate]

/-- Claim C14: saving a null unique pointer appends the one byte 0 to the
stream and nothing else; saving a non-null one appends the byte 1 and then
runs the body writer; loading reads the flag byte and returns the null pointer
when it is 0, and otherwise allocates a fresh object (at the next free
address, never null) and runs the body reader on it. Hence for every pointer
`p` to an object whose body holds no further pointers, loading what saving `p`
into a fresh archive wrote consumes the stream and returns a pointer that is
null iff `p` is null and otherwise holds the body of `p`. The identity tables
of both archives are left as they were. -/
theorem unique_ptr_roundtrip {β : Type} (dflt : β) (saveBody : β → List Nat)
    (loadBody : List Nat → Except Exception (β × List Nat))
    (hrt : ∀ b rest, loadBody (saveBody b ++ rest) = .ok (b, rest))
    (body : Addr → β) (p : Nat) :
    (∀ (saveData : Addr → OutputArchive → OutputArchive) (ar : OutputArchive),
      save_unique_ptr saveData ar 0 = { ar with stream := ar.stream ++ [0] }) ∧
    (∀ (saveData : Addr → OutputArchive → OutputArchive) (ar : OutputArchive),
      p ≠ 0 → save_unique_ptr saveData ar p =
        saveData p { ar with stream := ar.stream ++ [1] }) ∧
    (∀ (loadData : Addr → InputArchive β → Except Exception (InputArchive β))
        (f : Nat) (rest : List Nat) (st : InputSharedPointerStorage)
        (tm : List (Nat × String)) (hp : List (Cell β)), f < 256 →
      (f = 0 → load_unique_ptr dflt loadData
          { stream := f :: rest, storage := st, itsPolymorphicTypeMap := tm, heap := hp }
        = .ok (0, { stream := rest, storage := st, itsPolymorphicTypeMap := tm,
                    heap := hp })) ∧
      (f ≠ 0 → load_unique_ptr dflt loadData
          { stream := f :: rest, storage := st, itsPolymorphicTypeMap := tm, heap := hp }
        = match loadData (hp.length + 1)
            { stream := rest, storage := st, itsPolymorphicTypeMap := tm,
              heap := hp ++ [{ object := some dflt, valid := true }] } with
          | .error e => .error e
          | .ok ar2 => .ok (hp.length + 1, ar2))) ∧
    (∀ ar : OutputArchive,
      (save_unique_ptr (saveLeaf saveBody body) ar p).storage = ar.storage ∧
      (save_unique_ptr (saveLeaf saveBody body) ar p).stream =
        ar.stream ++ (if p = 0 then [0] else 1 :: saveBody (body p))) ∧
    ∃ q ar',
      load_unique_ptr dflt (loadLeaf loadBody)
          (InputArchive.init
            (save_unique_ptr (saveLeaf saveBody body) OutputArchive.init p).stream)
        = .ok (q, ar') ∧
      (q = 0 ↔ p = 0) ∧
      (p ≠ 0 → heapObject ar'.heap q = some (body p)) ∧
      ar'.stream = [] ∧
      ar'.storage = InputSharedPointerStorage.init := by
  have hsave : ∀ ar : OutputArchive,
      save_unique_ptr (saveLeaf saveBody body) ar p =
        { ar with stream := ar.stream ++ (if p = 0 then [0] else 1 :: saveBody (body p)) } := by
    intro ar
    by_cases hp : p = 0
    · simp [save_unique_ptr, hp, OutputArchive.saveU8, OutputArchive.saveBinary]
    · simp [save_unique_ptr, hp, OutputArchive.saveU8, OutputArchive.saveBinary, saveLeaf]
  refine ⟨?_, ?_, ?_, ?_, ?_⟩
  · intro saveData ar
    simp [save_unique_ptr, OutputArchive.saveU8, OutputArchive.saveBinary]
  · intro saveData ar hp
    simp [save_unique_ptr, hp, OutputArchive.saveU8, OutputArchive.saveBinary]
  · intro loadData f rest st tm hp hf
    rw [load_unique_ptr_cons, Nat.mod_eq_of_lt hf]
    exact ⟨fun h => by simp [h], fun h => by simp [h]⟩
  · intro ar
    rw [hsave ar]
    exact ⟨rfl, rfl⟩
  · rw [hsave OutputArchive.init]
    by_cases hp : p = 0
    · refine ⟨0, InputArchive.init [], ?_, by simp [hp], fun h => absurd hp h, rfl, rfl⟩
      simp only [hp, if_true, OutputArchive.init, List.nil_append, InputArchive.init]
      rw [load_unique_ptr_cons]
      simp
    · refine ⟨1,
        { stream := [], storage := InputSharedPointerStorage.init,
          itsPolymorphicTypeMap := [],
          heap := [{ object := some (body p), valid := true }] }, ?_,
        by simp [hp], fun _ => rfl, rfl, rfl⟩
      simp only [hp, if_false, OutputArchive.init, List.nil_append, InputArchive.init]
      rw [load_unique_ptr_cons]
      have h1 := hrt (body p) []
      rw [List.append_nil] at h1
      simp [loadLeaf, h1, heapStore, heapGet, heapSet]

/-- Claim C14 at a concrete input: a pointer to an object at the address 5 with
the one-byte body 42 is saved as the bytes 1, 42 and loaded back as a fresh
object with the body 42. -/
theorem unique_ptr_roundtrip_witness :
    (save_unique_ptr (saveLeaf saveByte (fun _ => (42 : Fin 256))) OutputArchive.init 5).stream
      = [1, 42] ∧
    ∃ q ar',
      load_unique_ptr (0 : Fin 256) (loadLeaf loadByte)
          (InputArchive.init
            (save_unique_ptr (saveLeaf saveByte (fun _ => (42 : Fin 256)))
              OutputArchive.init 5).stream)
        = .ok (q, ar') ∧
      (q = 0 ↔ (5 : Nat) = 0) ∧
      ((5 : Nat) ≠ 0 → heapObject ar'.heap q = some ((fun _ => (42 : Fin 256)) (5 : Nat))) ∧
      ar'.stream = [] ∧
      ar'.storage = InputSharedPointerStorage.init :=
  ⟨by decide,
    (unique_ptr_roundtrip (0 : Fin 256) saveByte loadByte loadByte_saveByte
      (fun _ => (42 : Fin 256)) 5).2.2.2.2⟩

/-! ## Variant selectors (C20) -/

theorem load_variant_no_match {γ β : Type} (dflt : Nat → γ)
    (loadAlt : Nat → InputArchive β → Except Exception γ × InputArchive β)
    (target : Nat) (Is : List Nat) (h : target ∉ Is) (variant : Variant γ)
    (ar : InputArchive β) :
    load_variant dflt loadAlt target Is variant ar = (.ok (), variant, ar) := by
  induction Is with
  | nil => rfl
  | cons N Is ih =>
    have h1 : target ≠ N := fun e => h (e ▸ List.mem_cons_self _ _)
    have h2 : target ∉ Is := fun e => h (List.mem_cons_of_mem _ e)
    simp only [load_variant, load_variant_at_index, h1, if_false, ih h2]

theorem loadI32_mk {β : Type} (n : Nat) (rest : List Nat) (st : InputSharedPointerStorage)
    (tm : List (Nat × String)) (hp : List (Cell β)) :
    InputArchive.loadI32
        { stream := encodeU32 n ++ rest, storage := st, itsPolymorphicTypeMap := tm,
          heap := hp }
      = .ok (toI32 n,
          { stream := rest, storage := st, itsPolymorphicTypeMap := tm, heap := hp }) := by
  unfold InputArchive.loadI32
  rw [loadU32_mk]
  simp [toI32]

/-- The part of C20 that holds: a selector that is at least the number of
alternatives makes both loaders raise, with the variant as it was and the
stream advanced past the four bytes of the selector only. -/
theorem load_variant_selector_too_large {γ β : Type} (dflt : Nat → γ)
    (loadAlt : Nat → InputArchive β → Except Exception γ × InputArchive β)
    (size : Nat) (hsize : size < 2 ^ 31) (sel : Nat) (hsel : (size : Int) ≤ toI32 sel)
    (rest : List Nat) (st : InputSharedPointerStorage) (tm : List (Nat × String))
    (hp : List (Cell β)) (variant : Variant γ) :
    load_std_variant dflt loadAlt size
        { stream := encodeU32 sel ++ rest, storage := st, itsPolymorphicTypeMap := tm,
          heap := hp } variant
      = (.error ⟨"Invalid 'index' selector when deserializing std::variant"⟩, variant,
          { stream := rest, storage := st, itsPolymorphicTypeMap := tm, heap := hp }) ∧
    load_boost_variant loadAlt size
        { stream := encodeU32 sel ++ rest, storage := st, itsPolymorphicTypeMap := tm,
          heap := hp } variant
      = some (.error ⟨"Invalid 'which' selector when deserializing boost::variant"⟩, variant,
          { stream := rest, storage := st, itsPolymorphicTypeMap := tm, heap := hp }) := by
  have hs : toI32 size = (size : Int) := by
    unfold toI32
    have h1 : size % 2 ^ 32 = size := Nat.mod_eq_of_lt (by omega)
    rw [h1, if_pos hsize]
  unfold load_std_variant load_boost_variant
  rw [loadI32_mk, hs]
  simp [hsel]

/-- The selectors below zero on a `std::variant`: the test `index >= size` lets
them through, no alternative matches the index converted to `size_t`, and the
load returns normally with the variant as it was and nothing read past the
selector. -/
theorem load_std_variant_selector_negative {γ β : Type} (dflt : Nat → γ)
    (loadAlt : Nat → InputArchive β → Except Exception γ × InputArchive β)
    (size : Nat) (hsize : size < 2 ^ 31) (sel : Nat) (hsel : toI32 sel < 0)
    (rest : List Nat) (st : InputSharedPointerStorage) (tm : List (Nat × String))
    (hp : List (Cell β)) (variant : Variant γ) :
    load_std_variant dflt loadAlt size
        { stream := encodeU32 sel ++ rest, storage := st, itsPolymorphicTypeMap := tm,
          heap := hp } variant
      = (.ok (), variant,
          { stream := rest, storage := st, itsPolymorphicTypeMap := tm, heap := hp }) ∧
    load_boost_variant loadAlt size
        { stream := encodeU32 sel ++ rest, storage := st, itsPolymorphicTypeMap := tm,
          heap := hp } variant
      = none := by
  have hs : toI32 size = (size : Int) := by
    unfold toI32
    have h1 : size % 2 ^ 32 = size := Nat.mod_eq_of_lt (by omega)
    rw [h1, if_pos hsize]
  have hlt : ¬ (toI32 sel ≥ (size : Int)) := by omega
  have hge : -(2 : Int) ^ 31 ≤ toI32 sel := by
    unfold toI32
    split <;> omega
  unfold load_std_variant load_boost_variant
  rw [loadI32_mk, hs]
  simp only [hlt, if_false, hsel, if_true, and_true]
  apply load_variant_no_match
  intro hmem
  rw [List.mem_range] at hmem
  have h2 : toSizeT (toI32 sel) = (toI32 sel + 2 ^ 64).toNat := by
    unfold toSizeT
    congr 1
    omega
  rw [h2] at hmem
  omega

/-- Claim C20, the code at the failing input: a variant with two one-byte
alternatives holds alternative 0 with the value 5; the stream holds the
selector -1 (the bytes `ff ff ff ff`) and one more byte. The `std::variant`
loader raises nothing: it returns normally with the variant as it was. The
`boost::variant` loader indexes its array of loaders at -1 (undefined
behaviour). For contrast the selector 2 raises in both loaders and the
selector 1 loads the byte. -/
theorem load_variant_negative_selector :
    toI32 0xFFFFFFFF = -1 ∧
    load_std_variant (fun _ => 0) loadByteAlt 2
        (InputArchive.init (encodeU32 0xFFFFFFFF ++ [9]) : InputArchive Nat)
        { index := 0, value := 5 }
      = (.ok (), { index := 0, value := 5 }, InputArchive.init [9]) ∧
    load_boost_variant loadByteAlt 2
        (InputArchive.init (encodeU32 0xFFFFFFFF ++ [9]) : InputArchive Nat)
        { index := 0, value := 5 }
      = none ∧
    load_std_variant (fun _ => 0) loadByteAlt 2
        (InputArchive.init (encodeU32 2 ++ [9]) : InputArchive Nat)
        { index := 0, value := 5 }
      = (.error ⟨"Invalid 'index' selector when deserializing std::variant"⟩,
          { index := 0, value := 5 }, InputArchive.init [9]) ∧
    load_std_variant (fun _ => 0) loadByteAlt 2
        (InputArchive.init (encodeU32 1 ++ [9]) : InputArchive Nat)
        { index := 0, value := 5 }
      = (.ok (), { index := 1, value := 9 }, InputArchive.init []) := by
  refine ⟨by decide, ?_, ?_, ?_, ?_⟩
  · exact (load_std_variant_selector_negative (fun _ => 0) loadByteAlt 2 (by decide)
      0xFFFFFFFF (by decide) [9] InputSharedPointerStorage.init [] [] _).1
  · exact (load_std_variant_selector_negative (fun _ => 0) loadByteAlt 2 (by decide)
      0xFFFFFFFF (by decide) [9] InputSharedPointerStorage.init [] [] _).2
  · exact (load_variant_selector_too_large (fun _ => 0) loadByteAlt 2 (by decide)
      2 (by decide) [9] InputSharedPointerStorage.init [] [] _).1
  · rfl

/-! ## The deleter of the `load_and_construct` overload (C17) -/

/-- On a normal return the overload that keeps the state after an exception
agrees with `load_shared_ptr_construct`, and it raises when that one does. -/
theorem load_shared_ptr_construct_outcome_fst {β : Type} (proc : UserConstruct β)
    (ar : InputArchive β) :
    load_shared_ptr_construct proc.forget ar =
      match load_shared_ptr_construct_outcome proc ar with
      | (.error e, _) => .error e
      | (.ok p, ar1) => .ok (p, ar1) := by
  unfold load_shared_ptr_construct load_shared_ptr_construct_outcome UserConstruct.forget
  cases h1 : ar.loadU32 with
  | error e => rfl
  | ok r =>
    obtain ⟨id, ar1⟩ := r
    by_cases hm : hasMsb id = true
    · simp only [hm, if_true]
      rcases hp : proc (ar1.allocate { object := none, valid := false }).1
        ((ar1.allocate { object := none, valid := false }).2.registerSharedPointer id
          (ar1.allocate { object := none, valid := false }).1) with ⟨r, ar3⟩
      cases r <;> rfl
    · simp only [hm, if_false, InputArchive.getSharedPointer]
      rcases hg : ar1.storage.getSharedPointer id with ⟨r, st⟩
      cases r <;> rfl

/-- Claim C17 as amended: a first-occurrence id is loaded through the overload
for types with `load_and_construct`, with a user procedure that leaves the
storage allocated and cannot reach its flag. Then the storage is still
allocated after the load, whether the load returned or raised, and the deleter
called on it runs the destructor if and only if the user procedure returned
normally (which is when the load returns the handle); when the user procedure
raises, the load raises the same exception, no destructor runs, and in both
cases the storage is released exactly once. The storage holds what the user
procedure left there: the destructor runs on a constructed object exactly when
the procedure that returned had called `construct`. -/
theorem deleter_after_load_and_construct {β : Type} (proc : UserConstruct β)
    (hframe : ∀ p ar c, heapGet ar.heap p = some c →
      ∃ c', heapGet (proc p ar).2.heap p = some c' ∧ c'.valid = c.valid)
    (id : Nat) (hid : id < 2 ^ 32) (hmsb : hasMsb id = true) (rest : List Nat)
    (st : InputSharedPointerStorage) (tm : List (Nat × String)) (hp : List (Cell β)) :
    ∃ c,
      heapGet (load_shared_ptr_construct_outcome proc
          { stream := encodeU32 id ++ rest, storage := st, itsPolymorphicTypeMap := tm,
            heap := hp }).2.heap (hp.length + 1) = some c ∧
      ((sharedPtrDeleter c).destructorRuns = true ↔
        (proc (hp.length + 1)
          { stream := rest, storage := st.registerSharedPointer id (hp.length + 1),
            itsPolymorphicTypeMap := tm,
            heap := hp ++ [{ object := none, valid := false }] }).1 = .ok ()) ∧
      ((sharedPtrDeleter c).destructorRuns = true ↔
        (load_shared_ptr_construct_outcome proc
          { stream := encodeU32 id ++ rest, storage := st, itsPolymorphicTypeMap := tm,
            heap := hp }).1 = .ok (hp.length + 1)) ∧
      (∀ e, (proc (hp.length + 1)
          { stream := rest, storage := st.registerSharedPointer id (hp.length + 1),
            itsPolymorphicTypeMap := tm,
            heap := hp ++ [{ object := none, valid := false }] }).1 = .error e →
        (load_shared_ptr_construct_outcome proc
          { stream := encodeU32 id ++ rest, storage := st, itsPolymorphicTypeMap := tm,
            heap := hp }).1 = .error e ∧
        (sharedPtrDeleter c).destructorRuns = false) ∧
      (sharedPtrDeleter c).releases = 1 ∧
      some c.object = (heapGet (proc (hp.length + 1)
          { stream := rest, storage := st.registerSharedPointer id (hp.length + 1),
            itsPolymorphicTypeMap := tm,
            heap := hp ++ [{ object := none, valid := false }] }).2.heap
          (hp.length + 1)).map Cell.object := by
  obtain ⟨c', hc', hv⟩ := hframe (hp.length + 1)
    { stream := rest, storage := st.registerSharedPointer id (hp.length + 1),
      itsPolymorphicTypeMap := tm, heap := hp ++ [{ object := none, valid := false }] }
    { object := none, valid := false } (heapGet_append_new hp _)
  have hlen : hp.length + 1 ≤ (proc (hp.length + 1)
      { stream := rest, storage := st.registerSharedPointer id (hp.length + 1),
        itsPolymorphicTypeMap := tm,
        heap := hp ++ [{ object := none, valid := false }] }).2.heap.length := by
    simp only [heapGet, Nat.succ_ne_zero, if_false, Nat.add_sub_cancel,
      List.get?_eq_getElem?] at hc'
    have := (List.getElem?_eq_some.1 hc').1
    omega
  unfold load_shared_ptr_construct_outcome
  rw [loadU32_mk]
  simp only [Nat.mod_eq_of_lt hid, hmsb, if_true, InputArchive.allocate,
    InputArchive.registerSharedPointer]
  rcases hproc : proc (hp.length + 1)
    { stream := rest, storage := st.registerSharedPointer id (hp.length + 1),
      itsPolymorphicTypeMap := tm,
      heap := hp ++ [{ object := none, valid := false }] } with ⟨r, ar3⟩
  rw [hproc] at hc' hlen
  simp only at hc' hlen
  cases r with
  | error e =>
    refine ⟨c', hc', ?_, ?_, ?_, rfl, ?_⟩
    · simp [sharedPtrDeleter, hv]
    · simp [sharedPtrDeleter, hv]
    · intro e' he'
      simp only [Except.error.injEq] at he'
      subst he'
      exact ⟨rfl, by simp [sharedPtrDeleter, hv]⟩
    · simp [hc']
  | ok u =>
    refine ⟨{ c' with valid := true }, ?_, ?_, ?_, ?_, rfl, ?_⟩
    · simp only [hc', Option.getD_some]
      exact heapGet_heapSet_self ar3.heap _ (Nat.succ_ne_zero _) hlen
    · simp [sharedPtrDeleter]
    · simp [sharedPtrDeleter]
    · intro e' he'
      simp at he'
    · simp [hc']

/-- Claim C17 at concrete inputs: a procedure that constructs and returns (the
destructor runs, on the constructed object 7), and one that raises after it
has constructed (the load raises, the flag stays unset and no destructor runs
although the object 7 lives in the storage). -/
theorem deleter_after_load_and_construct_witness :
    (∃ c, heapGet (load_shared_ptr_construct_outcome constructFromByte
          (InputArchive.init (encodeU32 0x80000001 ++ [7]))).2.heap 1 = some c ∧
        (sharedPtrDeleter c).destructorRuns = true ∧ c.object = some 7) ∧
    (∃ c, heapGet (load_shared_ptr_construct_outcome constructThenThrow
          (InputArchive.init (encodeU32 0x80000001 ++ [7]))).2.heap 1 = some c ∧
        (load_shared_ptr_construct_outcome constructThenThrow
          (InputArchive.init (encodeU32 0x80000001 ++ [7]))).1 =
            .error ⟨"raised after construct"⟩ ∧
        (sharedPtrDeleter c).destructorRuns = false ∧
        (sharedPtrDeleter c).releases = 1 ∧ c.object = some 7) := by
  have hf1 : ∀ (p : Nat) (ar : InputArchive Nat) c, heapGet ar.heap p = some c →
      ∃ c', heapGet (constructFromByte p ar).2.heap p = some c' ∧ c'.valid = c.valid := by
    intro p ar c hc
    unfold constructFromByte
    cases hs : ar.stream with
    | nil => exact ⟨c, hc, rfl⟩
    | cons x rest =>
      have h0 : p ≠ 0 := by
        intro h
        simp [heapGet, h] at hc
      have hl : p ≤ ar.heap.length := by
        simp only [heapGet, h0, if_false, List.get?_eq_getElem?] at hc
        have := (List.getElem?_eq_some.1 hc).1
        omega
      refine ⟨{ c with object := some x }, ?_, rfl⟩
      simp only [heapConstruct, hc]
      exact heapGet_heapSet_self ar.heap _ h0 hl
  have hf2 : ∀ (p : Nat) (ar : InputArchive Nat) c, heapGet ar.heap p = some c →
      ∃ c', heapGet (constructThenThrow p ar).2.heap p = some c' ∧ c'.valid = c.valid := by
    intro p ar c hc
    unfold constructThenThrow
    cases hs : ar.stream with
    | nil => exact ⟨c, hc, rfl⟩
    | cons x rest =>
      have h0 : p ≠ 0 := by
        intro h
        simp [heapGet, h] at hc
      have hl : p ≤ ar.heap.length := by
        simp only [heapGet, h0, if_false, List.get?_eq_getElem?] at hc
        have := (List.getElem?_eq_some.1 hc).1
        omega
      refine ⟨{ c with object := some x }, ?_, rfl⟩
      simp only [heapConstruct, hc]
      exact heapGet_heapSet_self ar.heap _ h0 hl
  constructor
  · obtain ⟨c, h1, h2, _, _, _, h6⟩ :=
      deleter_after_load_and_construct constructFromByte hf1 0x80000001 (by decide)
        (by decide) [7] InputSharedPointerStorage.init [] []
    refine ⟨c, h1, h2.2 rfl, ?_⟩
    have h7 : some c.object = some (some 7) := h6
    exact Option.some.inj h7
  · obtain ⟨c, h1, _, _, h4, h5, h6⟩ :=
      deleter_after_load_and_construct constructThenThrow hf2 0x80000001 (by decide)
        (by decide) [7] InputSharedPointerStorage.init [] []
    have h7 : some c.object = some (some 7) := h6
    exact ⟨c, h1, (h4 _ rfl).1, (h4 _ rfl).2, h5, Option.some.inj h7⟩

/-- Claim C17 as stated fails for a user procedure that returns without calling
`construct` (an empty `load_and_construct`): the load returns the handle 1, the
flag of the storage is set although no object was constructed in it, and the
deleter runs the destructor on the raw storage. -/
theorem deleter_runs_without_construct :
    load_shared_ptr_construct_outcome (returnWithoutConstruct : UserConstruct Nat)
        (InputArchive.init (encodeU32 0x80000001))
      = (.ok 1,
          { stream := [], storage := { itsSharedPointerMap := [(1, 1)] },
            itsPolymorphicTypeMap := [],
            heap := [{ object := none, valid := true }] }) ∧
    (sharedPtrDeleter ({ object := none, valid := true } : Cell Nat)).destructorRuns = true :=
  ⟨rfl, rfl⟩

/-! ## The buffered output archive -/

theorem write_eq (ar : BinaryOutputArchive) (data : List Nat) :
    (data.length ≤ ar.itsStream.room →
      ar.write data = (.ok (),
        { ar with itsStream :=
          { written := ar.itsStream.written ++ data,
            room := ar.itsStream.room - data.length } })) ∧
    (ar.itsStream.room < data.length → ∃ e ar1, ar.write data = (.error e, ar1) ∧
      ar1.isProcessing = ar.isProcessing ∧ ar1.bufferEnd = ar.bufferEnd) := by
  constructor
  · intro h
    simp [BinaryOutputArchive.write, OStream.sputn, Nat.min_eq_left h, List.take_of_length_le h]
  · intro h
    have h1 : min data.length ar.itsStream.room ≠ data.length := by
      rw [Nat.min_eq_right (Nat.le_of_lt h)]
      omega
    refine ⟨⟨"Failed to write " ++ toString data.length ++
        " bytes to output stream! Wrote " ++ toString (min data.length ar.itsStream.room)⟩,
      { ar with itsStream := (ar.itsStream.sputn data).2 }, ?_, rfl, rfl⟩
    simp only [BinaryOutputArchive.write, OStream.sputn, h1, ne_eq,
      not_false_eq_true, if_true]

theorem flush_eq {ar : BinaryOutputArchive} (hwf : ar.wellFormed) :
    (ar.bufferEnd ≤ ar.itsStream.room →
      ar.flush = (.ok (),
        { ar with
          itsStream :=
            { written := ar.contents, room := ar.itsStream.room - ar.bufferEnd }
          bufferEnd := 0 })) ∧
    (ar.itsStream.room < ar.bufferEnd → ∃ e ar1, ar.flush = (.error e, ar1) ∧
      ar1.isProcessing = ar.isProcessing ∧ ar1.bufferEnd = ar.bufferEnd) := by
  have hlen : (ar.itsBuffer.take ar.bufferEnd).length = ar.bufferEnd := by
    rw [List.length_take]
    have := hwf.1
    have := hwf.2
    omega
  constructor
  · intro h
    unfold BinaryOutputArchive.flush
    rw [(write_eq ar _).1 (by rw [hlen]; exact h)]
    simp [hlen, BinaryOutputArchive.contents]
  · intro h
    unfold BinaryOutputArchive.flush
    obtain ⟨e, ar1, he, h1, h2⟩ := (write_eq ar (ar.itsBuffer.take ar.bufferEnd)).2
      (by rw [hlen]; exact h)
    rw [he]
    exact ⟨e, ar1, rfl, h1, h2⟩

/-- A flush that returns normally: there was room for the pending bytes, and
the archive afterwards has them in the stream and an empty buffer. -/
theorem flush_ok {ar ar' : BinaryOutputArchive} (hwf : ar.wellFormed)
    (h : ar.flush = (.ok (), ar')) :
    ar.bufferEnd ≤ ar.itsStream.room ∧
    ar' = { ar with
      itsStream := { written := ar.contents, room := ar.itsStream.room - ar.bufferEnd }
      bufferEnd := 0 } := by
  by_cases hr : ar.bufferEnd ≤ ar.itsStream.room
  · rw [(flush_eq hwf).1 hr] at h
    exact ⟨hr, (Prod.mk.inj h).2.symm⟩
  · obtain ⟨e, ar1, he, _⟩ := (flush_eq hwf).2 (by omega)
    rw [he] at h
    exact absurd (Prod.mk.inj h).1 (by simp)

theorem take_memcpy (buffer : List Nat) (offset : Nat) (data : List Nat)
    (h : offset ≤ buffer.length) :
    (memcpy buffer offset data).take (offset + data.length) = buffer.take offset ++ data := by
  unfold memcpy
  have hl : (buffer.take offset ++ data).length = offset + data.length := by
    rw [List.length_append, List.length_take, Nat.min_eq_left h]
  rw [List.take_append_of_le_length (by rw [hl]), List.take_of_length_le (by rw [hl])]

theorem length_memcpy (buffer : List Nat) (offset : Nat) (data : List Nat)
    (h : offset + data.length ≤ buffer.length) :
    (memcpy buffer offset data).length = buffer.length := by
  unfold memcpy
  simp only [List.length_append, List.length_take, List.length_drop]
  omega

/-- Copying a chunk behind the bytes waiting in the buffer. -/
theorem buffer_append {ar : BinaryOutputArchive} (hwf : ar.wellFormed) (data : List Nat)
    (h : ar.bufferEnd + data.length ≤ bufferSize) :
    BinaryOutputArchive.wellFormed
      { ar with
        itsBuffer := memcpy ar.itsBuffer ar.bufferEnd data
        bufferEnd := ar.bufferEnd + data.length } ∧
    BinaryOutputArchive.contents
      { ar with
        itsBuffer := memcpy ar.itsBuffer ar.bufferEnd data
        bufferEnd := ar.bufferEnd + data.length } = ar.contents ++ data := by
  obtain ⟨h1, h2⟩ := hwf
  constructor
  · exact ⟨by rw [length_memcpy _ _ _ (by omega)]; exact h1, h⟩
  · simp only [BinaryOutputArchive.contents]
    rw [take_memcpy _ _ _ (by omega), List.append_assoc]

theorem flush_ok_spec {ar ar' : BinaryOutputArchive} (hwf : ar.wellFormed)
    (h : ar.flush = (.ok (), ar')) :
    ar'.wellFormed ∧ ar'.contents = ar.contents ∧ ar'.isProcessing = ar.isProcessing ∧
    ar'.bufferEnd = 0 ∧ ar'.itsStream.written = ar.contents ∧
    ar'.itsStream.room + ar.bufferEnd = ar.itsStream.room := by
  obtain ⟨hr, he⟩ := flush_ok hwf h
  subst he
  refine ⟨⟨hwf.1, Nat.zero_le _⟩, ?_, rfl, rfl, rfl, ?_⟩
  · simp [BinaryOutputArchive.contents]
  · simp only
    omega

/-- A call of `saveBinary` that returns normally keeps the invariant and the
flag and adds the chunk to the bytes taken. -/
theorem saveBinary_ok {ar ar' : BinaryOutputArchive} (hwf : ar.wellFormed) (data : List Nat)
    (h : ar.saveBinary data = (.ok (), ar')) :
    ar'.wellFormed ∧ ar'.contents = ar.contents ++ data ∧
    ar'.isProcessing = ar.isProcessing := by
  unfold BinaryOutputArchive.saveBinary at h
  by_cases hbig : 4 * data.length > bufferSize
  · simp only [hbig, if_true] at h
    rcases hf : ar.flush with ⟨r, ar1⟩
    rw [hf] at h
    cases r with
    | error e => exact absurd (Prod.mk.inj h).1 (by simp)
    | ok u =>
      simp only at h
      obtain ⟨hwf1, hc1, hp1, hb1, _, _⟩ := flush_ok_spec hwf hf
      by_cases hr : data.length ≤ ar1.itsStream.room
      · rw [(write_eq ar1 data).1 hr] at h
        have he := (Prod.mk.inj h).2
        subst he
        refine ⟨⟨hwf1.1, hwf1.2⟩, ?_, hp1⟩
        rw [← hc1]
        simp [BinaryOutputArchive.contents, hb1]
      · obtain ⟨e, ar2, he, _⟩ := (write_eq ar1 data).2 (by omega)
        rw [he] at h
        exact absurd (Prod.mk.inj h).1 (by simp)
  · simp only [hbig, if_false] at h
    by_cases hfl : ar.bufferEnd + data.length > bufferSize
    · simp only [hfl, if_true] at h
      rcases hf : ar.flush with ⟨r, ar1⟩
      rw [hf] at h
      cases r with
      | error e => exact absurd (Prod.mk.inj h).1 (by simp)
      | ok u =>
        simp only at h
        obtain ⟨hwf1, hc1, hp1, hb1, _, _⟩ := flush_ok_spec hwf hf
        have he := (Prod.mk.inj h).2
        subst he
        have hfit : ar1.bufferEnd + data.length ≤ bufferSize := by
          rw [hb1]
          omega
        obtain ⟨hw, hc⟩ := buffer_append hwf1 data hfit
        exact ⟨hw, by rw [hc, hc1], hp1⟩
    · simp only [hfl, if_false] at h
      have he := (Prod.mk.inj h).2
      subst he
      obtain ⟨hw, hc⟩ := buffer_append hwf data (by omega)
      exact ⟨hw, hc, rfl⟩

/-- A call of `saveBinary` returns normally when the stream has room for the
bytes waiting in the buffer and the chunk; the room for `k` further bytes is
kept. -/
theorem saveBinary_of_room {ar : BinaryOutputArchive} (hwf : ar.wellFormed)
    (data : List Nat) (k : Nat)
    (hroom : ar.bufferEnd + data.length + k ≤ ar.itsStream.room) :
    ∃ ar', ar.saveBinary data = (.ok (), ar') ∧
      ar'.bufferEnd + k ≤ ar'.itsStream.room := by
  unfold BinaryOutputArchive.saveBinary
  have hflush := (flush_eq hwf).1 (by omega)
  by_cases hbig : 4 * data.length > bufferSize
  · simp only [hbig, if_true, hflush]
    rw [(write_eq _ data).1 (by simp only; omega)]
    refine ⟨_, rfl, ?_⟩
    simp only
    omega
  · simp only [hbig, if_false]
    by_cases hfl : ar.bufferEnd + data.length > bufferSize
    · simp only [hfl, if_true, hflush]
      refine ⟨_, rfl, ?_⟩
      simp only
      omega
    · simp only [hfl, if_false]
      refine ⟨_, rfl, ?_⟩
      simp only
      omega

/-- Inside a call of `process` (the flag is set) a save function that returns
normally keeps the invariant and the flag, and adds its bytes, in order, to the
bytes taken: a nested call of `process` does not flush. -/
theorem run_ok (op : SaveOp) :
    ∀ {ar ar' : BinaryOutputArchive}, ar.wellFormed → ar.isProcessing = true →
      op.run ar = (.ok (), ar') →
      ar'.wellFormed ∧ ar'.contents = ar.contents ++ op.bytes ∧ ar'.isProcessing = true := by
  induction op with
  | skip =>
    intro ar ar' hwf hp h
    have he := (Prod.mk.inj h).2
    subst he
    exact ⟨hwf, by simp [SaveOp.bytes], hp⟩
  | saveBinary data =>
    intro ar ar' hwf hp h
    obtain ⟨h1, h2, h3⟩ := saveBinary_ok hwf data h
    exact ⟨h1, h2, by rw [h3, hp]⟩
  | raise e =>
    intro ar ar' hwf hp h
    exact absurd (Prod.mk.inj h).1 (by simp)
  | process arg ih =>
    intro ar ar' hwf hp h
    simp only [SaveOp.run, BinaryOutputArchive.process, hp, Bool.not_true,
      Bool.false_eq_true, if_false] at h
    rcases hr : arg.run ar with ⟨r, ar2⟩
    rw [hr] at h
    cases r with
    | error e => exact absurd (Prod.mk.inj h).1 (by simp)
    | ok u =>
      have he := (Prod.mk.inj h).2
      subst he
      exact ih hwf hp hr
  | seq first second ih1 ih2 =>
    intro ar ar' hwf hp h
    simp only [SaveOp.run] at h
    rcases hr : first.run ar with ⟨r, ar1⟩
    rw [hr] at h
    cases r with
    | error e => exact absurd (Prod.mk.inj h).1 (by simp)
    | ok u =>
      obtain ⟨hw1, hc1, hp1⟩ := ih1 hwf hp hr
      obtain ⟨hw2, hc2, hp2⟩ := ih2 hw1 hp1 h
      exact ⟨hw2, by rw [hc2, hc1, SaveOp.bytes, List.append_assoc], hp2⟩

/-- Inside a call of `process` a save function without a raising statement
returns normally when the stream has room for the bytes waiting in the buffer
and its own; the room for `k` further bytes is kept. -/
theorem run_of_room (op : SaveOp) :
    ∀ {ar : BinaryOutputArchive} (k : Nat), ar.wellFormed → ar.isProcessing = true →
      op.raises = false → ar.bufferEnd + op.bytes.length + k ≤ ar.itsStream.room →
      ∃ ar', op.run ar = (.ok (), ar') ∧ ar'.bufferEnd + k ≤ ar'.itsStream.room := by
  induction op with
  | skip =>
    intro ar k hwf hp hr hroom
    exact ⟨ar, rfl, by simp only [SaveOp.bytes, List.length_nil] at hroom; omega⟩
  | saveBinary data =>
    intro ar k hwf hp hr hroom
    exact saveBinary_of_room hwf data k hroom
  | raise e =>
    intro ar k hwf hp hr hroom
    simp [SaveOp.raises] at hr
  | process arg ih =>
    intro ar k hwf hp hr hroom
    obtain ⟨ar', h1, h2⟩ := ih k hwf hp hr hroom
    refine ⟨ar', ?_, h2⟩
    simp only [SaveOp.run, BinaryOutputArchive.process, hp, Bool.not_true,
      Bool.false_eq_true, if_false, h1]
  | seq first second ih1 ih2 =>
    intro ar k hwf hp hr hroom
    simp only [SaveOp.raises, Bool.or_eq_false_iff] at hr
    simp only [SaveOp.bytes, List.length_append] at hroom
    obtain ⟨ar1, h1, h2⟩ := ih1 (second.bytes.length + k) hwf hp hr.1 (by omega)
    obtain ⟨hw1, _, hp1⟩ := run_ok first hwf hp h1
    obtain ⟨ar2, h3, h4⟩ := ih2 k hw1 hp1 hr.2 (by omega)
    exact ⟨ar2, by simp only [SaveOp.run, h1, h3], h4⟩

/-- A top-level call of `process` (the flag is clear) that returns normally:
the buffer is empty afterwards, the flag is clear again, and the stream holds
the bytes the archive had taken before followed by the bytes of the call. -/
theorem process_ok (op : SaveOp) {ar ar' : BinaryOutputArchive} (hwf : ar.wellFormed)
    (hp : ar.isProcessing = false) (h : ar.process op.run = (.ok (), ar')) :
    ar'.wellFormed ∧ ar'.isProcessing = false ∧ ar'.bufferEnd = 0 ∧
    ar'.itsStream.written = ar.contents ++ op.bytes := by
  simp only [BinaryOutputArchive.process, hp, Bool.not_false, if_true] at h
  rcases hr : op.run { ar with isProcessing := true } with ⟨r, ar2⟩
  rw [hr] at h
  cases r with
  | error e => exact absurd (Prod.mk.inj h).1 (by simp)
  | ok u =>
    simp only at h
    obtain ⟨hw2, hc2, _⟩ := @run_ok op { ar with isProcessing := true } _ hwf rfl hr
    rcases hf : ar2.flush with ⟨r3, ar3⟩
    rw [hf] at h
    cases r3 with
    | error e => exact absurd (Prod.mk.inj h).1 (by simp)
    | ok u3 =>
      obtain ⟨hw3, _, _, hb3, hwr3, _⟩ := flush_ok_spec hw2 hf
      have he := (Prod.mk.inj h).2
      subst he
      exact ⟨hw3, rfl, hb3, by rw [hwr3, hc2]; rfl⟩

theorem process_of_room (op : SaveOp) {ar : BinaryOutputArchive} (k : Nat)
    (hwf : ar.wellFormed) (hp : ar.isProcessing = false) (hr : op.raises = false)
    (hroom : ar.bufferEnd + op.bytes.length + k ≤ ar.itsStream.room) :
    ∃ ar', ar.process op.run = (.ok (), ar') ∧ k ≤ ar'.itsStream.room := by
  obtain ⟨ar2, h2, hroom2⟩ :=
    @run_of_room op { ar with isProcessing := true } k hwf rfl hr hroom
  obtain ⟨hw2, _, _⟩ := @run_ok op { ar with isProcessing := true } _ hwf rfl h2
  have hf := (flush_eq hw2).1 (by omega)
  refine ⟨{ isProcessing := false,
            itsStream := { written := ar2.contents, room := ar2.itsStream.room - ar2.bufferEnd },
            bufferEnd := 0, itsBuffer := ar2.itsBuffer }, ?_, ?_⟩
  · simp only [BinaryOutputArchive.process, hp, Bool.not_false, if_true, h2, hf]
  · simp only
    omega

theorem processAll_ok (calls : List SaveOp) :
    ∀ {ar ar' : BinaryOutputArchive}, ar.wellFormed → ar.isProcessing = false →
      ar.bufferEnd = 0 → ar.processAll calls = (.ok (), ar') →
      ar'.wellFormed ∧ ar'.isProcessing = false ∧ ar'.bufferEnd = 0 ∧
      ar'.itsStream.written = ar.itsStream.written ++ (calls.map SaveOp.bytes).flatten := by
  induction calls with
  | nil =>
    intro ar ar' hwf hp hb h
    have he := (Prod.mk.inj h).2
    subst he
    exact ⟨hwf, hp, hb, by simp⟩
  | cons op rest ih =>
    intro ar ar' hwf hp hb h
    simp only [BinaryOutputArchive.processAll] at h
    rcases hr : ar.process op.run with ⟨r, ar1⟩
    rw [hr] at h
    cases r with
    | error e => exact absurd (Prod.mk.inj h).1 (by simp)
    | ok u =>
      obtain ⟨hw1, hp1, hb1, hc1⟩ := process_ok op hwf hp hr
      obtain ⟨hw2, hp2, hb2, hc2⟩ := ih hw1 hp1 hb1 h
      refine ⟨hw2, hp2, hb2, ?_⟩
      rw [hc2, hc1]
      simp [BinaryOutputArchive.contents, hb]

theorem processAll_of_room (calls : List SaveOp) :
    ∀ {ar : BinaryOutputArchive}, ar.wellFormed → ar.isProcessing = false →
      ar.bufferEnd = 0 → (∀ op ∈ calls, op.raises = false) →
      ((calls.map SaveOp.bytes).flatten).length ≤ ar.itsStream.room →
      ∃ ar', ar.processAll calls = (.ok (), ar') := by
  induction calls with
  | nil =>
    intro ar _ _ _ _ _
    exact ⟨ar, rfl⟩
  | cons op rest ih =>
    intro ar hwf hp hb hr hroom
    simp only [List.map_cons, List.flatten_cons, List.length_append] at hroom
    obtain ⟨ar1, h1, hroom1⟩ :=
      process_of_room op (((rest.map SaveOp.bytes).flatten).length) hwf hp
        (hr op (List.mem_cons_self _ _)) (by omega)
    obtain ⟨hw1, hp1, hb1, _⟩ := process_ok op hwf hp h1
    obtain ⟨ar2, h2⟩ := ih hw1 hp1 hb1 (fun o ho => hr o (List.mem_cons_of_mem _ ho)) hroom1
    exact ⟨ar2, by simp only [BinaryOutputArchive.processAll, h1, h2]⟩

theorem wellFormed_init_output (stream : OStream) :
    (BinaryOutputArchive.init stream).wellFormed :=
  ⟨by simp [BinaryOutputArchive.init], Nat.zero_le _⟩

/-! ## The buffer after a top-level call (C19) -/

/-- Claim C19 as amended: top-level calls of `process` are made one after the
other on a fresh archive and all of them return normally. Then the buffer is
empty (`bufferEnd == 0`), the flag `isProcessing` is clear, the stream holds,
after what it held before, every byte passed to `saveBinary` so far, in order
(those of nested calls of `process` included), and the destructor does not call
`flush`: it leaves the stream alone. -/
theorem process_leaves_buffer_empty (stream : OStream) (calls : List SaveOp)
    (ar' : BinaryOutputArchive)
    (h : (BinaryOutputArchive.init stream).processAll calls = (.ok (), ar')) :
    ar'.bufferEnd = 0 ∧ ar'.isProcessing = false ∧
    ar'.itsStream.written = stream.written ++ (calls.map SaveOp.bytes).flatten ∧
    ar'.destructor = (false, (.ok (), ar')) := by
  obtain ⟨_, hp, hb, hw⟩ :=
    processAll_ok calls (wellFormed_init_output stream) rfl rfl h
  refine ⟨hb, hp, hw, ?_⟩
  simp [BinaryOutputArchive.destructor, hb]

/-- Claim C19 at a concrete input: two top-level calls on a stream with room
for ten bytes, the first with a nested call; both return, the buffer is empty
and the stream holds the four bytes in order. -/
theorem process_leaves_buffer_empty_witness :
    ∃ ar', (BinaryOutputArchive.init { written := [], room := 10 }).processAll
        [.seq (.saveBinary [1, 2]) (.process (.saveBinary [3])), .saveBinary [4]]
        = (.ok (), ar') ∧
      ar'.bufferEnd = 0 ∧ ar'.itsStream.written = [1, 2, 3, 4] ∧
      ar'.destructor = (false, (.ok (), ar')) := by
  obtain ⟨ar', h⟩ := processAll_of_room
    [.seq (.saveBinary [1, 2]) (.process (.saveBinary [3])), .saveBinary [4]]
    (wellFormed_init_output { written := [], room := 10 }) rfl rfl
    (by decide) (by decide)
  have h1 := process_leaves_buffer_empty _ _ ar' h
  exact ⟨ar', h, h1.1, h1.2.2.1, h1.2.2.2⟩

/-- Claim C19 as stated fails after a call that raised. The first top-level
call passes the byte 1 to `saveBinary` and then its save function raises: the
flag `isProcessing` stays set. The second top-level call passes the byte 2 and
returns normally, but it is taken for a nested call and does not flush: the
two bytes wait in the buffer (`bufferEnd == 2`), the stream has received
nothing, and the destructor calls `flush` on the stream. -/
theorem process_after_exception_keeps_buffer :
    ((BinaryOutputArchive.init { written := [], room := 100 }).process
        (SaveOp.run (.seq (.saveBinary [1]) (.raise ⟨"save raised"⟩)))).1
      = .error ⟨"save raised"⟩ ∧
    ((BinaryOutputArchive.init { written := [], room := 100 }).process
        (SaveOp.run (.seq (.saveBinary [1]) (.raise ⟨"save raised"⟩)))).2.isProcessing
      = true ∧
    (((BinaryOutputArchive.init { written := [], room := 100 }).process
        (SaveOp.run (.seq (.saveBinary [1]) (.raise ⟨"save raised"⟩)))).2.process
        (SaveOp.run (.saveBinary [2]))).1 = .ok () ∧
    (((BinaryOutputArchive.init { written := [], room := 100 }).process
        (SaveOp.run (.seq (.saveBinary [1]) (.raise ⟨"save raised"⟩)))).2.process
        (SaveOp.run (.saveBinary [2]))).2.bufferEnd = 2 ∧
    (((BinaryOutputArchive.init { written := [], room := 100 }).process
        (SaveOp.run (.seq (.saveBinary [1]) (.raise ⟨"save raised"⟩)))).2.process
        (SaveOp.run (.saveBinary [2]))).2.itsStream.written = [] ∧
    (((BinaryOutputArchive.init { written := [], room := 100 }).process
        (SaveOp.run (.seq (.saveBinary [1]) (.raise ⟨"save raised"⟩)))).2.process
        (SaveOp.run (.saveBinary [2]))).2.destructor.1 = true :=
  ⟨rfl, rfl, rfl, rfl, rfl, rfl⟩

/-! ## The buffered input archive -/

theorem drop_take_append_drop (S : List Nat) (m rem : Nat) (h : rem ≤ (S.take m).length) :
    (S.take m).drop rem ++ S.drop m = S.drop rem := by
  conv_rhs => rw [← List.take_append_drop m S]
  rw [List.drop_append_of_le_length h]

/-- The function `loadFromStream` on an archive whose buffer is empty, when the
stream still has `size` bytes: it delivers the next `size` bytes of the stream
and the archive afterwards will deliver the rest. -/
theorem loadFromStream_spec {ar : BinaryInputArchive} (hwf : ar.wellFormed)
    (hempty : ar.bufferStart = ar.bufferEnd) (size : Nat)
    (hsize : size ≤ ar.itsStream.length) :
    ∃ ar', ar.loadFromStream size = (.ok (ar.itsStream.take size), ar') ∧
      ar'.wellFormed ∧ ar'.contents = ar.itsStream.drop size := by
  obtain ⟨hlen, hse, heb⟩ := hwf
  unfold BinaryInputArchive.loadFromStream
  by_cases hbig : 4 * size > bufferSize
  · simp only [hbig, if_true, BinaryInputArchive.load]
    have h1 : ¬ (min size ar.itsStream.length < size) := by
      rw [Nat.min_eq_left hsize]
      omega
    simp only [h1, if_false]
    refine ⟨_, rfl, ⟨hlen, hse, heb⟩, ?_⟩
    simp [BinaryInputArchive.contents, hempty]
  · simp only [hbig, if_false, BinaryInputArchive.load]
    have hb : bufferSize = 4096 := rfl
    have h1 : ¬ (min bufferSize ar.itsStream.length < size) := by
      rw [Nat.not_lt, Nat.le_min]
      exact ⟨by omega, hsize⟩
    simp only [h1, if_false, BinaryInputArchive.flush, Nat.sub_zero, Nat.zero_add,
      List.drop_zero]
    have hgot : (ar.itsStream.take bufferSize).length = min bufferSize ar.itsStream.length :=
      List.length_take _ _
    have hle : size ≤ (ar.itsStream.take bufferSize).length := by
      rw [hgot, Nat.le_min]
      exact ⟨by omega, hsize⟩
    have hmin : min (ar.itsStream.take bufferSize).length size = size := Nat.min_eq_right hle
    have hmem : memcpy ar.itsBuffer 0 (ar.itsStream.take bufferSize) =
        ar.itsStream.take bufferSize ++
          ar.itsBuffer.drop (ar.itsStream.take bufferSize).length := by
      simp [memcpy]
    refine ⟨{ itsStream := ar.itsStream.drop bufferSize,
              bufferStart := min (ar.itsStream.take bufferSize).length size,
              bufferEnd := (ar.itsStream.take bufferSize).length,
              itsBuffer := memcpy ar.itsBuffer 0 (ar.itsStream.take bufferSize) },
      ?_, ⟨?_, ?_, ?_⟩, ?_⟩
    · rw [hmin, hmem, List.take_append_of_le_length hle, List.take_take,
        Nat.min_eq_left (by omega)]
    · simp only
      rw [length_memcpy _ _ _ (by rw [hgot, hlen]; simp)]
      exact hlen
    · simp only
      omega
    · simp only
      rw [hgot]
      exact Nat.min_le_left _ _
    · simp only [BinaryInputArchive.contents]
      rw [hmin, hmem, List.drop_append_of_le_length hle,
        List.take_left' (by rw [List.length_drop])]
      exact drop_take_append_drop _ _ _ hle

/-- The function `loadBinary` when the archive can still deliver `size` bytes:
it delivers the next `size` bytes and the archive afterwards will deliver the
rest. -/
theorem loadBinary_spec {ar : BinaryInputArchive} (hwf : ar.wellFormed) (size : Nat)
    (hsize : size ≤ ar.contents.length) :
    ∃ ar', ar.loadBinary size = (.ok (ar.contents.take size), ar') ∧
      ar'.wellFormed ∧ ar'.contents = ar.contents.drop size := by
  obtain ⟨hlen, hse, heb⟩ := hwf
  have hB : ((ar.itsBuffer.drop ar.bufferStart).take (ar.bufferEnd - ar.bufferStart)).length
      = ar.bufferEnd - ar.bufferStart := by
    rw [List.length_take, List.length_drop]
    omega
  unfold BinaryInputArchive.loadBinary
  by_cases hfit : size ≤ ar.bufferEnd - ar.bufferStart
  · have hmin : min (ar.bufferEnd - ar.bufferStart) size = size := Nat.min_eq_right hfit
    simp only [hmin, if_true, BinaryInputArchive.flush]
    refine ⟨{ ar with bufferStart := ar.bufferStart + size }, ?_, ⟨hlen, ?_, heb⟩, ?_⟩
    · simp only [BinaryInputArchive.contents]
      rw [List.take_append_of_le_length (by rw [hB]; exact hfit), List.take_take,
        Nat.min_eq_left hfit]
    · simp only
      omega
    · simp only [BinaryInputArchive.contents]
      rw [List.drop_append_of_le_length (by rw [hB]; exact hfit), List.drop_take,
        List.drop_drop]
      congr 2
      omega
  · have hlt : ar.bufferEnd - ar.bufferStart < size := by omega
    have hmin : min (ar.bufferEnd - ar.bufferStart) size = ar.bufferEnd - ar.bufferStart :=
      Nat.min_eq_left (by omega)
    have hne : ¬ (ar.bufferEnd - ar.bufferStart = size) := by omega
    simp only [hmin, hne, if_false, BinaryInputArchive.flush]
    have hrem : size - (ar.bufferEnd - ar.bufferStart) ≤ ar.itsStream.length := by
      simp only [BinaryInputArchive.contents, List.length_append, hB] at hsize
      omega
    obtain ⟨ar', h1, hw', hc'⟩ :=
      @loadFromStream_spec
        { ar with bufferStart := ar.bufferStart + (ar.bufferEnd - ar.bufferStart) }
        ⟨hlen, by simp only; omega, heb⟩ (by simp only; omega)
        (size - (ar.bufferEnd - ar.bufferStart)) hrem
    have htake : ar.contents.take size =
        (ar.itsBuffer.drop ar.bufferStart).take (ar.bufferEnd - ar.bufferStart) ++
          ar.itsStream.take (size - (ar.bufferEnd - ar.bufferStart)) := by
      unfold BinaryInputArchive.contents
      have hBl : ((ar.itsBuffer.drop ar.bufferStart).take
          (ar.bufferEnd - ar.bufferStart)).length ≤ size := by
        rw [hB]
        omega
      rw [List.take_append_eq_append_take, List.take_of_length_le hBl, hB]
    have hdrop : ar.contents.drop size =
        ar.itsStream.drop (size - (ar.bufferEnd - ar.bufferStart)) := by
      unfold BinaryInputArchive.contents
      have hBl : ((ar.itsBuffer.drop ar.bufferStart).take
          (ar.bufferEnd - ar.bufferStart)).length ≤ size := by
        rw [hB]
        omega
      rw [List.drop_append_eq_append_drop, List.drop_of_length_le hBl, hB, List.nil_append]
    rw [h1, htake, hdrop]
    exact ⟨ar', rfl, hw', hc'⟩

theorem loadChunks_spec (chunks : List (List Nat)) :
    ∀ {ar : BinaryInputArchive} (rest : List Nat), ar.wellFormed →
      ar.contents = chunks.flatten ++ rest →
      ∃ ar', ar.loadChunks (chunks.map List.length) = (.ok chunks, ar') ∧
        ar'.wellFormed ∧ ar'.contents = rest := by
  induction chunks with
  | nil =>
    intro ar rest hwf hc
    exact ⟨ar, rfl, hwf, by simpa using hc⟩
  | cons c cs ih =>
    intro ar rest hwf hc
    simp only [List.flatten_cons, List.append_assoc] at hc
    obtain ⟨ar1, h1, hw1, hc1⟩ := loadBinary_spec hwf c.length
      (by rw [hc, List.length_append]; omega)
    rw [hc, List.take_left' rfl] at h1
    rw [hc, List.drop_left' rfl] at hc1
    obtain ⟨ar2, h2, hw2, hc2⟩ := ih rest hw1 hc1
    exact ⟨ar2, by simp only [List.map_cons, BinaryInputArchive.loadChunks, h1, h2], hw2, hc2⟩

theorem wellFormed_init_input (stream : List Nat) :
    (BinaryInputArchive.init stream).wellFormed :=
  ⟨by simp [BinaryInputArchive.init], Nat.le_refl _, Nat.zero_le _⟩

/-! ## Round trip through the binary archives (C18) -/

theorem bytes_ofChunks (chunks : List (List Nat)) :
    (SaveOp.ofChunks chunks).bytes = chunks.flatten ∧
    (SaveOp.ofChunks chunks).raises = false := by
  induction chunks with
  | nil => exact ⟨rfl, rfl⟩
  | cons c cs ih =>
    simp only [SaveOp.ofChunks, SaveOp.bytes, SaveOp.raises, List.flatten_cons, ih.1, ih.2,
      Bool.or_self, and_self]

/-- Claim C18: for every sequence of chunks, of any sizes, and every stream
that takes their bytes: a top-level call that passes the chunks to
`BinaryOutputArchive::saveBinary` one after the other, and flushes at its end,
returns normally and leaves in the stream the bytes of the chunks in order;
reading chunks of the same sizes with `BinaryInputArchive::loadBinary` from
that stream returns the chunks, unchanged and in order, and leaves nothing to
read. -/
theorem binary_archive_roundtrip (chunks : List (List Nat)) (room : Nat)
    (hroom : chunks.flatten.length ≤ room) :
    ∃ ar' iar',
      (BinaryOutputArchive.init { written := [], room := room }).process
        (SaveOp.ofChunks chunks).run = (.ok (), ar') ∧
      ar'.itsStream.written = chunks.flatten ∧
      ar'.bufferEnd = 0 ∧
      (BinaryInputArchive.init ar'.itsStream.written).loadChunks (chunks.map List.length)
        = (.ok chunks, iar') ∧
      iar'.contents = [] := by
  obtain ⟨hb, hr⟩ := bytes_ofChunks chunks
  obtain ⟨ar', h1, _⟩ :=
    process_of_room (SaveOp.ofChunks chunks) 0
      (wellFormed_init_output { written := [], room := room }) rfl hr
      (by rw [hb]; simpa [BinaryOutputArchive.init] using hroom)
  obtain ⟨_, _, hb1, hw1⟩ :=
    process_ok (SaveOp.ofChunks chunks)
      (wellFormed_init_output { written := [], room := room }) rfl h1
  have hw : ar'.itsStream.written = chunks.flatten := by
    rw [hw1, hb]
    simp [BinaryOutputArchive.contents, BinaryOutputArchive.init]
  obtain ⟨iar', h2, _, hc2⟩ :=
    @loadChunks_spec chunks (BinaryInputArchive.init ar'.itsStream.written) []
      (wellFormed_init_input _)
      (by simp [BinaryInputArchive.contents, BinaryInputArchive.init, hw])
  exact ⟨ar', iar', h1, hw, hb1, h2, hc2⟩

/-- Claim C18 at a concrete input: chunks of 3 bytes, of 1024 bytes (the quarter
of the buffer), of 1025 bytes, of 4096 bytes (the buffer) and of 5000 bytes. -/
theorem binary_archive_roundtrip_witness :
    ∃ ar' iar',
      (BinaryOutputArchive.init { written := [], room := 20000 }).process
        (SaveOp.ofChunks [[1, 2, 3], List.replicate 1024 4, List.replicate 1025 5,
          List.replicate 4096 6, List.replicate 5000 7]).run = (.ok (), ar') ∧
      ar'.itsStream.written = List.flatten [[1, 2, 3], List.replicate 1024 4,
          List.replicate 1025 5, List.replicate 4096 6, List.replicate 5000 7] ∧
      ar'.bufferEnd = 0 ∧
      (BinaryInputArchive.init ar'.itsStream.written).loadChunks
          (List.map List.length [[1, 2, 3], List.replicate 1024 4, List.replicate 1025 5,
            List.replicate 4096 6, List.replicate 5000 7])
        = (.ok [[1, 2, 3], List.replicate 1024 4, List.replicate 1025 5,
            List.replicate 4096 6, List.replicate 5000 7], iar') ∧
      iar'.contents = [] :=
  binary_archive_roundtrip [[1, 2, 3], List.replicate 1024 4, List.replicate 1025 5,
    List.replicate 4096 6, List.replicate 5000 7] 20000
    (by
      simp only [List.flatten_cons, List.flatten_nil, List.length_append,
        List.length_replicate, List.length_cons, List.length_nil]
      omega)

/-! ## Stored paths after registrations (C24, C25, C26) -/

/-- Claim C24, the code at the failing input: the relations `1 -> 2`, `2 -> 3`
and `1 -> 3` are registered on the empty registry, each with the caster bound to
its pair. After the first two calls every stored path is a chain; the third
call pushes the caster of `(1, 3)` behind the composed path stored for the
pair, and the path `[12, 23, 13]` stored for `(1, 3)` is not a chain: the caster
`13` follows a caster whose derived type is 3, not 1. -/
theorem stored_path_not_a_chain :
    ∃ R2 R3 : PolymorphicCasters Nat,
      registerRelations (PolymorphicCasters.empty) [(1, 2, 12), (2, 3, 23)] = some R2 ∧
      R2.lookup 1 3 = some [12, 23] ∧
      validChain pairBase pairDerived 1 3 [12, 23] = true ∧
      registerRelations (PolymorphicCasters.empty) [(1, 2, 12), (2, 3, 23), (1, 3, 13)]
        = some R3 ∧
      R3.lookup 1 3 = some [12, 23, 13] ∧
      validChain pairBase pairDerived 1 3 [12, 23, 13] = false :=
  ⟨_, _, rfl, rfl, rfl, rfl, rfl, rfl⟩

/-- Claim C25, the code at the failing input: the chains `1 -> 2 -> 3 -> 4` and
`5 -> 6 -> 7 -> 4` are registered, so the pair `(1, 4)` has a stored path of 3
links. Registering `1 -> 5` compares `1 +` the length of the path `1 -> 5` (2)
with 3 and overwrites the path of `(1, 4)` with the composed path
`[15, 56, 67, 74]` of 4 links: the known path has become longer. -/
theorem registration_lengthens_path :
    ∃ R0 R1 : PolymorphicCasters Nat,
      registerRelations (PolymorphicCasters.empty)
        [(1, 2, 12), (2, 3, 23), (3, 4, 34), (5, 6, 56), (6, 7, 67), (7, 4, 74)] = some R0 ∧
      R0.lookup 1 4 = some [12, 23, 34] ∧
      R0.lookup 5 4 = some [56, 67, 74] ∧
      register_virtual_caster R0 1 5 15 = some R1 ∧
      R1.lookup 1 5 = some [15] ∧
      R1.lookup 1 4 = some [15, 56, 67, 74] :=
  ⟨_, _, rfl, rfl, rfl, rfl, rfl, rfl⟩

/-- Claim C26, the code at the failing input: the chains `1 -> 2 -> 3 -> 4` and
`5 -> 6 -> 4` are registered, so the pair `(1, 4)` has the stored path
`[12, 23, 34]` of 3 links. Registering `1 -> 5` overwrites it with the composed
path `[15, 56, 64]`: a different path of the same length 3. -/
theorem registration_replaces_equal_length_path :
    ∃ R0 R1 : PolymorphicCasters Nat,
      registerRelations (PolymorphicCasters.empty)
        [(1, 2, 12), (2, 3, 23), (3, 4, 34), (5, 6, 56), (6, 4, 64)] = some R0 ∧
      R0.lookup 1 4 = some [12, 23, 34] ∧
      register_virtual_caster R0 1 5 15 = some R1 ∧
      R1.lookup 1 4 = some [15, 56, 64] ∧
      ([15, 56, 64] : List Nat).length = ([12, 23, 34] : List Nat).length ∧
      R1.lookup 1 4 ≠ R0.lookup 1 4 :=
  ⟨_, _, rfl, rfl, rfl, rfl, rfl, by decide⟩

/-! ## The metadata of a polymorphic pointer (C22) -/

/-- Claim C22: `writeMetadata` asks the archive for the polymorphic id of the
binding name and appends to the stream the four bytes of the id, followed by
the name string if and only if bit 31 of the id is set; when bit 31 is clear
the four bytes of the id are all it writes. This holds whatever the member
`registerPolymorphicType` of the archive returns and does to the archive, and
`writeMetadata` is the instance at the member of the archive used here. -/
theorem writeMetadata_spec (register : OutputArchive → String → Nat × OutputArchive)
    (saveString : String → List Nat) (name : String) (ar : OutputArchive) :
    (writeMetadataWith register saveString name ar).stream =
      (register ar name).2.stream ++ encodeU32 (register ar name).1 ++
        (if hasMsb (register ar name).1 then saveString name else []) ∧
    (hasMsb (register ar name).1 = false →
      (writeMetadataWith register saveString name ar).stream =
        (register ar name).2.stream ++ encodeU32 (register ar name).1) ∧
    (hasMsb (register ar name).1 = true →
      (writeMetadataWith register saveString name ar).stream =
        (register ar name).2.stream ++ encodeU32 (register ar name).1 ++ saveString name) ∧
    (writeMetadataWith register saveString name ar).storage = (register ar name).2.storage ∧
    (writeMetadataWith register saveString name ar).types = (register ar name).2.types ∧
    writeMetadata saveString name ar =
      writeMetadataWith OutputArchive.registerPolymorphicType saveString name ar ∧
    (ar.registerPolymorphicType name).2.stream = ar.stream := by
  have hreg : (ar.registerPolymorphicType name).2.stream = ar.stream := by
    unfold OutputArchive.registerPolymorphicType
    cases mapFind ar.types.itsPolymorphicTypeMap name <;> rfl
  refine ⟨?_, ?_, ?_, ?_, ?_, rfl, hreg⟩
  · unfold writeMetadataWith
    cases h : hasMsb (register ar name).1 <;>
      simp [h, OutputArchive.saveU32, OutputArchive.saveBinary]
  · intro h
    unfold writeMetadataWith
    simp [h, OutputArchive.saveU32, OutputArchive.saveBinary]
  · intro h
    unfold writeMetadataWith
    simp [h, OutputArchive.saveU32, OutputArchive.saveBinary]
  · unfold writeMetadataWith
    cases h : hasMsb (register ar name).1 <;>
      simp [h, OutputArchive.saveU32, OutputArchive.saveBinary]
  · unfold writeMetadataWith
    cases h : hasMsb (register ar name).1 <;>
      simp [h, OutputArchive.saveU32, OutputArchive.saveBinary]

/-! ## The order of the links in a cast (C27) -/

/-- Claim C27: when the path `[c1, ..., cn]` is stored for the pair, `downcast`
returns `cn.downcast (... (c1.downcast p))` (the links first to last, a left
fold), and both overloads of `upcast` return `c1.upcast (... (cn.upcast p))`
(the links last to first, a right fold); the raw-pointer overload and the
shared-pointer overload go through the same links in the same order and return
the same address. None of them raises. -/
theorem cast_link_order {κ : Type} (deref : κ → PolymorphicCaster)
    (name : TypeKey → String) (R : PolymorphicCasters κ) (base derived : TypeKey)
    (path : List κ) (h : R.lookup base derived = some path) (p : Addr) :
    (R.downcast deref name derived p base).1 =
      .ok (path.foldl (fun q c => (deref c).downcast q) p) ∧
    (R.upcast deref name derived p base).1 =
      .ok (path.foldr (fun c q => (deref c).upcast q) p) ∧
    (R.upcastShared deref name derived p base).1 =
      .ok (path.foldr (fun c q => (deref c).upcastShared q) p) ∧
    (R.upcastShared deref name derived p base).1 = (R.upcast deref name derived p base).1 ∧
    (∀ c1 c2 c3, path = [c1, c2, c3] →
      (R.downcast deref name derived p base).1 =
        .ok ((deref c3).downcast ((deref c2).downcast ((deref c1).downcast p))) ∧
      (R.upcast deref name derived p base).1 =
        .ok ((deref c1).upcast ((deref c2).upcast ((deref c3).upcast p)))) := by
  have hd : (R.downcast deref name derived p base).1 =
      .ok (path.foldl (fun q c => (deref c).downcast q) p) := by
    simp only [PolymorphicCasters.downcast, h]
  have hu : (R.upcast deref name derived p base).1 =
      .ok (path.foldr (fun c q => (deref c).upcast q) p) := by
    simp only [PolymorphicCasters.upcast, h, List.foldl_reverse]
  have hs : (R.upcastShared deref name derived p base).1 =
      .ok (path.foldr (fun c q => (deref c).upcastShared q) p) := by
    simp only [PolymorphicCasters.upcastShared, h, List.foldl_reverse]
  refine ⟨hd, hu, hs, ?_, ?_⟩
  · rw [hs, hu]
    rfl
  · intro c1 c2 c3 hp
    subst hp
    exact ⟨hd, hu⟩

/-- Claim C27 at a concrete input: the path `[10, 20]` of `chainRegistry` for
the pair `(1, 3)`, with casters that move an address by 8 and by 16 bytes. -/
theorem cast_link_order_witness :
    (chainRegistry.downcast chainCasters (fun _ => "") 3 1000 1).1 =
      .ok ((chainCasters 20).downcast ((chainCasters 10).downcast 1000)) ∧
    (chainRegistry.upcast chainCasters (fun _ => "") 3 1024 1).1 =
      .ok ((chainCasters 10).upcast ((chainCasters 20).upcast 1024)) :=
  ⟨(cast_link_order chainCasters (fun _ => "") chainRegistry 1 3 [10, 20] rfl 1000).1,
    (cast_link_order chainCasters (fun _ => "") chainRegistry 1 3 [10, 20] rfl 1024).2.1⟩

/-! ## The handle stored for an ordinal (C28) -/

theorem mapFind_registerAll_other (regs : List (Nat × Addr)) (k : Nat) :
    ∀ s : InputSharedPointerStorage, (∀ r ∈ regs, stripMsb r.1 ≠ k) →
      mapFind (s.registerAll regs).itsSharedPointerMap k = mapFind s.itsSharedPointerMap k := by
  induction regs with
  | nil =>
    intro s _
    rfl
  | cons r rest ih =>
    intro s h
    obtain ⟨i, p⟩ := r
    simp only [InputSharedPointerStorage.registerAll]
    rw [ih _ (fun r hr => h r (List.mem_cons_of_mem _ hr)),
      find_registered_ne s i p (h (i, p) (List.mem_cons_self _ _))]

/-- Claim C28 as amended: in one input table, once the handle `h` is stored
for the non-zero ordinal `k`, `getSharedPointer k` returns `h`; a call of
`getSharedPointer`, with any id, leaves the table as it was; a registration
whose id has another ordinal leaves the handle stored for `k` as it was, and so
does every sequence of such registrations, after which `getSharedPointer k`
still returns `h`. A registration whose id has the ordinal `k` (a second
first-occurrence record) replaces the handle. -/
theorem handle_for_ordinal_kept (s : InputSharedPointerStorage) (k : Nat) (h : Addr)
    (hk : k ≠ 0) (hfind : mapFind s.itsSharedPointerMap k = some h) :
    (s.getSharedPointer k).1 = .ok h ∧
    (∀ id, (s.getSharedPointer id).2 = s) ∧
    (∀ id p, stripMsb id ≠ k →
      ((s.registerSharedPointer id p).getSharedPointer k).1 = .ok h) ∧
    (∀ regs : List (Nat × Addr), (∀ r ∈ regs, stripMsb r.1 ≠ k) →
      ((s.registerAll regs).getSharedPointer k).1 = .ok h) ∧
    (∀ id p, stripMsb id = k →
      ((s.registerSharedPointer id p).getSharedPointer k).1 = .ok p) := by
  have hget : ∀ (t : InputSharedPointerStorage) (q : Addr),
      mapFind t.itsSharedPointerMap k = some q → (t.getSharedPointer k).1 = .ok q := by
    intro t q hq
    simp [InputSharedPointerStorage.getSharedPointer, hk, hq]
  refine ⟨hget s h hfind, ?_, ?_, ?_, ?_⟩
  · intro id
    unfold InputSharedPointerStorage.getSharedPointer
    by_cases h0 : id = 0
    · simp [h0]
    · cases hf : mapFind s.itsSharedPointerMap id <;> simp [h0, hf]
  · intro id p hne
    exact hget _ h (by rw [find_registered_ne s id p hne, hfind])
  · intro regs hregs
    exact hget _ h (by rw [mapFind_registerAll_other regs k s hregs, hfind])
  · intro id p he
    exact hget _ p (by rw [← he]; exact find_registered s id p)

/-- Claim C28 at a concrete input: the handle 5 is stored for the ordinal 1;
registrations under the ordinals 2 and 3 keep it. -/
theorem handle_for_ordinal_kept_witness :
    ((InputSharedPointerStorage.registerAll { itsSharedPointerMap := [(1, 5)] }
        [(0x80000002, 6), (0x80000003, 7)]).getSharedPointer 1).1 = .ok 5 :=
  (handle_for_ordinal_kept { itsSharedPointerMap := [(1, 5)] } 1 5 (by decide) rfl).2.2.2.1
    [(0x80000002, 6), (0x80000003, 7)] (by decide)

/-- Claim C28 as stated fails for a second first-occurrence record: the stream
holds two records with the id `0x80000001` (bodies 7 and 8) and then a
reference to the ordinal 1. The first record stores the handle 1 for the
ordinal 1; the second one allocates the object 2 and stores it under the same
ordinal, replacing the handle; the reference then resolves to the handle 2. -/
theorem second_first_occurrence_replaces_handle :
    load_shared_ptrs (load_shared_ptr (0 : Fin 256) (loadLeaf loadByte)) 1
        (InputArchive.init (encodeU32 0x80000001 ++ [7]))
      = .ok ([1],
          { stream := [], storage := { itsSharedPointerMap := [(1, 1)] },
            itsPolymorphicTypeMap := [],
            heap := [{ object := some 7, valid := true }] }) ∧
    load_shared_ptrs (load_shared_ptr (0 : Fin 256) (loadLeaf loadByte)) 3
        (InputArchive.init
          (encodeU32 0x80000001 ++ [7] ++ (encodeU32 0x80000001 ++ [8]) ++ encodeU32 1))
      = .ok ([1, 2, 2],
          { stream := [], storage := { itsSharedPointerMap := [(1, 2)] },
            itsPolymorphicTypeMap := [],
            heap := [{ object := some 7, valid := true },
                     { object := some 8, valid := true }] }) :=
  ⟨rfl, rfl⟩

/-! ## The flag of `construct<T>` (C21) -/

/-- Claim C21: on a `construct<T>` whose flag is set, `operator()` raises the
exception of the library and changes nothing, whatever the constructor would do
(so a second call after one that returned always raises); on one whose flag is
unset, a constructor that returns makes `operator()` return with the object
constructed and the flag set, and a constructor that throws makes it pass the
exception on with the flag still unset and nothing constructed. Hence, for a
constructor that returns, `operator()` raises if and only if the flag is set.
`operator->` and `ptr()` raise if and only if the flag is unset, and return the
object otherwise; neither changes the flag. A fresh `construct<T>` has the flag
unset. -/
theorem construct_flag_lifecycle {β : Type} (c : Construct β) (restore : β → β) :
    (c.itsValid = true → ∀ ctor,
      c.call ctor restore =
        (.error ⟨"Attempting to construct an already initialized object"⟩, c)) ∧
    (c.itsValid = false → ∀ b,
      c.call (.ok b) restore = (.ok (), { object := some (restore b), itsValid := true })) ∧
    (c.itsValid = false → ∀ e, c.call (.error e) restore = (.error e, c)) ∧
    (∀ b, (∃ e, (c.call (.ok b) restore).1 = .error e) ↔ c.itsValid = true) ∧
    (∀ b ctor, c.itsValid = false →
      ((c.call (.ok b) restore).2.call ctor restore).1 =
        .error ⟨"Attempting to construct an already initialized object"⟩) ∧
    ((∃ e, c.arrow.1 = .error e) ↔ c.itsValid = false) ∧
    (c.itsValid = false →
      c.arrow = (.error ⟨"Object must be initialized prior to accessing members"⟩, c)) ∧
    (c.itsValid = true → c.arrow = (.ok c.object, c)) ∧
    c.ptr = c.arrow ∧
    (Construct.init : Construct β).itsValid = false := by
  refine ⟨?_, ?_, ?_, ?_, ?_, ?_, ?_, ?_, rfl, rfl⟩
  · intro h ctor
    simp [Construct.call, h]
  · intro h b
    simp [Construct.call, h]
  · intro h e
    simp [Construct.call, h]
  · intro b
    cases h : c.itsValid <;> simp [Construct.call, h]
  · intro b ctor h
    simp [Construct.call, h]
  · cases h : c.itsValid <;> simp [Construct.arrow, h]
  · intro h
    simp [Construct.arrow, h]
  · intro h
    simp [Construct.arrow, h]

/-- Claim C21 at a concrete input: a fresh `construct<T>`; access before the
construction raises, the construction with the value 7 returns, access then
gives the object, and a second construction raises. -/
theorem construct_flag_lifecycle_witness :
    (Construct.init : Construct Nat).arrow.1 =
      .error ⟨"Object must be initialized prior to accessing members"⟩ ∧
    (Construct.init : Construct Nat).call (.ok 7) id =
      (.ok (), { object := some 7, itsValid := true }) ∧
    (({ object := some 7, itsValid := true } : Construct Nat).arrow).1 = .ok (some 7) ∧
    (({ object := some 7, itsValid := true } : Construct Nat).call (.ok 8) id).1 =
      .error ⟨"Attempting to construct an already initialized object"⟩ :=
  ⟨congrArg Prod.fst
      ((construct_flag_lifecycle (Construct.init : Construct Nat) id).2.2.2.2.2.2.1 rfl),
    (construct_flag_lifecycle (Construct.init : Construct Nat) id).2.1 rfl 7,
    congrArg Prod.fst
      ((construct_flag_lifecycle ({ object := some 7, itsValid := true } : Construct Nat)
        id).2.2.2.2.2.2.2.1 rfl),
    congrArg Prod.fst
      ((construct_flag_lifecycle ({ object := some 7, itsValid := true } : Construct Nat)
        id).1 rfl (.ok 8))⟩

/-! ## Bitsets in the packed form (C30) -/

theorem saveBits_group (b0 b1 b2 b3 b4 b5 b6 b7 : Bool) (rest : List Bool)
    (ar : OutputArchive) :
    saveBits (b0 :: b1 :: b2 :: b3 :: b4 :: b5 :: b6 :: b7 :: rest) 0 0x80 ar =
      saveBits rest 0 0x80
        { ar with stream := ar.stream ++ [packChunk 0 [b0, b1, b2, b3, b4, b5, b6, b7]] } := by
  cases b0 <;> cases b1 <;> cases b2 <;> cases b3 <;> cases b4 <;> cases b5 <;>
    cases b6 <;> cases b7 <;> rfl

theorem packBits_group (b0 b1 b2 b3 b4 b5 b6 b7 : Bool) (rest : List Bool) :
    packBits (b0 :: b1 :: b2 :: b3 :: b4 :: b5 :: b6 :: b7 :: rest) =
      packChunk 0 [b0, b1, b2, b3, b4, b5, b6, b7] :: packBits rest := by
  rw [packBits]

/-- The save loop started on a fresh chunk appends the packed form of the bits
to the stream and changes nothing else. -/
theorem saveBits_eq : ∀ (bits : List Bool) (ar : OutputArchive),
    saveBits bits 0 0x80 ar = { ar with stream := ar.stream ++ packBits bits }
  | b0 :: b1 :: b2 :: b3 :: b4 :: b5 :: b6 :: b7 :: rest, ar => by
    rw [saveBits_group, saveBits_eq rest, packBits_group]
    simp
  | [], ar => by simp [saveBits, packBits]
  | [a0], ar => by cases a0 <;> rfl
  | [a0, a1], ar => by cases a0 <;> cases a1 <;> rfl
  | [a0, a1, a2], ar => by cases a0 <;> cases a1 <;> cases a2 <;> rfl
  | [a0, a1, a2, a3], ar => by cases a0 <;> cases a1 <;> cases a2 <;> cases a3 <;> rfl
  | [a0, a1, a2, a3, a4], ar => by
    cases a0 <;> cases a1 <;> cases a2 <;> cases a3 <;> cases a4 <;> rfl
  | [a0, a1, a2, a3, a4, a5], ar => by
    cases a0 <;> cases a1 <;> cases a2 <;> cases a3 <;> cases a4 <;> cases a5 <;> rfl
  | [a0, a1, a2, a3, a4, a5, a6], ar => by
    cases a0 <;> cases a1 <;> cases a2 <;> cases a3 <;> cases a4 <;> cases a5 <;>
      cases a6 <;> rfl

theorem loadBits_fetch {β : Type} (m chunk B : Nat) (s : List Nat)
    (st : InputSharedPointerStorage) (tm : List (Nat × String)) (hp : List (Cell β)) :
    loadBits (m + 1) chunk 0
        { stream := B :: s, storage := st, itsPolymorphicTypeMap := tm, heap := hp }
      = loadBits (m + 1) (B % 256) 0x80
          { stream := s, storage := st, itsPolymorphicTypeMap := tm, heap := hp } := by
  simp [loadBits, loadU8_cons]

/-- Within one chunk: `k` bits are taken from the chunk `c`, starting at the
mask `0x80 >> j`, without reading the stream. -/
theorem loadBits_within {β : Type} (n c : Nat) (k : Nat) :
    ∀ (j : Nat), j + k ≤ 8 → ∀ ar : InputArchive β,
      loadBits (n + k) c (0x80 >>> j) ar =
        match loadBits n c ((0x80 >>> (j + k)) % 256) ar with
        | .error e => .error e
        | .ok (r, ar2) => .ok (((unpackChunk c).drop j).take k ++ r, ar2) := by
  induction k with
  | zero =>
    intro j hj ar
    have hj8 : j ≤ 8 := by omega
    have hm : (0x80 >>> j) % 256 = 0x80 >>> j := by
      interval_cases j <;> rfl
    simp only [Nat.add_zero, hm, List.take_zero, List.nil_append]
    cases loadBits n c (0x80 >>> j) ar with
    | error e => rfl
    | ok r => rfl
  | succ k ih =>
    intro j hj ar
    have hj7 : j ≤ 7 := by omega
    have hne : ¬ ((0x80 >>> j) = 0) := by
      interval_cases j <;> decide
    have hnext : ((0x80 >>> j) >>> 1) % 256 = 0x80 >>> (j + 1) := by
      interval_cases j <;> rfl
    have hbit : ((unpackChunk c).drop j).take (k + 1) =
        (c &&& (0x80 >>> j) != 0) :: ((unpackChunk c).drop (j + 1)).take k := by
      interval_cases j <;> simp [unpackChunk]
    show loadBits ((n + k) + 1) c (0x80 >>> j) ar = _
    simp only [loadBits, hne, if_false, hnext]
    rw [ih (j + 1) (by omega) ar, hbit]
    have hjk : j + 1 + k = j + (k + 1) := by omega
    rw [hjk]
    cases loadBits n c ((0x80 >>> (j + (k + 1))) % 256) ar with
    | error e => rfl
    | ok r => rfl

theorem unpack_packChunk : ∀ g : List Bool, g.length ≤ 8 →
    (unpackChunk (packChunk 0 g % 256)).take g.length = g
  | [], _ => rfl
  | [a0], _ => by cases a0 <;> rfl
  | [a0, a1], _ => by cases a0 <;> cases a1 <;> rfl
  | [a0, a1, a2], _ => by cases a0 <;> cases a1 <;> cases a2 <;> rfl
  | [a0, a1, a2, a3], _ => by cases a0 <;> cases a1 <;> cases a2 <;> cases a3 <;> rfl
  | [a0, a1, a2, a3, a4], _ => by
    cases a0 <;> cases a1 <;> cases a2 <;> cases a3 <;> cases a4 <;> rfl
  | [a0, a1, a2, a3, a4, a5], _ => by
    cases a0 <;> cases a1 <;> cases a2 <;> cases a3 <;> cases a4 <;> cases a5 <;> rfl
  | [a0, a1, a2, a3, a4, a5, a6], _ => by
    cases a0 <;> cases a1 <;> cases a2 <;> cases a3 <;> cases a4 <;> cases a5 <;>
      cases a6 <;> rfl
  | [a0, a1, a2, a3, a4, a5, a6, a7], _ => by
    cases a0 <;> cases a1 <;> cases a2 <;> cases a3 <;> cases a4 <;> cases a5 <;>
      cases a6 <;> cases a7 <;> rfl
  | _ :: _ :: _ :: _ :: _ :: _ :: _ :: _ :: _ :: _, h => by
    simp only [List.length_cons] at h
    omega

/-- Reading the chunk of a group of one to eight bits gives the group back. -/
theorem loadBits_chunk {β : Type} (n chunk : Nat) (g : List Bool) (h1 : 1 ≤ g.length)
    (h8 : g.length ≤ 8) (s : List Nat) (st : InputSharedPointerStorage)
    (tm : List (Nat × String)) (hp : List (Cell β)) :
    loadBits (n + g.length) chunk 0
        { stream := packChunk 0 g :: s, storage := st, itsPolymorphicTypeMap := tm,
          heap := hp }
      = match loadBits n (packChunk 0 g % 256) ((0x80 >>> g.length) % 256)
          { stream := s, storage := st, itsPolymorphicTypeMap := tm, heap := hp } with
        | .error e => .error e
        | .ok (r, ar2) => .ok (g ++ r, ar2) := by
  have hlen : n + g.length = (n + (g.length - 1)) + 1 := by omega
  rw [hlen, loadBits_fetch, ← hlen]
  have hw := loadBits_within (β := β) n (packChunk 0 g % 256) g.length 0 (by omega)
    { stream := s, storage := st, itsPolymorphicTypeMap := tm, heap := hp }
  simp only [Nat.shiftRight_zero, Nat.zero_add, List.drop_zero] at hw
  rw [hw, unpack_packChunk g h8]

theorem loadBits_short {β : Type} (chunk : Nat) (g : List Bool) (h1 : 1 ≤ g.length)
    (h8 : g.length ≤ 8) (s : List Nat) (st : InputSharedPointerStorage)
    (tm : List (Nat × String)) (hp : List (Cell β)) :
    loadBits g.length chunk 0
        { stream := [packChunk 0 g] ++ s, storage := st, itsPolymorphicTypeMap := tm,
          heap := hp }
      = .ok (g, { stream := s, storage := st, itsPolymorphicTypeMap := tm, heap := hp }) := by
  have h := loadBits_chunk 0 chunk g h1 h8 s st tm hp
  rw [Nat.zero_add] at h
  rw [List.singleton_append, h]
  simp [loadBits]

/-- The load loop started without a chunk reads the packed form of the bits
from the stream and gives the bits back. -/
theorem loadBits_packBits {β : Type} : ∀ (bits : List Bool) (chunk : Nat) (s : List Nat)
    (st : InputSharedPointerStorage) (tm : List (Nat × String)) (hp : List (Cell β)),
    loadBits bits.length chunk 0
        { stream := packBits bits ++ s, storage := st, itsPolymorphicTypeMap := tm,
          heap := hp }
      = .ok (bits, { stream := s, storage := st, itsPolymorphicTypeMap := tm, heap := hp })
  | b0 :: b1 :: b2 :: b3 :: b4 :: b5 :: b6 :: b7 :: rest, chunk, s, st, tm, hp => by
    have hl : (b0 :: b1 :: b2 :: b3 :: b4 :: b5 :: b6 :: b7 :: rest).length =
        rest.length + [b0, b1, b2, b3, b4, b5, b6, b7].length := rfl
    rw [packBits_group, List.cons_append, hl,
      loadBits_chunk rest.length chunk [b0, b1, b2, b3, b4, b5, b6, b7] (by simp)
        (by simp)]
    have hm : (0x80 >>> [b0, b1, b2, b3, b4, b5, b6, b7].length) % 256 = 0 := by simp
    rw [hm, loadBits_packBits rest]
    rfl
  | [], _, _, _, _, _ => rfl
  | [a0], chunk, s, st, tm, hp =>
    loadBits_short chunk [a0] (by simp) (by simp) s st tm hp
  | [a0, a1], chunk, s, st, tm, hp =>
    loadBits_short chunk [a0, a1] (by simp) (by simp) s st tm hp
  | [a0, a1, a2], chunk, s, st, tm, hp =>
    loadBits_short chunk [a0, a1, a2] (by simp) (by simp) s st tm hp
  | [a0, a1, a2, a3], chunk, s, st, tm, hp =>
    loadBits_short chunk [a0, a1, a2, a3] (by simp) (by simp) s st tm hp
  | [a0, a1, a2, a3, a4], chunk, s, st, tm, hp =>
    loadBits_short chunk [a0, a1, a2, a3, a4] (by simp) (by simp) s st tm hp
  | [a0, a1, a2, a3, a4, a5], chunk, s, st, tm, hp =>
    loadBits_short chunk [a0, a1, a2, a3, a4, a5] (by simp) (by simp) s st tm hp
  | [a0, a1, a2, a3, a4, a5, a6], chunk, s, st, tm, hp =>
    loadBits_short chunk [a0, a1, a2, a3, a4, a5, a6] (by simp) (by simp) s st tm hp

theorem packChunk_bit : ∀ g : List Bool, g.length ≤ 8 → ∀ i, i < 8 →
    (packChunk 0 g &&& (0x80 >>> i) != 0) = g.getD i false ∧ packChunk 0 g < 256
  | [], _, i, hi => by interval_cases i <;> exact ⟨rfl, by decide⟩
  | [a0], _, i, hi => by
    interval_cases i <;> cases a0 <;> exact ⟨rfl, by decide⟩
  | [a0, a1], _, i, hi => by
    interval_cases i <;> cases a0 <;> cases a1 <;> exact ⟨rfl, by decide⟩
  | [a0, a1, a2], _, i, hi => by
    interval_cases i <;> cases a0 <;> cases a1 <;> cases a2 <;> exact ⟨rfl, by decide⟩
  | [a0, a1, a2, a3], _, i, hi => by
    interval_cases i <;> cases a0 <;> cases a1 <;> cases a2 <;> cases a3 <;>
      exact ⟨rfl, by decide⟩
  | [a0, a1, a2, a3, a4], _, i, hi => by
    interval_cases i <;> cases a0 <;> cases a1 <;> cases a2 <;> cases a3 <;> cases a4 <;>
      exact ⟨rfl, by decide⟩
  | [a0, a1, a2, a3, a4, a5], _, i, hi => by
    interval_cases i <;> cases a0 <;> cases a1 <;> cases a2 <;> cases a3 <;> cases a4 <;>
      cases a5 <;> exact ⟨rfl, by decide⟩
  | [a0, a1, a2, a3, a4, a5, a6], _, i, hi => by
    interval_cases i <;> cases a0 <;> cases a1 <;> cases a2 <;> cases a3 <;> cases a4 <;>
      cases a5 <;> cases a6 <;> exact ⟨rfl, by decide⟩
  | [a0, a1, a2, a3, a4, a5, a6, a7], _, i, hi => by
    interval_cases i <;> cases a0 <;> cases a1 <;> cases a2 <;> cases a3 <;> cases a4 <;>
      cases a5 <;> cases a6 <;> cases a7 <;> exact ⟨rfl, by decide⟩
  | _ :: _ :: _ :: _ :: _ :: _ :: _ :: _ :: _ :: _, h, _, _ => by
    simp only [List.length_cons] at h
    omega

theorem packBits_short (g : List Bool) (h1 : 1 ≤ g.length) (h7 : g.length ≤ 7) :
    packBits g = [packChunk 0 g] := by
  match g, h1, h7 with
  | [a0], _, _ => rfl
  | [a0, a1], _, _ => rfl
  | [a0, a1, a2], _, _ => rfl
  | [a0, a1, a2, a3], _, _ => rfl
  | [a0, a1, a2, a3, a4], _, _ => rfl
  | [a0, a1, a2, a3, a4, a5], _, _ => rfl
  | [a0, a1, a2, a3, a4, a5, a6], _, _ => rfl
  | _ :: _ :: _ :: _ :: _ :: _ :: _ :: _ :: _, _, h =>
    simp only [List.length_cons] at h
    omega

theorem packBits_layout_short (g : List Bool) (h1 : 1 ≤ g.length) (h7 : g.length ≤ 7) :
    (packBits g).length = (g.length + 7) / 8 ∧
    (∀ c ∈ packBits g, c < 256) ∧
    ∀ i, i < 8 * (packBits g).length →
      ((packBits g).getD (i / 8) 0 &&& (0x80 >>> (i % 8)) != 0) = g.getD i false := by
  rw [packBits_short g h1 h7]
  refine ⟨?_, ?_, ?_⟩
  · simp only [List.length_singleton]
    omega
  · intro c hc
    rw [List.mem_singleton.1 hc]
    exact (packChunk_bit g (by omega) 0 (by decide)).2
  · intro i hi
    have h8 : i < 8 := by simpa using hi
    rw [Nat.div_eq_of_lt h8, Nat.mod_eq_of_lt h8, List.getD_cons_zero]
    exact (packChunk_bit g (by omega) i h8).1

/-- The packed form has one chunk for every eight bits, rounded up; each chunk
is one byte; and the bit `i` is found at the mask `0x80 >> (i mod 8)` of the
chunk `i div 8`, the positions behind the last bit holding zero. -/
theorem packBits_layout : ∀ bits : List Bool,
    (packBits bits).length = (bits.length + 7) / 8 ∧
    (∀ c ∈ packBits bits, c < 256) ∧
    ∀ i, i < 8 * (packBits bits).length →
      ((packBits bits).getD (i / 8) 0 &&& (0x80 >>> (i % 8)) != 0) = bits.getD i false
  | b0 :: b1 :: b2 :: b3 :: b4 :: b5 :: b6 :: b7 :: rest => by
    obtain ⟨ihl, ihc, ihb⟩ := packBits_layout rest
    rw [packBits_group]
    refine ⟨?_, ?_, ?_⟩
    · simp only [List.length_cons, ihl]
      omega
    · intro c hc
      rcases List.mem_cons.1 hc with hc | hc
      · rw [hc]
        exact (packChunk_bit [b0, b1, b2, b3, b4, b5, b6, b7] (by simp) 0 (by decide)).2
      · exact ihc c hc
    · intro i hi
      by_cases h8 : i < 8
      · have hd : i / 8 = 0 := Nat.div_eq_of_lt h8
        have hm : i % 8 = i := Nat.mod_eq_of_lt h8
        rw [hd, hm, List.getD_cons_zero,
          (packChunk_bit [b0, b1, b2, b3, b4, b5, b6, b7] (by simp) i h8).1]
        interval_cases i <;> rfl
      · obtain ⟨j, rfl⟩ : ∃ j, i = j + 8 := ⟨i - 8, by omega⟩
        have hd : (j + 8) / 8 = j / 8 + 1 := Nat.add_div_right j (by decide)
        have hm : (j + 8) % 8 = j % 8 := Nat.add_mod_right j 8
        simp only [List.length_cons] at hi
        rw [hd, hm, List.getD_cons_succ, ihb j (by omega)]
        rfl
  | [] => by
    refine ⟨rfl, ?_, ?_⟩
    · intro c hc
      simp [packBits] at hc
    · intro i hi
      simp [packBits] at hi
  | [a0] => packBits_layout_short [a0] (by simp) (by simp)
  | [a0, a1] => packBits_layout_short [a0, a1] (by simp) (by simp)
  | [a0, a1, a2] => packBits_layout_short [a0, a1, a2] (by simp) (by simp)
  | [a0, a1, a2, a3] => packBits_layout_short [a0, a1, a2, a3] (by simp) (by simp)
  | [a0, a1, a2, a3, a4] => packBits_layout_short [a0, a1, a2, a3, a4] (by simp) (by simp)
  | [a0, a1, a2, a3, a4, a5] =>
    packBits_layout_short [a0, a1, a2, a3, a4, a5] (by simp) (by simp)
  | [a0, a1, a2, a3, a4, a5, a6] =>
    packBits_layout_short [a0, a1, a2, a3, a4, a5, a6] (by simp) (by simp)

/-- Claim C30: for every bitset `bits` of `N` bits, the save overload for
archives with binary data appends to the stream the tag `bits` (the byte 3)
followed by the packed form of the bits and nothing else; the packed form has
`ceil (N / 8)` chunks of one byte each, the bit `i` stored at the mask
`0x80 >> (i mod 8)` of the chunk `i div 8` and the positions of the last chunk
behind bit `N - 1` zero; loading `N` bits from what the save wrote to a fresh
archive consumes the stream and gives `bits` back; and a load whose tag is none
of 0, 1, 2, 3 raises the exception `Invalid bitset data representation`. -/
theorem bitset_roundtrip {β : Type} (bits : List Bool)
    (loadOther : Nat → InputArchive β → Except Exception (List Bool × InputArchive β)) :
    (∀ ar : OutputArchive,
      save_bitset ar bits = { ar with stream := ar.stream ++ 3 :: packBits bits }) ∧
    (packBits bits).length = (bits.length + 7) / 8 ∧
    (∀ c ∈ packBits bits, c < 256) ∧
    (∀ i, i < bits.length →
      ((packBits bits).getD (i / 8) 0 &&& (0x80 >>> (i % 8)) != 0) = bits.getD i false) ∧
    (∀ i, bits.length ≤ i → i < 8 * (packBits bits).length →
      (packBits bits).getD (i / 8) 0 &&& (0x80 >>> (i % 8)) = 0) ∧
    load_bitset bits.length loadOther
        (InputArchive.init (save_bitset OutputArchive.init bits).stream)
      = .ok (bits, InputArchive.init []) ∧
    (∀ (N t : Nat) (rest : List Nat) (st : InputSharedPointerStorage)
        (tm : List (Nat × String)) (hp : List (Cell β)), 4 ≤ t % 256 →
      load_bitset N loadOther
          { stream := t :: rest, storage := st, itsPolymorphicTypeMap := tm, heap := hp }
        = .error ⟨"Invalid bitset data representation"⟩) := by
  obtain ⟨hl, hc, hb⟩ := packBits_layout bits
  have hsave : ∀ ar : OutputArchive,
      save_bitset ar bits = { ar with stream := ar.stream ++ 3 :: packBits bits } := by
    intro ar
    unfold save_bitset
    rw [saveBits_eq]
    simp [OutputArchive.saveU8, OutputArchive.saveBinary]
  refine ⟨hsave, hl, hc, ?_, ?_, ?_, ?_⟩
  · intro i hi
    exact hb i (by rw [hl]; omega)
  · intro i hi hi8
    have h := hb i hi8
    rw [List.getD_eq_default _ _ hi] at h
    simpa using h
  · rw [hsave]
    simp only [OutputArchive.init, List.nil_append, InputArchive.init]
    unfold load_bitset
    rw [loadU8_cons]
    have h3 : ¬ ((3 % 256 = 0) ∨ (3 % 256 = 1) ∨ (3 % 256 = 2)) := by decide
    simp only [h3, if_false]
    have h := loadBits_packBits (β := β) bits 0 [] InputSharedPointerStorage.init [] []
    rw [List.append_nil] at h
    simpa using h
  · intro N t rest st tm hp ht
    unfold load_bitset
    rw [loadU8_cons]
    have h1 : ¬ ((t % 256 = 0) ∨ (t % 256 = 1) ∨ (t % 256 = 2)) := by omega
    have h2 : ¬ (t % 256 = 3) := by omega
    simp only [h1, h2, if_false]

/-! ## The main loop of `register_virtual_caster` -/

theorem foldl_invariant {α β : Type} (P : β → Prop) (f : β → α → β) (l : List α) :
    ∀ init : β, P init → (∀ b a, a ∈ l → P b → P (f b a)) → P (l.foldl f init) := by
  induction l with
  | nil =>
    intro init h0 _
    exact h0
  | cons a rest ih =>
    intro init h0 hstep
    exact ih (f init a) (hstep init a (List.mem_cons_self _ _) h0)
      (fun b x hx hb => hstep b x (List.mem_cons_of_mem _ hx) hb)

theorem mem_emplaceHint {κ : Type} (rel : List (Relation κ)) (hint : Option Nat)
    (e x : Relation κ) : x ∈ emplaceHint rel hint e ↔ x = e ∨ x ∈ rel := by
  cases hint with
  | none => simp [emplaceHint]
  | some i =>
    simp only [emplaceHint, List.mem_append, List.mem_cons]
    constructor
    · rintro (h | h | h)
      · exact Or.inr (List.mem_of_mem_take h)
      · exact Or.inl h
      · exact Or.inr (List.mem_of_mem_drop h)
    · rintro (h | h)
      · exact Or.inr (Or.inl h)
      · rw [← List.take_append_drop (i + 1) rel, List.mem_append] at h
        rcases h with h | h
        · exact Or.inl h
        · exact Or.inr (Or.inr h)

/-- What one `finalChildPair` does to the uncommitted relations: the entries
are kept, and at most one entry is added, for the pair of `parent` and
`finalChild`. -/
theorem finalChildStep_mem {κ : Type} (baseMap : List (TypeKey × DerivedCasterMap κ))
    (parent child : TypeKey) (pcp : Nat × List κ) (rel : List (Relation κ))
    (finalChild : TypeKey) :
    (∀ x, x ∈ rel → x ∈ finalChildStep baseMap parent child pcp rel finalChild) ∧
    (∀ x, x ∈ finalChildStep baseMap parent child pcp rel finalChild →
      x ∈ rel ∨ (x.1 = parent ∧ x.2.1 = finalChild ∧
        (1 + pcp.1) % 2 ^ 64 < (checkRelation baseMap parent finalChild).1)) := by
  unfold finalChildStep
  simp only
  by_cases hlt : (1 + pcp.1) % 2 ^ 64 < (checkRelation baseMap parent finalChild).1
  · simp only [hlt, if_true]
    cases hu : (findHint rel parent finalChild).bind (fun i => rel.get? i) with
    | none =>
      simp only
      constructor
      · intro x hx
        exact (mem_emplaceHint _ _ _ _).2 (Or.inr hx)
      · intro x hx
        rcases (mem_emplaceHint _ _ _ _).1 hx with h | h
        · exact Or.inr ⟨by rw [h], by rw [h], trivial⟩
        · exact Or.inl h
    | some old =>
      simp only
      by_cases hle : old.2.2.length ≤ (1 + pcp.1) % 2 ^ 64
      · simp only [hle, if_true]
        exact ⟨fun x hx => hx, fun x hx => Or.inl hx⟩
      · simp only [hle, if_false]
        constructor
        · intro x hx
          exact (mem_emplaceHint _ _ _ _).2 (Or.inr hx)
        · intro x hx
          rcases (mem_emplaceHint _ _ _ _).1 hx with h | h
          · exact Or.inr ⟨by rw [h], by rw [h], trivial⟩
          · exact Or.inl h
  · simp only [hlt, if_false]
    exact ⟨fun x hx => hx, fun x hx => Or.inl hx⟩

theorem foldl_reaches {α β : Type} (P : β → Prop) (f : β → α → β) (l : List α) (a : α)
    (ha : a ∈ l) (hmono : ∀ b x, P b → P (f b x)) (hat : ∀ b, P (f b a)) :
    ∀ init : β, P (l.foldl f init) := by
  induction l with
  | nil => simp at ha
  | cons y rest ih =>
    intro init
    rcases List.mem_cons.1 ha with h | h
    · subst h
      exact foldl_invariant P f rest (f init a) (hat init) (fun b x _ hb => hmono b x hb)
    · exact ih h (f init y)

theorem findHint_some {κ : Type} {rel : List (Relation κ)} {parent finalChild : TypeKey}
    {old : Relation κ}
    (h : (findHint rel parent finalChild).bind (fun i => rel.get? i) = some old) :
    old ∈ rel ∧ old.1 = parent ∧ old.2.1 = finalChild := by
  unfold findHint at h
  cases hi : rel.findIdx? (fun e => e.1 == parent && e.2.1 == finalChild) with
  | none => simp [hi] at h
  | some i =>
    rw [hi] at h
    simp only [Option.bind_some, List.get?_eq_getElem?] at h
    obtain ⟨hlt, hp, _⟩ := List.findIdx?_eq_some_iff_getElem.1 hi
    obtain ⟨hlt2, he⟩ := List.getElem?_eq_some.1 h
    subst he
    simp only [Bool.and_eq_true, beq_iff_eq] at hp
    exact ⟨List.getElem_mem _, hp.1, hp.2⟩

/-- When the new length is below the stored one, the uncommitted relations
hold an entry for the pair of `parent` and `finalChild` afterwards. -/
theorem finalChildStep_complete {κ : Type} (baseMap : List (TypeKey × DerivedCasterMap κ))
    (parent child : TypeKey) (pcp : Nat × List κ) (rel : List (Relation κ))
    (finalChild : TypeKey)
    (hlt : (1 + pcp.1) % 2 ^ 64 < (checkRelation baseMap parent finalChild).1) :
    ∃ path, (parent, (finalChild, path)) ∈
      finalChildStep baseMap parent child pcp rel finalChild := by
  unfold finalChildStep
  simp only [hlt, if_true]
  cases hu : (findHint rel parent finalChild).bind (fun i => rel.get? i) with
  | none => exact ⟨_, (mem_emplaceHint _ _ _ _).2 (Or.inl rfl)⟩
  | some old =>
    simp only
    by_cases hle : old.2.2.length ≤ (1 + pcp.1) % 2 ^ 64
    · simp only [hle, if_true]
      obtain ⟨hm, h1, h2⟩ := findHint_some hu
      refine ⟨old.2.2, ?_⟩
      have : (parent, (finalChild, old.2.2)) = old := by
        rw [← h1, ← h2]
      rw [this]
      exact hm
    · simp only [hle, if_false]
      exact ⟨_, (mem_emplaceHint _ _ _ _).2 (Or.inl rfl)⟩

/-- What one `childPair` does to the uncommitted relations. -/
theorem childStep_mem {κ : Type} (baseMap : List (TypeKey × DerivedCasterMap κ))
    (dirtySet : List TypeKey) (parent : TypeKey) (rel : List (Relation κ))
    (child : TypeKey) :
    (∀ x, x ∈ rel → x ∈ childStep baseMap dirtySet parent rel child) ∧
    (∀ x, x ∈ childStep baseMap dirtySet parent rel child →
      x ∈ rel ∨ (x.1 = parent ∧ isDirty dirtySet child = true ∧
        ∃ dm, mapFind baseMap child = some dm ∧ x.2.1 ∈ dm.map Prod.fst)) ∧
    (isDirty dirtySet child = true → ∀ dm, mapFind baseMap child = some dm →
      ∀ f ∈ dm.map Prod.fst,
        (1 + (checkRelation baseMap parent child).1) % 2 ^ 64 <
          (checkRelation baseMap parent f).1 →
        ∃ path, (parent, (f, path)) ∈ childStep baseMap dirtySet parent rel child) := by
  unfold childStep
  by_cases hd : isDirty dirtySet child = true
  · cases hm : mapFind baseMap child with
    | none =>
      simp only [hd, hm, Option.isSome_none, Bool.and_false, Bool.false_eq_true, if_false]
      refine ⟨fun x hx => hx, fun x hx => Or.inl hx, ?_⟩
      intro _ dm hdm
      cases hdm
    | some dm0 =>
      simp only [hd, hm, Option.isSome_some, Bool.and_self, if_true, Option.getD_some]
      refine ⟨?_, ?_, ?_⟩
      · intro x hx
        exact foldl_invariant (fun r => x ∈ r) _ dm0 rel hx
          (fun b a _ hb => (finalChildStep_mem baseMap parent child _ b a.1).1 x hb)
      · intro x hx
        exact foldl_invariant
          (fun r => x ∈ r → x ∈ rel ∨ (x.1 = parent ∧ True ∧
            ∃ dm, some dm0 = some dm ∧ x.2.1 ∈ dm.map Prod.fst)) _ dm0 rel
          (fun h => Or.inl h)
          (fun b a ha hb hxb => by
            rcases (finalChildStep_mem baseMap parent child _ b a.1).2 x hxb with h | h
            · exact hb h
            · exact Or.inr ⟨h.1, trivial, dm0, rfl, by
                rw [h.2.1]
                exact List.mem_map.2 ⟨a, ha, rfl⟩⟩) hx
      · intro _ dm hdm f hf hlt
        cases hdm
        obtain ⟨a, ha, hfa⟩ := List.mem_map.1 hf
        subst hfa
        exact foldl_reaches (fun r => ∃ path, (parent, (a.1, path)) ∈ r) _ dm0 a ha
          (fun b x hb => by
            obtain ⟨path, hp⟩ := hb
            exact ⟨path, (finalChildStep_mem baseMap parent child _ b x.1).1 _ hp⟩)
          (fun b => finalChildStep_complete baseMap parent child _ b a.1 hlt) rel
  · simp only [hd, Bool.false_and, Bool.false_eq_true, if_false]
    refine ⟨fun x hx => hx, fun x hx => Or.inl hx, ?_⟩
    intro h
    exact h.elim

theorem commitRelations_reverseMap {κ : Type} (rel : List (Relation κ)) :
    ∀ R : PolymorphicCasters κ,
      (commitRelations R rel).reverseMap = R.reverseMap ++ rel.map (fun e => (e.2.1, e.1)) := by
  induction rel with
  | nil =>
    intro R
    simp [commitRelations]
  | cons e rest ih =>
    intro R
    obtain ⟨p, f, path⟩ := e
    simp only [commitRelations, ih, List.map_cons, List.append_assoc, List.singleton_append]

/-- The uncommitted relations of one iteration all have the popped parent as
their key. -/
theorem unregistered_keys {κ : Type} (baseMap : List (TypeKey × DerivedCasterMap κ))
    (dirtySet : List TypeKey) (parent : TypeKey) (children : DerivedCasterMap κ) :
    ∀ x ∈ children.foldl (fun r childPair => childStep baseMap dirtySet parent r childPair.1)
      ([] : List (Relation κ)), x.1 = parent := by
  apply foldl_invariant (fun r : List (Relation κ) => ∀ x ∈ r, x.1 = parent)
  · intro x hx
    simp at hx
  · intro b a _ hb x hx
    rcases (childStep_mem baseMap dirtySet parent b a.1).2.1 x hx with h | h
    · exact hb x h
    · exact h.1

/-- The shape of the result of `pushParents`: the keys pushed are distinct,
were not marked processed, and every parent is marked processed afterwards. -/
theorem pushParents_shape (parents : List TypeKey) :
    ∀ stack processed : List TypeKey,
      ∃ new : List TypeKey,
        pushParents parents stack processed = (new.reverse ++ stack, processed ++ new) ∧
        new.Nodup ∧ (∀ x ∈ new, x ∈ parents ∧ x ∉ processed) ∧
        (∀ x ∈ parents, x ∈ processed ∨ x ∈ new) := by
  induction parents with
  | nil =>
    intro stack processed
    exact ⟨[], by simp [pushParents], List.nodup_nil, by simp, by simp⟩
  | cons p ps ih =>
    intro stack processed
    by_cases hc : processed.contains p = true
    · obtain ⟨new, h1, h2, h3, h4⟩ := ih stack processed
      refine ⟨new, ?_, h2, ?_, ?_⟩
      · have : pushParents (p :: ps) stack processed = pushParents ps stack processed := by
          simp only [pushParents, List.foldl_cons, hc, if_true]
        rw [this, h1]
      · intro x hx
        exact ⟨List.mem_cons_of_mem _ (h3 x hx).1, (h3 x hx).2⟩
      · intro x hx
        rcases List.mem_cons.1 hx with h | h
        · subst h
          exact Or.inl (by simpa using hc)
        · exact h4 x h
    · obtain ⟨new, h1, h2, h3, h4⟩ := ih (p :: stack) (processed ++ [p])
      have hp : p ∉ processed := by simpa using hc
      refine ⟨p :: new, ?_, ?_, ?_, ?_⟩
      · have : pushParents (p :: ps) stack processed =
            pushParents ps (p :: stack) (processed ++ [p]) := by
          simp only [pushParents, List.foldl_cons, hc, Bool.false_eq_true, if_false]
        rw [this, h1]
        simp
      · refine List.nodup_cons.2 ⟨?_, h2⟩
        intro hx
        exact (h3 p hx).2 (by simp)
      · intro x hx
        rcases List.mem_cons.1 hx with h | h
        · subst h
          exact ⟨List.mem_cons_self _ _, hp⟩
        · refine ⟨List.mem_cons_of_mem _ (h3 x h).1, ?_⟩
          intro hxp
          exact (h3 x h).2 (List.mem_append_left _ hxp)
      · intro x hx
        rcases List.mem_cons.1 hx with h | h
        · subst h
          exact Or.inr (List.mem_cons_self _ _)
        · rcases h4 x h with h | h
          · rcases List.mem_append.1 h with h | h
            · exact Or.inl h
            · exact Or.inr (by
                rw [List.mem_singleton.1 h]
                exact List.mem_cons_self _ _)
          · exact Or.inr (List.mem_cons_of_mem _ h)

/-- The reverse map after one iteration: the entries it had, followed by one
entry for each committed relation, all with the popped parent as base. -/
theorem loopBody_reverseMap {κ : Type} (st : CasterLoop κ) (parent : TypeKey)
    (stack : List TypeKey) :
    ∃ added : List (TypeKey × TypeKey),
      (loopBody st parent stack).registry.reverseMap = st.registry.reverseMap ++ added ∧
      ∀ e ∈ added, e.2 = parent := by
  refine ⟨_, commitRelations_reverseMap _ _, ?_⟩
  intro e he
  obtain ⟨x, hx, hxe⟩ := List.mem_map.1 he
  rw [← hxe]
  exact unregistered_keys _ _ _ _ x hx

/-- The stack and the processed parents after one iteration. -/
theorem loopBody_stack {κ : Type} (st : CasterLoop κ) (parent : TypeKey)
    (stack : List TypeKey) :
    ∃ new : List TypeKey,
      (loopBody st parent stack).parentStack = new.reverse ++ stack ∧
      (loopBody st parent stack).processedParents = st.processedParents ++ new ∧
      new.Nodup ∧
      (∀ x ∈ new, x ∉ st.processedParents ∧
        (parent, x) ∈ (loopBody st parent stack).registry.reverseMap) ∧
      (∀ x, (parent, x) ∈ (loopBody st parent stack).registry.reverseMap →
        x ∈ st.processedParents ∨ x ∈ new) := by
  obtain ⟨new, h1, h2, h3, h4⟩ :=
    pushParents_shape
      (((loopBody st parent stack).registry.reverseMap.filter
        (fun e => e.1 == parent)).map (fun e => e.2)) stack st.processedParents
  have hmem : ∀ x, x ∈ (((loopBody st parent stack).registry.reverseMap.filter
        (fun e => e.1 == parent)).map (fun e => e.2)) ↔
      (parent, x) ∈ (loopBody st parent stack).registry.reverseMap := by
    intro x
    simp only [List.mem_map, List.mem_filter, beq_iff_eq]
    constructor
    · rintro ⟨e, ⟨he, hk⟩, hx⟩
      have : e = (parent, x) := by
        rw [← hk, ← hx]
      rw [← this]
      exact he
    · intro h
      exact ⟨(parent, x), ⟨h, rfl⟩, rfl⟩
  refine ⟨new, ?_, ?_, h2, ?_, ?_⟩
  · exact congrArg Prod.fst h1
  · exact congrArg Prod.snd h1
  · intro x hx
    exact ⟨(h3 x hx).2, (hmem x).1 (h3 x hx).1⟩
  · intro x hx
    exact h4 x ((hmem x).2 hx)

/-- The main loop finishes within `fuel` iterations when `fuel` covers the
stack and the keys of `V` not yet marked processed, where `V` holds the bases
of the reverse relations. -/
theorem casterLoop_terminates {κ : Type} (V : List TypeKey) :
    ∀ (fuel : Nat) (st : CasterLoop κ),
      st.processedParents.Nodup → (∀ x ∈ st.processedParents, x ∈ V) →
      (∀ e ∈ st.registry.reverseMap, e.2 ∈ V) → (∀ x ∈ st.parentStack, x ∈ V) →
      st.parentStack.length + V.dedup.length ≤ fuel + st.processedParents.length →
      ∃ R', casterLoop fuel st = some R' := by
  intro fuel
  induction fuel with
  | zero =>
    intro st hnd hsub _ _ hm
    have hle : st.processedParents.length ≤ V.dedup.length :=
      (List.subperm_of_subset hnd (fun x hx => List.mem_dedup.2 (hsub x hx))).length_le
    cases hs : st.parentStack with
    | nil => exact ⟨st.registry, by unfold casterLoop; simp [hs]⟩
    | cons p rest =>
      rw [hs] at hm
      simp only [List.length_cons] at hm
      omega
  | succ fuel ih =>
    intro st hnd hsub hrev hstack hm
    cases hs : st.parentStack with
    | nil => exact ⟨st.registry, by unfold casterLoop; simp [hs]⟩
    | cons p rest =>
      rw [hs] at hm hstack
      obtain ⟨new, h1, h2, h3, h4, _⟩ := loopBody_stack st p rest
      obtain ⟨added, ha1, ha2⟩ := loopBody_reverseMap st p rest
      have hpV : p ∈ V := hstack p (List.mem_cons_self _ _)
      have hrev' : ∀ e ∈ (loopBody st p rest).registry.reverseMap, e.2 ∈ V := by
        intro e he
        rw [ha1] at he
        rcases List.mem_append.1 he with h | h
        · exact hrev e h
        · rw [ha2 e h]
          exact hpV
      have hnewV : ∀ x ∈ new, x ∈ V := fun x hx => hrev' (p, x) (h4 x hx).2
      obtain ⟨R', hR⟩ := ih (loopBody st p rest)
        (by
          rw [h2]
          exact List.Nodup.append hnd h3 (fun x hx hx' => (h4 x hx').1 hx))
        (by
          intro x hx
          rw [h2] at hx
          rcases List.mem_append.1 hx with h | h
          · exact hsub x h
          · exact hnewV x h)
        hrev'
        (by
          intro x hx
          rw [h1] at hx
          rcases List.mem_append.1 hx with h | h
          · exact hnewV x (List.mem_reverse.1 h)
          · exact hstack x (List.mem_cons_of_mem _ h))
        (by
          rw [h1, h2]
          simp only [List.length_append, List.length_reverse, List.length_cons] at hm ⊢
          omega)
      refine ⟨R', ?_⟩
      unfold casterLoop
      simp only [hs]
      exact hR

theorem casterLoop_mono {κ : Type} :
    ∀ (fuel : Nat) (st : CasterLoop κ) (R' : PolymorphicCasters κ),
      casterLoop fuel st = some R' → ∀ k,
        casterLoop (fuel + k) st = some R' ∧
        casterLoopParents (fuel + k) st = casterLoopParents fuel st := by
  intro fuel
  induction fuel with
  | zero =>
    intro st R' h k
    cases hs : st.parentStack with
    | nil =>
      unfold casterLoop casterLoopParents at *
      simp only [hs] at h ⊢
      exact ⟨h, trivial⟩
    | cons p rest =>
      unfold casterLoop at h
      simp [hs] at h
  | succ fuel ih =>
    intro st R' h k
    cases hs : st.parentStack with
    | nil =>
      unfold casterLoop casterLoopParents at *
      simp only [hs] at h ⊢
      exact ⟨h, trivial⟩
    | cons p rest =>
      have hk : fuel + 1 + k = (fuel + k) + 1 := by omega
      rw [hk]
      unfold casterLoop at h
      simp only [hs] at h
      obtain ⟨h1, h2⟩ := ih (loopBody st p rest) R' h k
      constructor
      · unfold casterLoop
        simp only [hs]
        exact h1
      · unfold casterLoopParents
        simp only [hs, h2]

theorem casterLoopParents_length {κ : Type} :
    ∀ (fuel : Nat) (st : CasterLoop κ), (casterLoopParents fuel st).length ≤ fuel := by
  intro fuel
  induction fuel with
  | zero =>
    intro st
    unfold casterLoopParents
    cases st.parentStack <;> simp
  | succ fuel ih =>
    intro st
    unfold casterLoopParents
    cases hs : st.parentStack with
    | nil => simp
    | cons p rest =>
      simp only [List.length_cons]
      exact Nat.succ_le_succ (ih _)

/-- Once every key on the stack is marked processed, the loop pops distinct
keys: a key is pushed only when it is not marked, and is marked when pushed. -/
theorem casterLoopParents_nodup {κ : Type} :
    ∀ (fuel : Nat) (st : CasterLoop κ),
      st.parentStack.Nodup → (∀ x ∈ st.parentStack, x ∈ st.processedParents) →
      st.processedParents.Nodup →
      (casterLoopParents fuel st).Nodup ∧
      ∀ x ∈ casterLoopParents fuel st, x ∈ st.parentStack ∨ x ∉ st.processedParents := by
  intro fuel
  induction fuel with
  | zero =>
    intro st _ _ _
    unfold casterLoopParents
    cases st.parentStack <;> simp
  | succ fuel ih =>
    intro st hsn hsp hpn
    unfold casterLoopParents
    cases hs : st.parentStack with
    | nil => simp
    | cons p rest =>
      rw [hs] at hsn hsp
      obtain ⟨new, h1, h2, h3, h4, _⟩ := loopBody_stack st p rest
      have hpr : p ∉ rest := (List.nodup_cons.1 hsn).1
      have hpp : p ∈ st.processedParents := hsp p (List.mem_cons_self _ _)
      obtain ⟨ihn, ihm⟩ := ih (loopBody st p rest)
        (by
          rw [h1]
          refine List.Nodup.append (List.nodup_reverse.2 h3) (List.nodup_cons.1 hsn).2 ?_
          intro x hx hx'
          exact (h4 x (List.mem_reverse.1 hx)).1 (hsp x (List.mem_cons_of_mem _ hx')))
        (by
          intro x hx
          rw [h1] at hx
          rw [h2]
          rcases List.mem_append.1 hx with h | h
          · exact List.mem_append_right _ (List.mem_reverse.1 h)
          · exact List.mem_append_left _ (hsp x (List.mem_cons_of_mem _ h)))
        (by
          rw [h2]
          exact List.Nodup.append hpn h3 (fun x hx hx' => (h4 x hx').1 hx))
      simp only
      constructor
      · refine List.nodup_cons.2 ⟨?_, ihn⟩
        intro hp
        rcases ihm p hp with h | h
        · rw [h1] at h
          rcases List.mem_append.1 h with h | h
          · exact (h4 p (List.mem_reverse.1 h)).1 hpp
          · exact hpr h
        · exact h (by rw [h2]; exact List.mem_append_left _ hpp)
      · intro x hx
        rcases List.mem_cons.1 hx with h | h
        · exact Or.inl (by rw [h]; exact List.mem_cons_self _ _)
        · rcases ihm x h with h' | h'
          · rw [h1] at h'
            rcases List.mem_append.1 h' with h' | h'
            · exact Or.inr (h4 x (List.mem_reverse.1 h')).1
            · exact Or.inl (List.mem_cons_of_mem _ h')
          · exact Or.inr (fun hx' => h' (by rw [h2]; exact List.mem_append_left _ hx'))

/-- The bases of the reverse relations are among the type keys. -/
theorem reverse_bases_typeKeys {κ : Type} (R : PolymorphicCasters κ) :
    (R.reverseMap.map Prod.snd).dedup.length ≤ R.typeKeys.length := by
  refine (List.subperm_of_subset (List.nodup_dedup _) ?_).length_le
  intro x hx
  unfold PolymorphicCasters.typeKeys
  refine List.mem_dedup.2 ?_
  simp only [List.append_assoc]
  exact List.mem_append_left _ (List.mem_dedup.1 hx)

/-- The main loop of a call finishes within `fuel` iterations when `fuel`
exceeds the number of distinct bases of reverse relations. -/
theorem casterLoopStart_terminates {κ : Type} (R : PolymorphicCasters κ)
    (baseKey derivedKey : TypeKey) (caster : κ) (fuel : Nat)
    (h : ((insertDirect R baseKey derivedKey caster).reverseMap.map Prod.snd).dedup.length + 1
      ≤ fuel) :
    ∃ R', casterLoop fuel (casterLoopStart R baseKey derivedKey caster) = some R' := by
  have hb : baseKey ∈ (insertDirect R baseKey derivedKey caster).reverseMap.map Prod.snd := by
    unfold insertDirect
    simp
  refine casterLoop_terminates
    ((insertDirect R baseKey derivedKey caster).reverseMap.map Prod.snd) fuel
    (casterLoopStart R baseKey derivedKey caster) ?_ ?_ ?_ ?_ ?_
  · simp [casterLoopStart]
  · simp [casterLoopStart]
  · intro e he
    exact List.mem_map.2 ⟨e, he, rfl⟩
  · intro x hx
    simp only [casterLoopStart, List.mem_singleton] at hx
    rw [hx]
    exact hb
  · simp only [casterLoopStart, List.length_singleton, List.length_nil]
    omega

/-- The call `register_virtual_caster` returns a registry. -/
theorem register_virtual_caster_returns {κ : Type} (R : PolymorphicCasters κ)
    (baseKey derivedKey : TypeKey) (caster : κ) :
    ∃ R', register_virtual_caster R baseKey derivedKey caster = some R' := by
  refine casterLoopStart_terminates R baseKey derivedKey caster (R.reverseMap.length + 2) ?_
  have h := List.Sublist.length_le
    (List.dedup_sublist ((insertDirect R baseKey derivedKey caster).reverseMap.map Prod.snd))
  have h2 : ((insertDirect R baseKey derivedKey caster).reverseMap.map Prod.snd).length =
      R.reverseMap.length + 1 := by
    unfold insertDirect
    simp
  omega

/-- [C29] The function `register_virtual_caster` terminates for every registry
and every pair of keys, a self-relation and cyclic graphs included: it returns
a registry `R'`, and any bound on the iterations of the main loop above the
number of distinct type keys (of the registry after the direct insertion) gives
the same `R'`. The parents popped from the stack are the initial base followed
by distinct keys, so every key is pushed at most once, the initial base at most
twice, and the loop runs at most (number of distinct type keys + 1)
iterations. -/
theorem register_virtual_caster_terminates {κ : Type} (R : PolymorphicCasters κ)
    (baseKey derivedKey : TypeKey) (caster : κ) :
    ∃ (R' : PolymorphicCasters κ) (rest : List TypeKey),
      register_virtual_caster R baseKey derivedKey caster = some R' ∧
      (∀ fuel, (insertDirect R baseKey derivedKey caster).typeKeys.length + 1 ≤ fuel →
        register_virtual_caster_fuel fuel R baseKey derivedKey caster = some R' ∧
        casterLoopParents fuel (casterLoopStart R baseKey derivedKey caster) =
          baseKey :: rest) ∧
      rest.Nodup ∧
      (baseKey :: rest).length ≤ (insertDirect R baseKey derivedKey caster).typeKeys.length + 1 := by
  have hN := reverse_bases_typeKeys (insertDirect R baseKey derivedKey caster)
  obtain ⟨R1, h1⟩ := casterLoopStart_terminates R baseKey derivedKey caster
    ((insertDirect R baseKey derivedKey caster).typeKeys.length + 1) (by omega)
  obtain ⟨R2, h2⟩ := register_virtual_caster_returns R baseKey derivedKey caster
  have h2' : casterLoop (R.reverseMap.length + 2)
      (casterLoopStart R baseKey derivedKey caster) = some R2 := h2
  have e1 := (casterLoop_mono _ _ _ h1 (R.reverseMap.length + 2)).1
  have e2 := (casterLoop_mono _ _ _ h2' ((insertDirect R baseKey derivedKey caster).typeKeys.length + 1)).1
  have hcomm : (insertDirect R baseKey derivedKey caster).typeKeys.length + 1 +
      (R.reverseMap.length + 2) = R.reverseMap.length + 2 +
      ((insertDirect R baseKey derivedKey caster).typeKeys.length + 1) := by omega
  rw [hcomm, e2] at e1
  have hR : R2 = R1 := Option.some.inj e1
  have hpar : casterLoopParents ((insertDirect R baseKey derivedKey caster).typeKeys.length + 1)
      (casterLoopStart R baseKey derivedKey caster) =
      baseKey :: casterLoopParents (insertDirect R baseKey derivedKey caster).typeKeys.length
        (loopBody (casterLoopStart R baseKey derivedKey caster) baseKey []) := by
    rw [casterLoopParents]
    rfl
  obtain ⟨new, s1, s2, s3, s4, _⟩ :=
    loopBody_stack (casterLoopStart R baseKey derivedKey caster) baseKey []
  have hp0 : (casterLoopStart R baseKey derivedKey caster).processedParents = [] := rfl
  rw [hp0] at s2
  simp only [List.append_nil, List.nil_append] at s1 s2
  refine ⟨R1, casterLoopParents (insertDirect R baseKey derivedKey caster).typeKeys.length
    (loopBody (casterLoopStart R baseKey derivedKey caster) baseKey []), ?_, ?_, ?_, ?_⟩
  · rw [h2, hR]
  · intro fuel hf
    obtain ⟨k, hk⟩ := Nat.exists_eq_add_of_le hf
    have hm := casterLoop_mono _ _ _ h1 k
    rw [← hk] at hm
    exact ⟨hm.1, by rw [hm.2, hpar]⟩
  · refine (casterLoopParents_nodup _ _ ?_ ?_ ?_).1
    · rw [s1]
      exact List.nodup_reverse.2 s3
    · intro x hx
      rw [s1] at hx
      rw [s2]
      exact List.mem_reverse.1 hx
    · rw [s2]
      exact s3
  · simp only [List.length_cons]
    exact Nat.succ_le_succ (casterLoopParents_length _ _)

/-! ## The relation stored by the registry along a registration -/

theorem lookup_eq_lookupIn {κ : Type} (R : PolymorphicCasters κ) (x y : TypeKey) :
    R.lookup x y = lookupIn R.map x y := by
  unfold PolymorphicCasters.lookup lookupIn
  cases mapFind R.map x with
  | none => rfl
  | some dm =>
    simp only [Option.some_bind]
    cases mapFind dm y <;> rfl

theorem lookupIfExistsIn_eq {κ : Type} (m : List (TypeKey × DerivedCasterMap κ))
    (x y : TypeKey) :
    lookupIfExistsIn m x y =
      match lookupIn m x y with
      | none => (false, [])
      | some path => (true, path) := by
  unfold lookupIfExistsIn lookupIn
  cases mapFind m x with
  | none => rfl
  | some dm =>
    simp only [Option.some_bind]

theorem checkRelation_eq {κ : Type} (m : List (TypeKey × DerivedCasterMap κ))
    (x y : TypeKey) :
    checkRelation m x y =
      match lookupIn m x y with
      | none => (SIZE_MAX, [])
      | some path => (path.length, path) := by
  unfold checkRelation
  rw [lookupIfExistsIn_eq]
  cases lookupIn m x y <;> rfl

theorem lookupIn_mapEmplace_nil {κ : Type} (m : List (TypeKey × DerivedCasterMap κ))
    (p x y : TypeKey) : lookupIn (mapEmplace m p []) x y = lookupIn m x y := by
  unfold lookupIn
  by_cases hx : p = x
  · subst hx
    cases hm : mapFind m p with
    | none =>
      rw [mapFind_mapEmplace_self _ hm]
      rfl
    | some dm =>
      unfold mapEmplace
      simp only [hm]
  · rw [mapFind_mapEmplace_ne _ _ hx]

theorem lookupIn_mapAssign {κ : Type} (m : List (TypeKey × DerivedCasterMap κ))
    (p : TypeKey) (dm : DerivedCasterMap κ) (x y : TypeKey) :
    lookupIn (mapAssign m p dm) x y = if x = p then mapFind dm y else lookupIn m x y := by
  unfold lookupIn
  by_cases hx : x = p
  · subst hx
    rw [mapFind_mapAssign_self]
    simp
  · rw [mapFind_mapAssign_ne _ _ (fun h => hx h.symm)]
    simp [hx]

theorem mapFind_getD_nil {κ : Type} (m : List (TypeKey × DerivedCasterMap κ))
    (p y : TypeKey) : mapFind ((mapFind m p).getD []) y = lookupIn m p y := by
  unfold lookupIn
  cases mapFind m p <;> rfl

theorem mapFind_mapAssign {κ ν : Type} [DecidableEq κ] (m : List (κ × ν)) (k k' : κ) (v : ν) :
    mapFind (mapAssign m k v) k' = if k' = k then some v else mapFind m k' := by
  by_cases h : k' = k
  · subst h
    simp [mapFind_mapAssign_self]
  · rw [mapFind_mapAssign_ne _ _ (fun e => h e.symm)]
    simp [h]

/-- The stored path after the assignment of `path` to the pair `(p, f)`. -/
theorem lookupIn_assign_pair {κ : Type} (m : List (TypeKey × DerivedCasterMap κ))
    (p f : TypeKey) (path : List κ) (x y : TypeKey) :
    lookupIn (mapAssign m p (mapAssign ((mapFind m p).getD []) f path)) x y =
      if x = p ∧ y = f then some path else lookupIn m x y := by
  rw [lookupIn_mapAssign]
  by_cases hx : x = p
  · subst hx
    rw [mapFind_mapAssign, mapFind_getD_nil]
    by_cases hy : y = f <;> simp [hy]
  · simp [hx]

/-- The relation after the commit of the uncommitted relations. -/
theorem commitRelations_lookup {κ : Type} (rel : List (Relation κ)) :
    ∀ (R : PolymorphicCasters κ) (x y : TypeKey),
      lookupIn (commitRelations R rel).map x y ≠ none ↔
        lookupIn R.map x y ≠ none ∨ ∃ path, (x, (y, path)) ∈ rel := by
  induction rel with
  | nil =>
    intro R x y
    simp [commitRelations]
  | cons e rest ih =>
    intro R x y
    obtain ⟨p, f, path⟩ := e
    simp only [commitRelations]
    rw [ih, lookupIn_assign_pair]
    by_cases hxy : x = p ∧ y = f
    · obtain ⟨hx, hy⟩ := hxy
      subst hx hy
      simp
    · simp only [hxy, if_false, List.mem_cons, Prod.mk.injEq]
      constructor
      · rintro (h | ⟨q, hq⟩)
        · exact Or.inl h
        · exact Or.inr ⟨q, Or.inr hq⟩
      · rintro (h | ⟨q, hq | hq⟩)
        · exact Or.inl h
        · exact absurd ⟨hq.1, hq.2.1⟩ hxy
        · exact Or.inr ⟨q, hq⟩

/-- The relation after the direct insertion. -/
theorem insertDirect_lookup {κ : Type} (R : PolymorphicCasters κ) (b d : TypeKey) (c : κ)
    (x y : TypeKey) :
    lookupIn (insertDirect R b d c).map x y ≠ none ↔
      lookupIn R.map x y ≠ none ∨ (x = b ∧ y = d) := by
  unfold insertDirect
  simp only
  rw [lookupIn_mapAssign]
  by_cases hx : x = b
  · subst hx
    simp only [if_true, true_and]
    rw [mapFind_mapAssign]
    by_cases hy : y = d
    · simp [hy]
    · simp only [hy, if_false, or_false]
      rw [mapFind_mapEmplace_ne _ _ (fun e => hy e.symm), mapFind_getD_nil,
        lookupIn_mapEmplace_nil]
  · simp [hx, lookupIn_mapEmplace_nil]

theorem lookupIn_eq_some {κ : Type} {m : List (TypeKey × DerivedCasterMap κ)} {x y : TypeKey}
    {path : List κ} :
    lookupIn m x y = some path ↔ ∃ dm, mapFind m x = some dm ∧ mapFind dm y = some path := by
  unfold lookupIn
  cases mapFind m x with
  | none => simp
  | some dm => simp

theorem lookupIn_ne_none {κ : Type} {m : List (TypeKey × DerivedCasterMap κ)} {x y : TypeKey} :
    lookupIn m x y ≠ none ↔ ∃ dm, mapFind m x = some dm ∧ y ∈ dm.map Prod.fst := by
  constructor
  · intro h
    cases hl : lookupIn m x y with
    | none => exact absurd hl h
    | some path =>
      obtain ⟨dm, h1, h2⟩ := lookupIn_eq_some.1 hl
      exact ⟨dm, h1, List.mem_map.2 ⟨(y, path), mem_of_mapFind h2, rfl⟩⟩
  · rintro ⟨dm, h1, h2⟩ hn
    unfold lookupIn at hn
    rw [h1] at hn
    exact keys_of_mapFind_none hn h2

/-- The uncommitted relations of one iteration join the popped parent, through
a dirty child of it, to a child of that child. -/
theorem unregistered_sound {κ : Type} (baseMap : List (TypeKey × DerivedCasterMap κ))
    (dirtySet : List TypeKey) (parent : TypeKey) (children : DerivedCasterMap κ) :
    ∀ x ∈ children.foldl (fun r childPair => childStep baseMap dirtySet parent r childPair.1)
      ([] : List (Relation κ)),
      x.1 = parent ∧ ∃ c, c ∈ children.map Prod.fst ∧ isDirty dirtySet c = true ∧
        lookupIn baseMap c x.2.1 ≠ none := by
  apply foldl_invariant (fun r : List (Relation κ) => ∀ x ∈ r,
      x.1 = parent ∧ ∃ c, c ∈ children.map Prod.fst ∧ isDirty dirtySet c = true ∧
        lookupIn baseMap c x.2.1 ≠ none)
  · intro x hx
    simp at hx
  · intro b a ha hb x hx
    rcases (childStep_mem baseMap dirtySet parent b a.1).2.1 x hx with h | h
    · exact hb x h
    · obtain ⟨h1, h2, dm, h3, h4⟩ := h
      exact ⟨h1, a.1, List.mem_map.2 ⟨a, ha, rfl⟩, h2, lookupIn_ne_none.2 ⟨dm, h3, h4⟩⟩

/-- Every child of a dirty child of the popped parent gets an uncommitted
relation when the new length is below the stored one. -/
theorem unregistered_complete {κ : Type} (baseMap : List (TypeKey × DerivedCasterMap κ))
    (dirtySet : List TypeKey) (parent : TypeKey) (children : DerivedCasterMap κ)
    (c f : TypeKey) (hc : c ∈ children.map Prod.fst) (hd : isDirty dirtySet c = true)
    (hf : lookupIn baseMap c f ≠ none)
    (hlt : (1 + (checkRelation baseMap parent c).1) % 2 ^ 64 <
      (checkRelation baseMap parent f).1) :
    ∃ path, (parent, (f, path)) ∈
      children.foldl (fun r childPair => childStep baseMap dirtySet parent r childPair.1)
        ([] : List (Relation κ)) := by
  obtain ⟨a, ha, hac⟩ := List.mem_map.1 hc
  obtain ⟨dm, h1, h2⟩ := lookupIn_ne_none.1 hf
  refine foldl_reaches (fun r : List (Relation κ) => ∃ path, (parent, (f, path)) ∈ r)
    _ children a ha ?_ ?_ []
  · rintro b x ⟨path, hp⟩
    exact ⟨path, (childStep_mem baseMap dirtySet parent b x.1).1 _ hp⟩
  · intro b
    rw [hac]
    exact (childStep_mem baseMap dirtySet parent b c).2.2 hd dm h1 f h2 hlt

/-- The relation stored after one iteration of the main loop. -/
theorem loopBody_lookup {κ : Type} (st : CasterLoop κ) (parent : TypeKey)
    (stack : List TypeKey) (x y : TypeKey) :
    lookupIn (loopBody st parent stack).registry.map x y ≠ none ↔
      lookupIn st.registry.map x y ≠ none ∨
      ∃ path, (x, (y, path)) ∈
        ((mapFind (mapEmplace st.registry.map parent []) parent).getD []).foldl
          (fun r childPair =>
            childStep (mapEmplace st.registry.map parent []) st.dirtySet parent r childPair.1)
          ([] : List (Relation κ)) := by
  unfold loopBody
  simp only
  rw [commitRelations_lookup]
  simp only [lookupIn_mapEmplace_nil]

/-- One iteration keeps the stored relations. -/
theorem loopBody_mono {κ : Type} (st : CasterLoop κ) (parent : TypeKey)
    (stack : List TypeKey) (x y : TypeKey)
    (h : lookupIn st.registry.map x y ≠ none) :
    lookupIn (loopBody st parent stack).registry.map x y ≠ none :=
  (loopBody_lookup st parent stack x y).2 (Or.inl h)

/-- A relation that one iteration adds joins the popped parent, through a
child of it, to a child of that child, and has its reverse relation. -/
theorem loopBody_sound {κ : Type} (st : CasterLoop κ) (parent : TypeKey)
    (stack : List TypeKey) (x y : TypeKey)
    (h : lookupIn (loopBody st parent stack).registry.map x y ≠ none) :
    lookupIn st.registry.map x y ≠ none ∨
      (x = parent ∧ (y, x) ∈ (loopBody st parent stack).registry.reverseMap ∧
        ∃ c, lookupIn st.registry.map parent c ≠ none ∧
          lookupIn st.registry.map c y ≠ none) := by
  rcases (loopBody_lookup st parent stack x y).1 h with h | ⟨path, hp⟩
  · exact Or.inl h
  · right
    obtain ⟨h1, c, h2, _, h4⟩ := unregistered_sound _ _ _ _ _ hp
    simp only at h1 h4
    refine ⟨h1, ?_, c, ?_, ?_⟩
    · have hrev : (loopBody st parent stack).registry.reverseMap = _ :=
        commitRelations_reverseMap _ _
      rw [hrev]
      exact List.mem_append_right _ (List.mem_map.2 ⟨_, hp, rfl⟩)
    · rw [← lookupIn_mapEmplace_nil st.registry.map parent parent c]
      refine lookupIn_ne_none.2 ?_
      cases hm : mapFind (mapEmplace st.registry.map parent []) parent with
      | none =>
        rw [hm] at h2
        simp at h2
      | some dm =>
        rw [hm] at h2
        exact ⟨dm, rfl, h2⟩
    · rw [lookupIn_mapEmplace_nil] at h4
      exact h4

/-- One iteration joins the popped parent to every child of each of its dirty
children, when the path to the dirty child leaves room for one more link. -/
theorem loopBody_complete {κ : Type} (st : CasterLoop κ) (parent : TypeKey)
    (stack : List TypeKey) (c f : TypeKey) (pc : List κ)
    (hd : isDirty st.dirtySet c = true)
    (hpc : lookupIn st.registry.map parent c = some pc) (hfit : pc.length < SIZE_MAX - 1)
    (hf : lookupIn st.registry.map c f ≠ none) :
    lookupIn (loopBody st parent stack).registry.map parent f ≠ none := by
  by_cases hpf : lookupIn st.registry.map parent f = none
  · refine (loopBody_lookup st parent stack parent f).2 (Or.inr ?_)
    have hpc' : lookupIn (mapEmplace st.registry.map parent []) parent c = some pc := by
      rw [lookupIn_mapEmplace_nil]
      exact hpc
    obtain ⟨dm, h1, h2⟩ := lookupIn_eq_some.1 hpc'
    refine unregistered_complete _ _ _ _ c f ?_ hd ?_ ?_
    · rw [h1]
      exact List.mem_map.2 ⟨(c, pc), mem_of_mapFind h2, rfl⟩
    · rw [lookupIn_mapEmplace_nil]
      exact hf
    · rw [checkRelation_eq, checkRelation_eq, hpc', lookupIn_mapEmplace_nil, hpf]
      simp only
      have : (1 + pc.length) % 2 ^ 64 = 1 + pc.length := by
        apply Nat.mod_eq_of_lt
        unfold SIZE_MAX at hfit
        omega
      rw [this]
      unfold SIZE_MAX at hfit ⊢
      omega
  · exact loopBody_mono st parent stack parent f hpf

theorem pathsFit_lookup {κ : Type} {R : PolymorphicCasters κ} (h : pathsFit R = true)
    {x y : TypeKey} {path : List κ} (hl : lookupIn R.map x y = some path) :
    path.length < SIZE_MAX - 1 := by
  obtain ⟨dm, h1, h2⟩ := lookupIn_eq_some.1 hl
  unfold pathsFit at h
  have h3 := List.all_eq_true.1 h _ (mem_of_mapFind h1)
  have h4 := List.all_eq_true.1 h3 _ (mem_of_mapFind h2)
  exact of_decide_eq_true h4

theorem isDirty_append {dirtySet : List TypeKey} {c : TypeKey} (p : TypeKey)
    (h : isDirty dirtySet c = true) : isDirty (dirtySet ++ [p]) c = true := by
  unfold isDirty at *
  rw [List.any_append, h]
  rfl

theorem loopBody_dirtySet {κ : Type} (st : CasterLoop κ) (parent : TypeKey)
    (stack : List TypeKey) :
    (loopBody st parent stack).dirtySet = st.dirtySet ++ [parent] := rfl

/-- The main loop keeps the stored relations. -/
theorem casterLoop_keeps {κ : Type} :
    ∀ (fuel : Nat) (st : CasterLoop κ) (R' : PolymorphicCasters κ),
      casterLoop fuel st = some R' →
      ∀ x y, lookupIn st.registry.map x y ≠ none → lookupIn R'.map x y ≠ none := by
  intro fuel
  induction fuel with
  | zero =>
    intro st R' h x y hxy
    unfold casterLoop at h
    cases hs : st.parentStack with
    | nil =>
      simp only [hs] at h
      cases h
      exact hxy
    | cons p rest => simp [hs] at h
  | succ fuel ih =>
    intro st R' h x y hxy
    unfold casterLoop at h
    cases hs : st.parentStack with
    | nil =>
      simp only [hs] at h
      cases h
      exact hxy
    | cons p rest =>
      simp only [hs] at h
      exact ih _ R' h x y (loopBody_mono st p rest x y hxy)

/-- The main loop stays inside every transitive relation that holds the
stored relations at its start. -/
theorem casterLoop_sound {κ : Type} (G : TypeKey → TypeKey → Prop)
    (hG : ∀ x y z, G x y → G y z → G x z) :
    ∀ (fuel : Nat) (st : CasterLoop κ) (R' : PolymorphicCasters κ),
      casterLoop fuel st = some R' →
      (∀ x y, lookupIn st.registry.map x y ≠ none → G x y) →
      ∀ x y, lookupIn R'.map x y ≠ none → G x y := by
  intro fuel
  induction fuel with
  | zero =>
    intro st R' h hst x y hxy
    unfold casterLoop at h
    cases hs : st.parentStack with
    | nil =>
      simp only [hs] at h
      cases h
      exact hst x y hxy
    | cons p rest => simp [hs] at h
  | succ fuel ih =>
    intro st R' h hst x y hxy
    unfold casterLoop at h
    cases hs : st.parentStack with
    | nil =>
      simp only [hs] at h
      cases h
      exact hst x y hxy
    | cons p rest =>
      simp only [hs] at h
      refine ih _ R' h ?_ x y hxy
      intro u v huv
      rcases loopBody_sound st p rest u v huv with h1 | ⟨h1, _, c, h2, h3⟩
      · exact hst u v h1
      · rw [h1]
        exact hG _ _ _ (hst _ _ h2) (hst _ _ h3)

/-- The main loop keeps a reverse relation for every stored relation. -/
theorem casterLoop_reverse {κ : Type} :
    ∀ (fuel : Nat) (st : CasterLoop κ) (R' : PolymorphicCasters κ),
      casterLoop fuel st = some R' →
      (∀ x y, lookupIn st.registry.map x y ≠ none → (y, x) ∈ st.registry.reverseMap) →
      ∀ x y, lookupIn R'.map x y ≠ none → (y, x) ∈ R'.reverseMap := by
  intro fuel
  induction fuel with
  | zero =>
    intro st R' h hst x y hxy
    unfold casterLoop at h
    cases hs : st.parentStack with
    | nil =>
      simp only [hs] at h
      cases h
      exact hst x y hxy
    | cons p rest => simp [hs] at h
  | succ fuel ih =>
    intro st R' h hst x y hxy
    unfold casterLoop at h
    cases hs : st.parentStack with
    | nil =>
      simp only [hs] at h
      cases h
      exact hst x y hxy
    | cons p rest =>
      simp only [hs] at h
      refine ih _ R' h ?_ x y hxy
      intro u v huv
      rcases loopBody_sound st p rest u v huv with h1 | ⟨_, h1, _⟩
      · obtain ⟨added, ha, _⟩ := loopBody_reverseMap st p rest
        rw [ha]
        exact List.mem_append_left _ (hst u v h1)
      · exact h1

/-- Once `B` is dirty, every key on the stack that is related to `B` ends up
related to every key that `B` is related to. -/
theorem casterLoop_complete {κ : Type} (B : TypeKey) :
    ∀ (fuel : Nat) (st : CasterLoop κ) (R' : PolymorphicCasters κ),
      casterLoop fuel st = some R' → casterLoopFits fuel st = true →
      isDirty st.dirtySet B = true →
      ∀ x ∈ st.parentStack, lookupIn st.registry.map x B ≠ none →
      ∀ y, lookupIn st.registry.map B y ≠ none → lookupIn R'.map x y ≠ none := by
  intro fuel
  induction fuel with
  | zero =>
    intro st R' h _ _ x hx
    unfold casterLoop at h
    cases hs : st.parentStack with
    | nil =>
      rw [hs] at hx
      simp at hx
    | cons p rest => simp [hs] at h
  | succ fuel ih =>
    intro st R' h hfit hd x hx hxB y hBy
    unfold casterLoop at h
    unfold casterLoopFits at hfit
    cases hs : st.parentStack with
    | nil =>
      rw [hs] at hx
      simp at hx
    | cons p rest =>
      simp only [hs] at h
      simp only [hs, Bool.and_eq_true] at hfit
      rw [hs] at hx
      rcases List.mem_cons.1 hx with hxp | hxr
      · subst hxp
        cases hl : lookupIn st.registry.map x B with
        | none => exact absurd hl hxB
        | some pc =>
          exact casterLoop_keeps _ _ R' h x y
            (loopBody_complete st x rest B y pc hd hl (pathsFit_lookup hfit.1 hl) hBy)
      · obtain ⟨new, h1, _⟩ := loopBody_stack st p rest
        exact ih _ R' h hfit.2 (isDirty_append p hd) x
          (by rw [h1]; exact List.mem_append_right _ hxr)
          (loopBody_mono st p rest x B hxB) y (loopBody_mono st p rest B y hBy)

/-- The relation stored after a call of `register_virtual_caster` on a
registry whose relation is transitive and has all its reverse relations: the
relation before the call, and every pair of a key that is the base or related
to it with a key that is the derived type or that it is related to. -/
theorem register_lookup {κ : Type} (R R' : PolymorphicCasters κ) (b d : TypeKey) (c : κ)
    (hreg : register_virtual_caster R b d c = some R')
    (hfit : casterLoopFits (R.reverseMap.length + 2) (casterLoopStart R b d c) = true)
    (hrev : ∀ x y, lookupIn R.map x y ≠ none → (y, x) ∈ R.reverseMap)
    (htr : ∀ x y z, lookupIn R.map x y ≠ none → lookupIn R.map y z ≠ none →
      lookupIn R.map x z ≠ none) :
    (∀ x y, lookupIn R'.map x y ≠ none ↔
      lookupIn R.map x y ≠ none ∨
        ((x = b ∨ lookupIn R.map x b ≠ none) ∧ (y = d ∨ lookupIn R.map d y ≠ none))) ∧
    (∀ x y, lookupIn R'.map x y ≠ none → (y, x) ∈ R'.reverseMap) := by
  have hloop : casterLoop (R.reverseMap.length + 1)
      (loopBody (casterLoopStart R b d c) b []) = some R' := by
    have h := hreg
    unfold register_virtual_caster register_virtual_caster_fuel at h
    rw [casterLoop] at h
    exact h
  have hloop0 : casterLoop (R.reverseMap.length + 2) (casterLoopStart R b d c) = some R' :=
    hreg
  have hfit0 : pathsFit (insertDirect R b d c) = true ∧
      casterLoopFits (R.reverseMap.length + 1)
        (loopBody (casterLoopStart R b d c) b []) = true := by
    have h := hfit
    rw [casterLoopFits] at h
    simp only [Bool.and_eq_true] at h
    exact h
  have h0 : ∀ x y, lookupIn (casterLoopStart R b d c).registry.map x y ≠ none ↔
      lookupIn R.map x y ≠ none ∨ (x = b ∧ y = d) := insertDirect_lookup R b d c
  have hrev0 : (casterLoopStart R b d c).registry.reverseMap = R.reverseMap ++ [(d, b)] := rfl
  refine ⟨?_, ?_⟩
  · intro x y
    constructor
    · -- soundness
      refine casterLoop_sound
        (fun x y => lookupIn R.map x y ≠ none ∨
          ((x = b ∨ lookupIn R.map x b ≠ none) ∧ (y = d ∨ lookupIn R.map d y ≠ none)))
        ?_ _ _ R' hloop0 ?_ x y
      · intro u v w huv hvw
        rcases huv with huv | ⟨hu, hv⟩
        · rcases hvw with hvw | ⟨hv, hw⟩
          · exact Or.inl (htr _ _ _ huv hvw)
          · refine Or.inr ⟨Or.inr ?_, hw⟩
            rcases hv with hv | hv
            · rw [← hv]
              exact huv
            · exact htr _ _ _ huv hv
        · rcases hvw with hvw | ⟨_, hw⟩
          · refine Or.inr ⟨hu, Or.inr ?_⟩
            rcases hv with hv | hv
            · rw [← hv]
              exact hvw
            · exact htr _ _ _ hv hvw
          · exact Or.inr ⟨hu, hw⟩
      · intro u v huv
        rcases (h0 u v).1 huv with h | ⟨h1, h2⟩
        · exact Or.inl h
        · exact Or.inr ⟨Or.inl h1, Or.inl h2⟩
    · -- completeness
      rintro (h | ⟨hx, hy⟩)
      · exact casterLoop_keeps _ _ R' hloop0 x y ((h0 x y).2 (Or.inl h))
      · have hbd : lookupIn (casterLoopStart R b d c).registry.map b d ≠ none :=
          (h0 b d).2 (Or.inr ⟨rfl, rfl⟩)
        -- after the first iteration the base is related to `y`
        have hby : lookupIn (loopBody (casterLoopStart R b d c) b []).registry.map b y
            ≠ none := by
          rcases hy with hy | hy
          · rw [hy]
            exact loopBody_mono _ b [] b d hbd
          · cases hl : lookupIn (casterLoopStart R b d c).registry.map b d with
            | none => exact absurd hl hbd
            | some pc =>
              refine loopBody_complete _ b [] d y pc ?_ hl (pathsFit_lookup hfit0.1 hl)
                ((h0 d y).2 (Or.inl hy))
              simp [casterLoopStart, isDirty]
        rcases hx with hx | hx
        · rw [hx]
          exact casterLoop_keeps _ _ R' hloop b y hby
        · obtain ⟨new, s1, _, _, _, s5⟩ := loopBody_stack (casterLoopStart R b d c) b []
          obtain ⟨added, ha, _⟩ := loopBody_reverseMap (casterLoopStart R b d c) b []
          have hxs : x ∈ (loopBody (casterLoopStart R b d c) b []).parentStack := by
            rw [s1]
            have hm : (b, x) ∈ (loopBody (casterLoopStart R b d c) b []).registry.reverseMap := by
              rw [ha, hrev0]
              exact List.mem_append_left _ (List.mem_append_left _ (hrev x b hx))
            rcases s5 x hm with h | h
            · simp [casterLoopStart] at h
            · exact List.mem_append_left _ (List.mem_reverse.2 h)
          refine casterLoop_complete b _ _ R' hloop hfit0.2 ?_ x hxs ?_ y hby
          · rw [loopBody_dirtySet]
            simp [casterLoopStart, isDirty]
          · exact loopBody_mono _ b [] x b ((h0 x b).2 (Or.inl hx))
  · refine casterLoop_reverse _ _ R' hloop0 ?_
    intro x y hxy
    rw [hrev0]
    rcases (h0 x y).1 hxy with h | ⟨h1, h2⟩
    · exact List.mem_append_left _ (hrev x y h)
    · rw [h1, h2]
      exact List.mem_append_right _ (List.mem_singleton.2 rfl)

/-- The sequence of registrations stores the transitive closure of what the
registry held before together with the pairs registered directly. -/
theorem registerRelations_closure {κ : Type} :
    ∀ (regs : List (TypeKey × TypeKey × κ)) (R : PolymorphicCasters κ),
      registrationsFit R regs = true →
      (∀ x y, lookupIn R.map x y ≠ none → (y, x) ∈ R.reverseMap) →
      (∀ x y z, lookupIn R.map x y ≠ none → lookupIn R.map y z ≠ none →
        lookupIn R.map x z ≠ none) →
      ∃ R', registerRelations R regs = some R' ∧
        ∀ x y, lookupIn R'.map x y ≠ none ↔
          Relation.TransGen (fun u v => lookupIn R.map u v ≠ none ∨ Direct regs u v) x y := by
  intro regs
  induction regs with
  | nil =>
    intro R _ _ htr
    refine ⟨R, rfl, ?_⟩
    intro x y
    constructor
    · intro h
      exact Relation.TransGen.single (Or.inl h)
    · intro h
      induction h with
      | single h =>
        rcases h with h | ⟨c, hc⟩
        · exact h
        · simp at hc
      | tail _ h ih =>
        rcases h with h | ⟨c, hc⟩
        · exact htr _ _ _ ih h
        · simp at hc
  | cons r rest ih =>
    intro R hfit hrev htr
    obtain ⟨b, d, c⟩ := r
    unfold registrationsFit at hfit
    simp only [Bool.and_eq_true] at hfit
    obtain ⟨hfit1, hfit2⟩ := hfit
    cases hreg : register_virtual_caster R b d c with
    | none =>
      rw [hreg] at hfit2
      simp at hfit2
    | some R1 =>
      rw [hreg] at hfit2
      simp only at hfit2
      obtain ⟨hiff, hrev1⟩ := register_lookup R R1 b d c hreg hfit1 hrev htr
      have htr1 : ∀ x y z, lookupIn R1.map x y ≠ none → lookupIn R1.map y z ≠ none →
          lookupIn R1.map x z ≠ none := by
        intro u v w huv hvw
        refine (hiff u w).2 ?_
        rcases (hiff u v).1 huv with huv | ⟨hu, hv⟩
        · rcases (hiff v w).1 hvw with hvw | ⟨hv, hw⟩
          · exact Or.inl (htr _ _ _ huv hvw)
          · refine Or.inr ⟨Or.inr ?_, hw⟩
            rcases hv with hv | hv
            · rw [← hv]
              exact huv
            · exact htr _ _ _ huv hv
        · rcases (hiff v w).1 hvw with hvw | ⟨_, hw⟩
          · refine Or.inr ⟨hu, Or.inr ?_⟩
            rcases hv with hv | hv
            · rw [← hv]
              exact hvw
            · exact htr _ _ _ hv hvw
          · exact Or.inr ⟨hu, hw⟩
      obtain ⟨R', hR', hcl⟩ := ih R1 hfit2 hrev1 htr1
      refine ⟨R', ?_, ?_⟩
      · simp only [registerRelations, hreg]
        exact hR'
      · intro x y
        rw [hcl]
        have hbd : Direct ((b, d, c) :: rest) b d := ⟨c, List.mem_cons_self _ _⟩
        constructor
        · intro h
          refine Relation.TransGen.lift' id ?_ h
          intro u v huv
          simp only [id]
          rcases huv with huv | ⟨c', hc'⟩
          · rcases (hiff u v).1 huv with h1 | ⟨hu, hv⟩
            · exact Relation.TransGen.single (Or.inl h1)
            · have h2 : Relation.TransGen
                  (fun u v => lookupIn R.map u v ≠ none ∨ Direct ((b, d, c) :: rest) u v)
                  u d := by
                rcases hu with hu | hu
                · rw [hu]
                  exact Relation.TransGen.single (Or.inr hbd)
                · exact Relation.TransGen.tail (Relation.TransGen.single (Or.inl hu))
                    (Or.inr hbd)
              rcases hv with hv | hv
              · rw [hv]
                exact h2
              · exact Relation.TransGen.tail h2 (Or.inl hv)
          · exact Relation.TransGen.single (Or.inr ⟨c', List.mem_cons_of_mem _ hc'⟩)
        · intro h
          refine Relation.TransGen.mono ?_ h
          intro u v huv
          rcases huv with huv | ⟨c', hc'⟩
          · exact Or.inl ((hiff u v).2 (Or.inl huv))
          · rcases List.mem_cons.1 hc' with he | he
            · simp only [Prod.mk.injEq] at he
              rw [he.1, he.2.1]
              exact Or.inl ((hiff b d).2 (Or.inr ⟨Or.inl rfl, Or.inl rfl⟩))
            · exact Or.inr ⟨c', he⟩

/-- [C12] After a sequence of calls of `register_virtual_caster` that starts
from the empty registry (and whose stored paths all have fewer than
`SIZE_MAX - 1` links, as every vector of a running program has), the sequence
returns a registry, and `lookup X Y` succeeds on it exactly when `Y` is
reachable from `X` by a chain of one or more pairs registered directly: the
stored relation is the transitive closure of the direct registrations. -/
theorem registry_is_transitive_closure {κ : Type} (regs : List (TypeKey × TypeKey × κ))
    (hfit : registrationsFit PolymorphicCasters.empty regs = true) :
    ∃ R, registerRelations PolymorphicCasters.empty regs = some R ∧
      ∀ X Y, R.lookup X Y ≠ none ↔ Relation.TransGen (Direct regs) X Y := by
  obtain ⟨R, hR, hcl⟩ := registerRelations_closure regs PolymorphicCasters.empty hfit
    (by
      intro x y h
      exact absurd rfl h)
    (by
      intro x y z h
      exact absurd rfl h)
  refine ⟨R, hR, ?_⟩
  intro X Y
  rw [lookup_eq_lookupIn, hcl]
  constructor
  · intro h
    refine Relation.TransGen.mono ?_ h
    intro u v huv
    rcases huv with huv | huv
    · exact absurd rfl huv
    · exact huv
  · intro h
    exact Relation.TransGen.mono (fun u v huv => Or.inr huv) h

theorem registry_is_transitive_closure_witness :
    registrationsFit PolymorphicCasters.empty [(1, 2, 12), (2, 3, 23), (3, 4, 34)] = true ∧
    ∃ R, registerRelations PolymorphicCasters.empty [(1, 2, 12), (2, 3, 23), (3, 4, 34)]
        = some R ∧
      ∀ X Y, R.lookup X Y ≠ none ↔
        Relation.TransGen (Direct [(1, 2, 12), (2, 3, 23), (3, 4, 34)]) X Y :=
  ⟨by decide, registry_is_transitive_closure _ (by decide)⟩

/-! ## Threads that guard their mutations are serialized -/

theorem mem_mapAssign_cases {κ ν : Type} [DecidableEq κ] (m : List (κ × ν)) (k : κ) (v : ν)
    (k1 : κ) (v1 : ν) (h : (k1, v1) ∈ m) :
    (k1, v1) ∈ mapAssign m k v ∨ (k1 = k ∧ mapFind m k = some v1) := by
  induction m with
  | nil => simp at h
  | cons e rest ih =>
    obtain ⟨k2, v2⟩ := e
    by_cases hk : k2 = k
    · simp only [mapAssign, mapFind, hk, if_true]
      rcases List.mem_cons.1 h with he | he
      · simp only [Prod.mk.injEq] at he
        exact Or.inr ⟨he.1.trans hk, by rw [he.2]⟩
      · exact Or.inl (List.mem_cons_of_mem _ he)
    · simp only [mapAssign, mapFind, hk, if_false]
      rcases List.mem_cons.1 h with he | he
      · left
        rw [he]
        exact List.mem_cons_self _ _
      · rcases ih he with h1 | h1
        · exact Or.inl (List.mem_cons_of_mem _ h1)
        · exact Or.inr h1

theorem mem_mapEmplace_of_mem {κ ν : Type} [DecidableEq κ] (m : List (κ × ν)) (k : κ) (v : ν)
    (x : κ × ν) (h : x ∈ m) : x ∈ mapEmplace m k v := by
  unfold mapEmplace
  cases mapFind m k with
  | some _ => exact h
  | none => exact List.mem_append_left _ h

/-- The direct insertion only lengthens a path, so the paths before it fit
when the paths after it do. -/
theorem pathsFit_of_insertDirect {κ : Type} (R : PolymorphicCasters κ) (b d : TypeKey) (c : κ)
    (h : pathsFit (insertDirect R b d c) = true) : pathsFit R = true := by
  unfold pathsFit at h ⊢
  rw [List.all_eq_true] at h ⊢
  intro e he
  rw [List.all_eq_true]
  intro f hf
  obtain ⟨k, dm⟩ := e
  obtain ⟨k2, p⟩ := f
  have hfitNew : ∀ (k1 : TypeKey) (dm1 : DerivedCasterMap κ),
      (k1, dm1) ∈ (insertDirect R b d c).map →
      ∀ (k3 : TypeKey) (p3 : List κ), (k3, p3) ∈ dm1 → p3.length < SIZE_MAX - 1 := by
    intro k1 dm1 h1 k3 p3 h3
    have := List.all_eq_true.1 (h _ h1) _ h3
    exact of_decide_eq_true this
  refine decide_eq_true ?_
  have hnew : (insertDirect R b d c).map =
      mapAssign (mapEmplace R.map b []) b
        (mapAssign (mapEmplace ((mapFind (mapEmplace R.map b []) b).getD []) d []) d
          ((mapFind (mapEmplace ((mapFind (mapEmplace R.map b []) b).getD []) d []) d).getD []
            ++ [c])) := rfl
  rcases mem_mapAssign_cases (mapEmplace R.map b []) b
      (mapAssign (mapEmplace ((mapFind (mapEmplace R.map b []) b).getD []) d []) d
          ((mapFind (mapEmplace ((mapFind (mapEmplace R.map b []) b).getD []) d []) d).getD []
            ++ [c]))
      k dm (mem_mapEmplace_of_mem _ _ _ _ he) with h1 | ⟨_, h1⟩
  · exact hfitNew k dm (by rw [hnew]; exact h1) k2 p hf
  · have hb : (b, mapAssign (mapEmplace ((mapFind (mapEmplace R.map b []) b).getD []) d []) d
          ((mapFind (mapEmplace ((mapFind (mapEmplace R.map b []) b).getD []) d []) d).getD []
            ++ [c])) ∈ (insertDirect R b d c).map := by
      rw [hnew]
      exact mem_of_mapFind (mapFind_mapAssign_self _ _ _)
    rw [h1] at hb
    simp only [Option.getD_some] at hb
    rcases mem_mapAssign_cases (mapEmplace dm d []) d
        ((mapFind (mapEmplace dm d []) d).getD [] ++ [c]) k2 p
        (mem_mapEmplace_of_mem _ _ _ _ hf) with h2 | ⟨_, h2⟩
    · exact hfitNew b _ hb k2 p h2
    · have h3 := hfitNew b _ hb d _ (mem_of_mapFind (mapFind_mapAssign_self _ _ _))
      rw [h2] at h3
      simp only [Option.getD_some, List.length_append, List.length_singleton] at h3
      show p.length < SIZE_MAX - 1
      omega

/-- A sequence of registrations whose paths fit has a shorter sequence whose
paths fit. -/
theorem registrationsFit_prefix {κ : Type} (r : TypeKey × TypeKey × κ) :
    ∀ (regs : List (TypeKey × TypeKey × κ)) (R : PolymorphicCasters κ),
      registrationsFit R (regs ++ [r]) = true → registrationsFit R regs = true := by
  intro regs
  induction regs with
  | nil =>
    intro R h
    obtain ⟨b, d, c⟩ := r
    simp only [List.nil_append, registrationsFit, Bool.and_eq_true] at h
    have h1 := h.1
    rw [casterLoopFits] at h1
    simp only [Bool.and_eq_true] at h1
    simp only [registrationsFit]
    exact pathsFit_of_insertDirect R b d c h1.1
  | cons e rest ih =>
    intro R h
    obtain ⟨b, d, c⟩ := e
    simp only [List.cons_append, registrationsFit, Bool.and_eq_true] at h ⊢
    refine ⟨h.1, ?_⟩
    cases hreg : register_virtual_caster R b d c with
    | none =>
      rw [hreg] at h
      simp at h
    | some R1 =>
      rw [hreg] at h
      simp only at h ⊢
      exact ih R1 h.2

theorem registerRelations_append {κ : Type} :
    ∀ (l1 l2 : List (TypeKey × TypeKey × κ)) (R R1 : PolymorphicCasters κ),
      registerRelations R l1 = some R1 →
      registerRelations R (l1 ++ l2) = registerRelations R1 l2 := by
  intro l1
  induction l1 with
  | nil =>
    intro l2 R R1 h
    simp only [registerRelations] at h
    cases h
    rfl
  | cons e rest ih =>
    intro l2 R R1 h
    obtain ⟨b, d, c⟩ := e
    simp only [List.cons_append, registerRelations] at h ⊢
    cases hreg : register_virtual_caster R b d c with
    | none =>
      rw [hreg] at h
      cases h
    | some R2 =>
      rw [hreg] at h
      simp only at h ⊢
      exact ih l2 R2 R1 h

/-- [C11] The function `register_virtual_caster` is idempotent on the stored
relation: in every registry reached from the empty one by a sequence of
registrations (whose stored paths all have fewer than `SIZE_MAX - 1` links, as
every vector of a running program has), the registration of `(base, derived,
c)` and a second registration of the same triple both return, and `lookup x y`
succeeds after the second exactly when it succeeds after the first, for all
`x` and `y`. -/
theorem register_twice_same_relation {κ : Type} (regs : List (TypeKey × TypeKey × κ))
    (b d : TypeKey) (c : κ)
    (hfit : registrationsFit PolymorphicCasters.empty (regs ++ [(b, d, c), (b, d, c)]) = true) :
    ∃ R1 R2 : PolymorphicCasters κ,
      registerRelations PolymorphicCasters.empty (regs ++ [(b, d, c)]) = some R1 ∧
      register_virtual_caster R1 b d c = some R2 ∧
      ∀ x y, R2.lookup x y ≠ none ↔ R1.lookup x y ≠ none := by
  have hemptyRev : ∀ x y, lookupIn (PolymorphicCasters.empty : PolymorphicCasters κ).map x y
      ≠ none → (y, x) ∈ (PolymorphicCasters.empty : PolymorphicCasters κ).reverseMap :=
    fun x y h => absurd rfl h
  have hemptyTr : ∀ x y z,
      lookupIn (PolymorphicCasters.empty : PolymorphicCasters κ).map x y ≠ none →
      lookupIn (PolymorphicCasters.empty : PolymorphicCasters κ).map y z ≠ none →
      lookupIn (PolymorphicCasters.empty : PolymorphicCasters κ).map x z ≠ none :=
    fun x y z h => absurd rfl h
  have hsplit : regs ++ [(b, d, c), (b, d, c)] = (regs ++ [(b, d, c)]) ++ [(b, d, c)] := by
    simp
  have hfit1 : registrationsFit PolymorphicCasters.empty (regs ++ [(b, d, c)]) = true := by
    rw [hsplit] at hfit
    exact registrationsFit_prefix _ _ _ hfit
  obtain ⟨R1, hR1, hcl1⟩ := registerRelations_closure (regs ++ [(b, d, c)])
    PolymorphicCasters.empty hfit1 hemptyRev hemptyTr
  obtain ⟨R2, hR2, hcl2⟩ := registerRelations_closure (regs ++ [(b, d, c), (b, d, c)])
    PolymorphicCasters.empty hfit hemptyRev hemptyTr
  refine ⟨R1, R2, hR1, ?_, ?_⟩
  · rw [hsplit, registerRelations_append _ _ _ R1 hR1] at hR2
    simp only [registerRelations] at hR2
    cases hreg : register_virtual_caster R1 b d c with
    | none =>
      rw [hreg] at hR2
      cases hR2
    | some R3 =>
      rw [hreg] at hR2
      simp only at hR2
      rw [hR2]
  · intro x y
    rw [lookup_eq_lookupIn, lookup_eq_lookupIn, hcl1, hcl2]
    constructor
    · intro h
      refine Relation.TransGen.mono ?_ h
      intro u v huv
      rcases huv with huv | ⟨c1, hc1⟩
      · exact Or.inl huv
      · refine Or.inr ⟨c1, ?_⟩
        simp only [List.mem_append, List.mem_cons, List.mem_singleton, List.not_mem_nil,
          or_false, or_self] at hc1 ⊢
        exact hc1
    · intro h
      refine Relation.TransGen.mono ?_ h
      intro u v huv
      rcases huv with huv | ⟨c1, hc1⟩
      · exact Or.inl huv
      · refine Or.inr ⟨c1, ?_⟩
        simp only [List.mem_append, List.mem_cons, List.mem_singleton, List.not_mem_nil,
          or_false, or_self] at hc1 ⊢
        exact hc1

theorem register_twice_same_relation_witness :
    registrationsFit PolymorphicCasters.empty
      ([(2, 3, 23), (3, 4, 34)] ++ [(1, 2, 12), (1, 2, 12)]) = true ∧
    ∃ R1 R2 : PolymorphicCasters Nat,
      registerRelations PolymorphicCasters.empty ([(2, 3, 23), (3, 4, 34)] ++ [(1, 2, 12)])
        = some R1 ∧
      register_virtual_caster R1 1 2 12 = some R2 ∧
      ∀ x y, R2.lookup x y ≠ none ↔ R1.lookup x y ≠ none :=
  ⟨by decide, register_twice_same_relation [(2, 3, 23), (3, 4, 34)] 1 2 12 (by decide)⟩

end Ser20
